import Mathlib

/-!
# GammaRay object visualizer: `VtkWidget` identity synchronisation

A shallow embedding of `src/plugins/objectvisualizer/vtkwidget.cpp`.

* A `QObject` is a value carrying its own parent chain, so the parent links are
  fixed and acyclic by construction; two values are the same object exactly
  when they are equal.
* A `QObject*` that may be null is an `Option QObject`.
* The toolkit's graph (`vtkMutableDirectedGraph`) is external; it is modelled
  as a dense list of vertex property tuples plus a list of directed edges.
* `QMap` / `QSet` members are association lists / duplicate-free lists. Their
  declarations live in `vtkwidget.h`, which is not part of the sources, so the
  iteration order is the insertion order named by the specification.
-/

namespace GammaRay

/-! ## Objects -/

/-- A host object: an identity tag, the class name reported by its meta object,
and (for a child) the parent object. -/
inductive QObject where
  | root (ident : Nat) (className : String)
  | child (ident : Nat) (className : String) (parentObject : QObject)
deriving DecidableEq, Repr

namespace QObject

/-- `object->metaObject()->className()`. -/
def className : QObject → String
  | root _ c => c
  | child _ c _ => c

/-- `object->parent()`; `none` is the null pointer. -/
def parent : QObject → Option QObject
  | root _ _ => none
  | child _ _ p => some p

end QObject

/-! ## The toolkit's graph store -/

/-- The property tuple handed to `AddVertex` (`m_vertexPropertyArr`): label,
weight and colour index. The label `Util::displayString(object)` is kept as the
object it was computed from. -/
structure VertexProps where
  label : QObject
  weight : Nat
  color : Nat
deriving DecidableEq, Repr

/-- Modelled from the spec: the toolkit's dense vertex-indexed directed graph.
Vertex ids are the positions of `vertexData`. The field `addLog` is a ghost
record of every property tuple ever passed to `AddVertex`, oldest first; no
operation reads it. -/
structure Graph where
  vertexData : List VertexProps
  edges : List (Nat × Nat)
  addLog : List VertexProps
deriving DecidableEq, Repr

namespace Graph

/-- The graph right after `vtkMutableDirectedGraph::New()`. -/
def empty : Graph := ⟨[], [], []⟩

/-- `GetNumberOfVertices()`. -/
def GetNumberOfVertices (g : Graph) : Nat := g.vertexData.length

/-- `GetNumberOfEdges()`. -/
def GetNumberOfEdges (g : Graph) : Nat := g.edges.length

/-- Modelled from the spec: `AddVertex(props)` creates the vertex with the next
free id and returns that id. -/
def AddVertex (g : Graph) (props : VertexProps) : Nat × Graph :=
  (g.vertexData.length,
    { g with vertexData := g.vertexData ++ [props], addLog := g.addLog ++ [props] })

/-- Modelled from the spec: `AddEdge(u, v)` adds a directed edge from `u` to `v`. -/
def AddEdge (g : Graph) (u v : Nat) : Graph :=
  { g with edges := g.edges ++ [(u, v)] }

/-- Renumbering of an edge endpoint when vertex `last` is moved into slot `v`. -/
def renumber (last v x : Nat) : Nat := if x = last then v else x

/-- Modelled from the spec: `RemoveVertex(v)` drops the edges incident to `v`,
moves the vertex with the highest id into slot `v` (renumbering its edges) and
shrinks the store by one. An id that is not a vertex is ignored. -/
def RemoveVertex (g : Graph) (v : Nat) : Graph :=
  if v < g.vertexData.length then
    let last := g.vertexData.length - 1
    match g.vertexData.getLast? with
    | none => g
    | some lastProps =>
      { g with
        vertexData := (g.vertexData.set v lastProps).dropLast
        edges := (g.edges.filter (fun e => decide (e.1 ≠ v ∧ e.2 ≠ v))).map
          (fun e => (renumber last v e.1, renumber last v e.2)) }
  else g

end Graph

/-! ## Containers -/

/-- `QMap<QObject*, vtkIdType>`: the identity map. Keys are pointers. -/
abbrev ObjectIdMap := List (Option QObject × Nat)

namespace ObjectIdMap

/-- `contains(key)`. -/
def contains (m : ObjectIdMap) (k : Option QObject) : Bool :=
  m.any (fun e => decide (e.1 = k))

/-- Lookup of the stored id, `none` when the key is absent. -/
def find (m : ObjectIdMap) (k : Option QObject) : Option Nat :=
  (m.find? (fun e => decide (e.1 = k))).map Prod.snd

/-- Reading `m[key]`: the stored id, or the default `0` for an absent key. -/
def value (m : ObjectIdMap) (k : Option QObject) : Nat :=
  (find m k).getD 0

/-- Value lookup `key(value)`: the first key mapped to `v`, or the default
constructed key (the null pointer) when there is none. -/
def key (m : ObjectIdMap) (v : Nat) : Option QObject :=
  match m.find? (fun e => decide (e.2 = v)) with
  | some e => e.1
  | none => none

/-- Assignment `m[key] = v`: overwrite an existing entry, else create one. -/
def insert : ObjectIdMap → Option QObject → Nat → ObjectIdMap
  | [], k, v => [(k, v)]
  | e :: m, k, v => if e.1 = k then (k, v) :: m else e :: insert m k v

/-- `remove(key)`. -/
def remove (m : ObjectIdMap) (k : Option QObject) : ObjectIdMap :=
  m.filter (fun e => decide (e.1 ≠ k))

/-- `keys()`. -/
def keys (m : ObjectIdMap) : List (Option QObject) := m.map Prod.fst

/-- `size()`. -/
def size (m : ObjectIdMap) : Nat := m.length

end ObjectIdMap

/-- `QMap<QString, int>`: colour index per class name. -/
abbrev TypeColorMap := List (String × Nat)

namespace TypeColorMap

/-- `constFind(className)`; `none` is `constEnd()`. -/
def constFind (m : TypeColorMap) (c : String) : Option Nat :=
  (m.find? (fun e => decide (e.1 = c))).map Prod.snd

/-- `insert(className, index)`. -/
def insert : TypeColorMap → String → Nat → TypeColorMap
  | [], k, v => [(k, v)]
  | e :: m, k, v => if e.1 = k then (k, v) :: m else e :: insert m k v

end TypeColorMap

/-- `m_availableObjects << object` on the set of available objects. -/
def poolInsert (s : List QObject) (o : QObject) : List QObject :=
  if o ∈ s then s else s ++ [o]

/-- `m_availableObjects.remove(object)`; a null pointer is never a member. -/
def poolRemove (s : List QObject) (o : Option QObject) : List QObject :=
  s.filter (fun x => decide (some x ≠ o))

/-! ## The widget -/

/-- The members of `VtkWidget`, the function-local `static int colorIndex`, the
state of the single-shot update timer and counters for the view's `Render()`
and `ResetCamera()` calls. -/
structure VtkWidget where
  m_mousePressed : Bool
  m_updateTimerActive : Bool
  m_objectFilter : Option QObject
  m_colorIndex : Nat
  m_availableObjects : List QObject
  m_objectIdMap : ObjectIdMap
  m_typeColorMap : TypeColorMap
  m_graph : Graph
  colorIndex : Nat
  renderCount : Nat
  resetCameraCount : Nat
deriving DecidableEq, Repr

namespace VtkWidget

/-- The constructor `VtkWidget::VtkWidget` (after `setupGraph`, which renders
and resets the camera once). -/
def new : VtkWidget :=
  { m_mousePressed := false
    m_updateTimerActive := false
    m_objectFilter := none
    m_colorIndex := 0
    m_availableObjects := []
    m_objectIdMap := []
    m_typeColorMap := []
    m_graph := Graph.empty
    colorIndex := 0
    renderCount := 1
    resetCameraCount := 1 }

/-- `VtkWidget::resetCamera`. -/
def resetCamera (w : VtkWidget) : VtkWidget :=
  { w with resetCameraCount := w.resetCameraCount + 1 }

/-- `VtkWidget::mousePressEvent`. -/
def mousePressEvent (w : VtkWidget) : VtkWidget :=
  { w with m_mousePressed := true }

/-- `VtkWidget::mouseReleaseEvent`. -/
def mouseReleaseEvent (w : VtkWidget) : VtkWidget :=
  { w with m_mousePressed := false }

/-- `VtkWidget::renderView`: (re)starts the zero-delay single-shot timer. -/
def renderView (w : VtkWidget) : VtkWidget :=
  { w with m_updateTimerActive := true }

/-- `VtkWidget::renderViewImpl`. -/
def renderViewImpl (w : VtkWidget) : VtkWidget :=
  { w with renderCount := w.renderCount + 1, resetCameraCount := w.resetCameraCount + 1 }

/-- The event loop delivering the timer's `timeout()`: a single-shot timer that
is active fires once, becomes inactive and runs the connected slot. -/
def timerEvent (w : VtkWidget) : VtkWidget :=
  if w.m_updateTimerActive then renderViewImpl { w with m_updateTimerActive := false } else w

/-- The file-static `descendantOf(ascendant, obj)`. -/
def descendantOf (ascendant : QObject) : QObject → Bool
  | .root _ _ => false
  | .child _ _ parent => if parent = ascendant then true else descendantOf ascendant parent

/-- `VtkWidget::filterAcceptsObject`. -/
def filterAcceptsObject (w : VtkWidget) (object : QObject) : Bool :=
  match w.m_objectFilter with
  | some filter =>
    if object = filter then true
    else if descendantOf filter object then true
    else false
  | none => true

/-- The statement `m_availableObjects << object`. -/
def poolAdd (w : VtkWidget) (object : QObject) : VtkWidget :=
  { w with m_availableObjects := poolInsert w.m_availableObjects object }

/-- The four early returns of `addObjectInternal` (lines 225-244): `true` when
the object is rejected. -/
def addRejected (w : VtkWidget) (object : QObject) : Bool :=
  if w.m_mousePressed then true
  else if object.className = "QVTKInteractorInternal" then true
  else if w.m_objectIdMap.contains (some object) then true
  else if !filterAcceptsObject w object then true
  else false

/-- Lines 246-264 of `addObjectInternal`: fill the property tuple, pick the
colour, create the vertex and record its id. Returns the new state and the id. -/
def createVertex (w : VtkWidget) (object : QObject) : VtkWidget × Nat :=
  let className := object.className
  let weight := 1
  let colorIndex := w.colorIndex % 10
  let (color, typeColorMap, mColorIndex) :=
    match w.m_typeColorMap.constFind className with
    | some c => (c, w.m_typeColorMap, w.m_colorIndex)
    | none => (w.m_colorIndex, w.m_typeColorMap.insert className w.m_colorIndex,
        w.m_colorIndex + 1)
  let (type, graph) := w.m_graph.AddVertex ⟨object, weight, color⟩
  ({ w with
      colorIndex := colorIndex
      m_typeColorMap := typeColorMap
      m_colorIndex := mColorIndex
      m_graph := graph
      m_objectIdMap := w.m_objectIdMap.insert (some object) type }, type)

/-- Lines 271-274 of `addObjectInternal`: the edge from the parent's vertex. -/
def addParentEdge (w : VtkWidget) (parentObject : QObject) (type : Nat) : VtkWidget :=
  if w.m_objectIdMap.contains (some parentObject) then
    { w with m_graph := w.m_graph.AddEdge (w.m_objectIdMap.value (some parentObject)) type }
  else w

/-- `VtkWidget::addObjectInternal`. The recursive call `addObject(parentObject)`
is written out as its body: `poolAdd`, then `addObjectInternal`. -/
def addObjectInternal : QObject → VtkWidget → Bool × VtkWidget
  | .root i c, w =>
    if addRejected w (.root i c) then (false, w)
    else (true, renderView (createVertex w (.root i c)).1)
  | .child i c parentObject, w =>
    if addRejected w (.child i c parentObject) then (false, w)
    else
      let (w1, type) := createVertex w (.child i c parentObject)
      let w2 :=
        if !w1.m_objectIdMap.contains (some parentObject) then
          (addObjectInternal parentObject (poolAdd w1 parentObject)).2
        else w1
      (true, renderView (addParentEdge w2 parentObject type))

/-- `VtkWidget::addObject`. -/
def addObject (w : VtkWidget) (object : QObject) : Bool × VtkWidget :=
  addObjectInternal object (poolAdd w object)

/-- `VtkWidget::removeObjectInternal`. -/
def removeObjectInternal (w : VtkWidget) (object : Option QObject) : Bool × VtkWidget :=
  if !w.m_objectIdMap.contains object then (false, w)
  else
    let type := w.m_objectIdMap.value object
    let size := w.m_graph.GetNumberOfVertices
    let graph := w.m_graph.RemoveVertex type
    let lastId := w.m_objectIdMap.size - 1
    let map1 :=
      if type ≠ lastId then
        let lastObject := w.m_objectIdMap.key lastId
        w.m_objectIdMap.insert lastObject type
      else w.m_objectIdMap
    let map2 :=
      if size > graph.GetNumberOfVertices then map1.remove object else map1
    (true, renderView { w with m_graph := graph, m_objectIdMap := map2 })

/-- The statement `m_availableObjects.remove(object)`. -/
def poolDel (w : VtkWidget) (object : Option QObject) : VtkWidget :=
  { w with m_availableObjects := poolRemove w.m_availableObjects object }

/-- `VtkWidget::removeObject`. -/
def removeObject (w : VtkWidget) (object : Option QObject) : Bool × VtkWidget :=
  removeObjectInternal (poolDel w object) object

/-- The loop `Q_FOREACH (QObject *object, ...) removeObjectInternal(object)` of
`clear`, over a snapshot `l` of the keys. -/
def removeAll (w : VtkWidget) (l : List (Option QObject)) : VtkWidget :=
  l.foldl (fun acc object => (removeObjectInternal acc object).2) w

/-- `VtkWidget::clear`. -/
def clear (w : VtkWidget) : VtkWidget :=
  let w1 := removeAll w w.m_objectIdMap.keys
  renderView { w1 with m_objectIdMap := [] }

/-- The loop `Q_FOREACH (QObject *object, m_availableObjects) addObject(object)`
of `repopulate`, over a snapshot `l` of the pool. -/
def addAll (w : VtkWidget) (l : List QObject) : VtkWidget :=
  l.foldl (fun acc object => (addObject acc object).2) w

/-- `VtkWidget::repopulate`. -/
def repopulate (w : VtkWidget) : VtkWidget :=
  let w1 := clear w
  addAll w1 w1.m_availableObjects

/-- `VtkWidget::setObjectFilter`. -/
def setObjectFilter (w : VtkWidget) (object : Option QObject) : VtkWidget :=
  if w.m_objectFilter = object then w
  else resetCamera (repopulate { w with m_objectFilter := object })

end VtkWidget

/-! ## Executions -/

/-- The calls and events the widget receives. -/
inductive Op where
  | addObject (object : QObject)
  | removeObject (object : Option QObject)
  | clear
  | setObjectFilter (object : Option QObject)
  | mousePress
  | mouseRelease
  | timeout
deriving DecidableEq, Repr

/-- One call or event applied to the widget. -/
def step (w : VtkWidget) : Op → VtkWidget
  | .addObject o => (w.addObject o).2
  | .removeObject o => (w.removeObject o).2
  | .clear => w.clear
  | .setObjectFilter o => w.setObjectFilter o
  | .mousePress => w.mousePressEvent
  | .mouseRelease => w.mouseReleaseEvent
  | .timeout => w.timerEvent

/-- Run a sequence of calls and events from a given state. -/
def run (w : VtkWidget) (ops : List Op) : VtkWidget := ops.foldl step w

/-- The states reachable from the freshly constructed widget. -/
def Reachable (w : VtkWidget) : Prop := ∃ ops : List Op, w = run VtkWidget.new ops

/-- A parent `P` with two children `C1`, `C2`, as in the specification's scenario. -/
def objP : QObject := .root 1 "QWidget"

/-- First child of `objP`. -/
def objC1 : QObject := .child 2 "QLabel" objP

/-- Second child of `objP`. -/
def objC2 : QObject := .child 3 "QPushButton" objP

/-- The chain `A -> B -> C` of the specification's filter scenario. -/
def objA : QObject := .root 10 "QMainWindow"

/-- Child of `objA`. -/
def objB : QObject := .child 11 "QFrame" objA

/-- Child of `objB`. -/
def objC : QObject := .child 12 "QLabel" objB

/-- The filter scenario state: `A`, `B`, `C` added to a fresh widget. -/
def scenarioABC : VtkWidget :=
  run VtkWidget.new [.addObject objA, .addObject objB, .addObject objC]

/-- The scenario state: `P`, `C1`, `C2` added to a fresh widget in that order. -/
def scenarioPCC : VtkWidget :=
  run VtkWidget.new [.addObject objP, .addObject objC1, .addObject objC2]

/-- Eleven parentless objects of eleven different classes, added in order. -/
def elevenTypes : List Op :=
  [.addObject (.root 100 "QObject"), .addObject (.root 101 "QWidget"),
   .addObject (.root 102 "QLabel"), .addObject (.root 103 "QFrame"),
   .addObject (.root 104 "QTimer"), .addObject (.root 105 "QAction"),
   .addObject (.root 106 "QMenu"), .addObject (.root 107 "QLayout"),
   .addObject (.root 108 "QDialog"), .addObject (.root 109 "QThread"),
   .addObject (.root 110 "QSlider")]

/-- A class name for each number: `k + 1` letters `T`. -/
def freshClass (k : Nat) : String := String.mk (List.replicate (k + 1) 'T')

/-- A parentless object of class `freshClass k`. -/
def typeObj (k : Nat) : QObject := .root k (freshClass k)

/-- The host adds `typeObj 0`, ..., `typeObj (n - 1)` in order. -/
def manyTypes (n : Nat) : List Op := (List.range n).map (fun k => Op.addObject (typeObj k))

/-- The object is tracked: it has an entry in the identity map. -/
def Tracked (w : VtkWidget) (o : QObject) : Prop :=
  w.m_objectIdMap.contains (some o) = true

instance (w : VtkWidget) (o : QObject) : Decidable (Tracked w o) := by
  unfold Tracked; infer_instance

/-! ## Invariants and specification-level notions -/

/-- The identity map and the graph store agree: keys are distinct, there are as
many entries as vertices, every entry names a non-null object whose vertex sits
at the recorded id, and every edge joins existing vertices. -/
structure Inv (w : VtkWidget) : Prop where
  nodup : (ObjectIdMap.keys w.m_objectIdMap).Nodup
  size_eq : w.m_objectIdMap.length = w.m_graph.vertexData.length
  agree : ∀ k i, (k, i) ∈ w.m_objectIdMap →
    ∃ vp, w.m_graph.vertexData[i]? = some vp ∧ k = some vp.label
  edges_valid : ∀ e ∈ w.m_graph.edges,
    e.1 < w.m_graph.vertexData.length ∧ e.2 < w.m_graph.vertexData.length

/-- The specification's "strict descendant through the parent chain":
`StrictDescendant a o` holds when `a` is the parent of `o` or of one of the
ancestors of `o`. -/
inductive StrictDescendant (a : QObject) : QObject → Prop where
  | direct {o : QObject} : o.parent = some a → StrictDescendant a o
  | step {o p : QObject} : o.parent = some p → StrictDescendant a p → StrictDescendant a o

/-- The visible set matches the filter: the pointer is not pressed, every
tracked object is in the pool and passes the filter and class guards, and every
pool member outside `pool0` that passes them is tracked. -/
structure FilterInv (pool0 : List QObject) (v : VtkWidget) : Prop where
  pressed : v.m_mousePressed = false
  sound : ∀ o, Tracked v o →
    o ∈ v.m_availableObjects ∧ v.filterAcceptsObject o = true ∧
      o.className ≠ "QVTKInteractorInternal"
  complete : ∀ o, o ∈ v.m_availableObjects → o ∉ pool0 → v.filterAcceptsObject o = true →
    o.className ≠ "QVTKInteractorInternal" → Tracked v o

/-- Colours are a function of the class name: every property tuple ever passed
to `AddVertex` carries the colour recorded for its class name, and every live
vertex is one of those tuples. -/
structure ColorInv (v : VtkWidget) : Prop where
  logged : ∀ vp ∈ v.m_graph.addLog,
    v.m_typeColorMap.constFind vp.label.className = some vp.color
  live : ∀ vp ∈ v.m_graph.vertexData, vp ∈ v.m_graph.addLog

/-- The state after `addObject(P)` was called on a fresh widget while the
pointer was pressed. -/
def droppedState : VtkWidget := (VtkWidget.new.mousePressEvent.addObject objP).2

/-- Every tracked object is a pool member that passes the filter and class
guards of the current state. -/
def TrackedSound (w : VtkWidget) : Prop :=
  ∀ o, Tracked w o →
    o ∈ w.m_availableObjects ∧ w.filterAcceptsObject o = true ∧
      o.className ≠ "QVTKInteractorInternal"

/-- Every edge joins the vertex of a tracked object to the vertex of a tracked
child of that object, and no vertex is the target of two edges. -/
structure EdgeInv (w : VtkWidget) : Prop where
  sound : ∀ e ∈ w.m_graph.edges, ∃ p c,
    (some p, e.1) ∈ w.m_objectIdMap ∧ (some c, e.2) ∈ w.m_objectIdMap ∧ c.parent = some p
  targets : (w.m_graph.edges.map Prod.snd).Nodup

/-- The graph mirrors the parent links of the tracked objects outside the set
`S` of objects whose add is still in progress: the parent of such an object is
tracked unless a guard rejects it, and when it is tracked the edge from the
parent's id to the child's id is in the store. -/
structure MirrorInv (S : QObject → Prop) (w : VtkWidget) : Prop where
  closed : ∀ c p, Tracked w c → ¬ S c → c.parent = some p →
    Tracked w p ∨ w.filterAcceptsObject p = false ∨ p.className = "QVTKInteractorInternal"
  mirror : ∀ c p, Tracked w c → ¬ S c → Tracked w p → c.parent = some p →
    ∃ ip ic, w.m_objectIdMap.find (some p) = some ip ∧
      w.m_objectIdMap.find (some c) = some ic ∧ (ip, ic) ∈ w.m_graph.edges

/-- A call is safe when it does not remove a tracked object while one of its
children is tracked. Every other call or event is safe. -/
def SafeOp (w : VtkWidget) : Op → Prop
  | .removeObject k => ∀ x, k = some x → Tracked w x → ∀ c, Tracked w c → c.parent ≠ some x
  | _ => True

/-- The states reachable from the freshly constructed widget by safe calls and
events only. -/
inductive SafeReachable : VtkWidget → Prop where
  | init : SafeReachable VtkWidget.new
  | next {w : VtkWidget} (op : Op) : SafeReachable w → SafeOp w op → SafeReachable (step w op)

/-- The state after adding `C1` (which pulls in `P`), removing `P` and adding
`P` again. -/
def orphanState : VtkWidget :=
  run VtkWidget.new [.addObject objC1, .removeObject (some objP), .addObject objP]

/-! ## Identity map lemmas -/

namespace ObjectIdMap

theorem contains_iff (m : ObjectIdMap) (k : Option QObject) :
    contains m k = true ↔ ∃ i, (k, i) ∈ m := by
  unfold contains
  simp only [List.any_eq_true, decide_eq_true_eq]
  constructor
  · rintro ⟨⟨k1, i⟩, hmem, rfl⟩
    exact ⟨i, hmem⟩
  · rintro ⟨i, hmem⟩
    exact ⟨(k, i), hmem, rfl⟩

theorem contains_eq_false_iff (m : ObjectIdMap) (k : Option QObject) :
    contains m k = false ↔ ∀ i, (k, i) ∉ m := by
  rw [← Bool.not_eq_true, contains_iff]
  simp

theorem mem_of_find {m : ObjectIdMap} {k : Option QObject} {i : Nat}
    (h : find m k = some i) : (k, i) ∈ m := by
  unfold find at h
  simp only [Option.map_eq_some'] at h
  obtain ⟨⟨k1, i1⟩, hf, hi⟩ := h
  have h1 := List.find?_some hf
  have h2 := List.mem_of_find?_eq_some hf
  simp only [decide_eq_true_eq] at h1
  simp only at hi
  subst h1; subst hi
  exact h2

theorem find_of_mem {m : ObjectIdMap} {k : Option QObject} {i : Nat}
    (hnd : (keys m).Nodup) (h : (k, i) ∈ m) : find m k = some i := by
  induction m with
  | nil => simp at h
  | cons e m ih =>
    obtain ⟨k1, i1⟩ := e
    simp only [keys, List.map_cons, List.nodup_cons, List.mem_map, not_exists, not_and] at hnd
    by_cases hk : k1 = k
    · subst hk
      rcases List.mem_cons.1 h with h | h
      · cases h
        simp [find]
      · exact absurd rfl (hnd.1 (k1, i) h)
    · rcases List.mem_cons.1 h with h | h
      · cases h
        exact absurd rfl hk
      · have := ih hnd.2 h
        unfold find at this ⊢
        simpa [List.find?_cons, hk] using this

theorem find_isSome_iff (m : ObjectIdMap) (k : Option QObject) :
    (∃ i, find m k = some i) ↔ contains m k = true := by
  rw [contains_iff]
  constructor
  · rintro ⟨i, h⟩
    exact ⟨i, mem_of_find h⟩
  · rintro ⟨i, h⟩
    induction m with
    | nil => simp at h
    | cons e m ih =>
      by_cases hk : e.1 = k
      · exact ⟨e.2, by simp [find, List.find?_cons, hk]⟩
      · rcases List.mem_cons.1 h with h | h
        · subst h
          exact absurd rfl hk
        · obtain ⟨j, hj⟩ := ih h
          refine ⟨j, ?_⟩
          unfold find at hj ⊢
          simpa [List.find?_cons, hk] using hj

theorem value_of_find {m : ObjectIdMap} {k : Option QObject} {i : Nat}
    (h : find m k = some i) : value m k = i := by
  simp [value, h]

theorem insert_of_not_contains {m : ObjectIdMap} {k : Option QObject} (v : Nat)
    (h : contains m k = false) : insert m k v = m ++ [(k, v)] := by
  induction m with
  | nil => rfl
  | cons e m ih =>
    simp only [contains, List.any_cons, Bool.or_eq_false_iff, decide_eq_false_iff_not] at h
    simp only [insert, h.1, if_false, List.cons_append]
    rw [ih (by simpa [contains] using h.2)]

theorem keys_insert_of_contains {m : ObjectIdMap} {k : Option QObject} (v : Nat)
    (h : contains m k = true) : keys (insert m k v) = keys m := by
  induction m with
  | nil => simp [contains] at h
  | cons e m ih =>
    by_cases hk : e.1 = k
    · simp [insert, hk, keys]
    · simp only [contains, List.any_cons, hk, decide_False, Bool.false_or] at h
      simp only [insert, hk, if_false, keys, List.map_cons, List.cons.injEq, true_and]
      exact ih (by simpa [contains] using h)

theorem length_insert_of_contains {m : ObjectIdMap} {k : Option QObject} (v : Nat)
    (h : contains m k = true) : (insert m k v).length = m.length := by
  have := congrArg List.length (keys_insert_of_contains v h)
  simpa [keys] using this

theorem mem_insert_iff {m : ObjectIdMap} {k : Option QObject} {v : Nat}
    (hnd : (keys m).Nodup) (k1 : Option QObject) (i : Nat) :
    (k1, i) ∈ insert m k v ↔ (k1 = k ∧ i = v) ∨ (k1 ≠ k ∧ (k1, i) ∈ m) := by
  induction m with
  | nil => simp [insert]
  | cons e m ih =>
    obtain ⟨k2, i2⟩ := e
    simp only [keys, List.map_cons, List.nodup_cons, List.mem_map, not_exists, not_and] at hnd
    by_cases hk : k2 = k
    · subst hk
      simp only [insert, if_true, List.mem_cons, Prod.mk.injEq]
      constructor
      · rintro (h | h)
        · exact Or.inl h
        · right
          refine ⟨?_, Or.inr h⟩
          rintro rfl
          exact hnd.1 (k1, i) h rfl
      · rintro (h | ⟨hne, h | h⟩)
        · exact Or.inl h
        · exact absurd h.1 hne
        · exact Or.inr h
    · simp only [insert, hk, if_false, List.mem_cons, Prod.mk.injEq, ih hnd.2]
      constructor
      · rintro (⟨rfl, rfl⟩ | h | h)
        · exact Or.inr ⟨hk, Or.inl ⟨rfl, rfl⟩⟩
        · exact Or.inl h
        · exact Or.inr ⟨h.1, Or.inr h.2⟩
      · rintro (h | ⟨hne, h | h⟩)
        · exact Or.inr (Or.inl h)
        · exact Or.inl h
        · exact Or.inr (Or.inr ⟨hne, h⟩)

theorem mem_remove_iff (m : ObjectIdMap) (k k1 : Option QObject) (i : Nat) :
    (k1, i) ∈ remove m k ↔ k1 ≠ k ∧ (k1, i) ∈ m := by
  simp [remove, List.mem_filter, and_comm]

theorem keys_remove_nodup {m : ObjectIdMap} (k : Option QObject)
    (hnd : (keys m).Nodup) : (keys (remove m k)).Nodup := by
  unfold keys remove
  exact hnd.sublist ((List.filter_sublist m).map Prod.fst)

theorem length_remove {m : ObjectIdMap} {k : Option QObject}
    (hnd : (keys m).Nodup) (h : contains m k = true) :
    (remove m k).length + 1 = m.length := by
  induction m with
  | nil => simp [contains] at h
  | cons e m ih =>
    simp only [keys, List.map_cons, List.nodup_cons, List.mem_map, not_exists, not_and] at hnd
    by_cases hk : e.1 = k
    · have hall : ∀ x ∈ m, decide (x.1 ≠ k) = true := by
        intro x hx
        simp only [ne_eq, decide_not, Bool.not_eq_eq_eq_not, Bool.not_true, decide_eq_false_iff_not]
        intro hxk
        exact hnd.1 x hx (hxk.trans hk.symm)
      simp only [remove, List.filter_cons, hk, ne_eq, not_true_eq_false, decide_False,
        List.length_cons, Nat.add_right_cancel_iff]
      rw [List.filter_eq_self.2 hall]
      simp
    · simp only [contains, List.any_cons, hk, decide_False, Bool.false_or] at h
      have := ih hnd.2 (by simpa [contains] using h)
      simp only [remove, List.filter_cons, hk, ne_eq, not_false_eq_true, decide_True,
        List.length_cons] at this ⊢
      simpa using this

theorem key_spec {m : ObjectIdMap} {v : Nat} (h : ∃ k, (k, v) ∈ m) :
    (key m v, v) ∈ m := by
  obtain ⟨k, hk⟩ := h
  unfold key
  cases hf : m.find? (fun e => decide (e.2 = v)) with
  | none =>
    have := List.find?_eq_none.1 hf (k, v) hk
    simp at this
  | some e =>
    have h1 := List.find?_some hf
    have h2 := List.mem_of_find?_eq_some hf
    simp only [decide_eq_true_eq] at h1
    obtain ⟨k2, i2⟩ := e
    simp only at h1
    subst h1
    exact h2

theorem find_insert_self (m : ObjectIdMap) (k : Option QObject) (v : Nat) :
    find (insert m k v) k = some v := by
  induction m with
  | nil => simp [insert, find]
  | cons e m ih =>
    by_cases hk : e.1 = k
    · simp [insert, hk, find]
    · unfold find at ih ⊢
      simpa [insert, hk, List.find?_cons] using ih

theorem find_insert_of_ne (m : ObjectIdMap) {k k1 : Option QObject} (v : Nat) (h : k1 ≠ k) :
    find (insert m k v) k1 = find m k1 := by
  induction m with
  | nil =>
    have : ¬ k = k1 := fun hh => h hh.symm
    simp [insert, find, this]
  | cons e m ih =>
    by_cases hk : e.1 = k
    · have h1 : ¬ e.1 = k1 := fun hh => h (hh.symm.trans hk)
      have h2 : ¬ k = k1 := fun hh => h hh.symm
      simp [insert, hk, find, List.find?_cons, h1, h2]
    · by_cases hk1 : e.1 = k1
      · simp only [insert, hk, if_false, find, List.find?_cons]
        simp [hk1]
      · unfold find at ih ⊢
        simpa [insert, hk, List.find?_cons, hk1] using ih

theorem contains_eq_isSome (m : ObjectIdMap) (k : Option QObject) :
    contains m k = (find m k).isSome := by
  cases hc : contains m k with
  | true =>
    obtain ⟨i, hi⟩ := (find_isSome_iff m k).2 hc
    simp [hi]
  | false =>
    cases hf : find m k with
    | none => rfl
    | some i =>
      have := (find_isSome_iff m k).1 ⟨i, hf⟩
      rw [hc] at this
      cases this

theorem contains_insert (m : ObjectIdMap) (k k1 : Option QObject) (v : Nat) :
    contains (insert m k v) k1 = (decide (k1 = k) || contains m k1) := by
  by_cases h : k1 = k
  · subst h
    simp [contains_eq_isSome, find_insert_self]
  · simp [contains_eq_isSome, find_insert_of_ne m v h, h]

end ObjectIdMap

/-! ## Graph store lemmas -/

namespace Graph

theorem RemoveVertex_of_not_lt {g : Graph} {v : Nat} (h : ¬ v < g.vertexData.length) :
    g.RemoveVertex v = g := by
  simp [RemoveVertex, h]

theorem RemoveVertex_eq {g : Graph} {v : Nat} (h : v < g.vertexData.length) :
    ∃ lastProps, g.vertexData[g.vertexData.length - 1]? = some lastProps ∧
      g.RemoveVertex v =
        { g with
          vertexData := (g.vertexData.set v lastProps).dropLast
          edges := (g.edges.filter (fun e => decide (e.1 ≠ v ∧ e.2 ≠ v))).map
            (fun e => (renumber (g.vertexData.length - 1) v e.1,
              renumber (g.vertexData.length - 1) v e.2)) } := by
  have hlast : g.vertexData.getLast? = g.vertexData[g.vertexData.length - 1]? :=
    List.getLast?_eq_getElem? _
  have hlt : g.vertexData.length - 1 < g.vertexData.length := by omega
  refine ⟨g.vertexData[g.vertexData.length - 1], List.getElem?_eq_getElem hlt, ?_⟩
  simp only [RemoveVertex, h, if_true, hlast, List.getElem?_eq_getElem hlt]

theorem length_RemoveVertex {g : Graph} {v : Nat} (h : v < g.vertexData.length) :
    (g.RemoveVertex v).vertexData.length = g.vertexData.length - 1 := by
  obtain ⟨lp, _, heq⟩ := RemoveVertex_eq h
  rw [heq]
  simp

theorem length_RemoveVertex_le (g : Graph) (v : Nat) :
    (g.RemoveVertex v).vertexData.length ≤ g.vertexData.length := by
  by_cases h : v < g.vertexData.length
  · rw [length_RemoveVertex h]; omega
  · rw [RemoveVertex_of_not_lt h]

theorem getElem?_RemoveVertex {g : Graph} {v i : Nat} (h : v < g.vertexData.length)
    (hi : i < g.vertexData.length - 1) :
    (g.RemoveVertex v).vertexData[i]? =
      if i = v then g.vertexData[g.vertexData.length - 1]? else g.vertexData[i]? := by
  obtain ⟨lp, hlp, heq⟩ := RemoveVertex_eq h
  rw [heq]
  simp only [List.getElem?_dropLast, List.length_set, hi, if_true]
  rw [List.getElem?_set]
  by_cases hiv : i = v
  · subst hiv
    simp [h, hlp]
  · have hvi : ¬ v = i := fun hh => hiv hh.symm
    simp [hiv, hvi]

theorem addLog_RemoveVertex (g : Graph) (v : Nat) :
    (g.RemoveVertex v).addLog = g.addLog := by
  by_cases h : v < g.vertexData.length
  · obtain ⟨lp, _, heq⟩ := RemoveVertex_eq h
    rw [heq]
  · rw [RemoveVertex_of_not_lt h]

theorem edges_RemoveVertex_valid {g : Graph} {v : Nat} (h : v < g.vertexData.length)
    (hval : ∀ e ∈ g.edges, e.1 < g.vertexData.length ∧ e.2 < g.vertexData.length) :
    ∀ e ∈ (g.RemoveVertex v).edges,
      e.1 < g.vertexData.length - 1 ∧ e.2 < g.vertexData.length - 1 := by
  obtain ⟨lp, _, heq⟩ := RemoveVertex_eq h
  rw [heq]
  intro e he
  simp only [List.mem_map, List.mem_filter, decide_eq_true_eq] at he
  obtain ⟨e0, ⟨hmem, hne1, hne2⟩, rfl⟩ := he
  have := hval e0 hmem
  simp only [renumber]
  constructor
  · split <;> omega
  · split <;> omega

end Graph

/-! ## The synchronisation invariant -/

namespace Inv

theorem id_lt {w : VtkWidget} (h : Inv w) {k : Option QObject} {i : Nat}
    (hm : (k, i) ∈ w.m_objectIdMap) : i < w.m_graph.vertexData.length := by
  obtain ⟨vp, hvp, _⟩ := h.agree k i hm
  by_contra hlt
  rw [List.getElem?_eq_none (by omega)] at hvp
  cases hvp

theorem key_unique {w : VtkWidget} (h : Inv w) {k1 k2 : Option QObject} {i : Nat}
    (h1 : (k1, i) ∈ w.m_objectIdMap) (h2 : (k2, i) ∈ w.m_objectIdMap) : k1 = k2 := by
  obtain ⟨vp1, hvp1, e1⟩ := h.agree k1 i h1
  obtain ⟨vp2, hvp2, e2⟩ := h.agree k2 i h2
  rw [hvp1] at hvp2
  cases hvp2
  rw [e1, e2]

theorem id_unique {w : VtkWidget} (h : Inv w) {k : Option QObject} {i j : Nat}
    (h1 : (k, i) ∈ w.m_objectIdMap) (h2 : (k, j) ∈ w.m_objectIdMap) : i = j := by
  have a := ObjectIdMap.find_of_mem h.nodup h1
  have b := ObjectIdMap.find_of_mem h.nodup h2
  rw [a] at b
  exact Option.some.inj b

theorem values_nodup {w : VtkWidget} (h : Inv w) :
    (w.m_objectIdMap.map Prod.snd).Nodup := by
  have hl : w.m_objectIdMap.Nodup := List.Nodup.of_map Prod.fst h.nodup
  refine List.Nodup.map_on ?_ hl
  rintro ⟨k1, i1⟩ h1 ⟨k2, i2⟩ h2 heq
  simp only at heq
  subst heq
  rw [h.key_unique h1 h2]

theorem exists_key {w : VtkWidget} (h : Inv w) {i : Nat}
    (hi : i < w.m_graph.vertexData.length) : ∃ k, (k, i) ∈ w.m_objectIdMap := by
  have hsub : (w.m_objectIdMap.map Prod.snd).toFinset ⊆
      Finset.range w.m_graph.vertexData.length := by
    intro j hj
    simp only [List.mem_toFinset, List.mem_map] at hj
    obtain ⟨⟨k, j1⟩, hm, rfl⟩ := hj
    exact Finset.mem_range.2 (h.id_lt hm)
  have hcard : (Finset.range w.m_graph.vertexData.length).card ≤
      (w.m_objectIdMap.map Prod.snd).toFinset.card := by
    rw [List.toFinset_card_of_nodup h.values_nodup]
    simp [h.size_eq]
  have heq := Finset.eq_of_subset_of_card_le hsub hcard
  have hmem : i ∈ (w.m_objectIdMap.map Prod.snd).toFinset := by
    rw [heq]; exact Finset.mem_range.2 hi
  simp only [List.mem_toFinset, List.mem_map] at hmem
  obtain ⟨⟨k, j⟩, hm, rfl⟩ := hmem
  exact ⟨k, hm⟩

end Inv

/-! ## Removal -/

namespace VtkWidget

theorem removeObjectInternal_of_not_contains {w : VtkWidget} {object : Option QObject}
    (h : w.m_objectIdMap.contains object = false) :
    removeObjectInternal w object = (false, w) := by
  simp [removeObjectInternal, h]

/-- What `removeObjectInternal` does to a tracked key in a consistent state. -/
theorem removeObjectInternal_of_contains {w : VtkWidget} (hinv : Inv w)
    {object : Option QObject} (h : w.m_objectIdMap.contains object = true) :
    ∃ (t : Nat) (m : ObjectIdMap),
      (object, t) ∈ w.m_objectIdMap ∧ t < w.m_graph.vertexData.length ∧
      removeObjectInternal w object =
        (true, renderView { w with m_graph := w.m_graph.RemoveVertex t, m_objectIdMap := m }) ∧
      (ObjectIdMap.keys m).Nodup ∧
      m.length + 1 = w.m_objectIdMap.length ∧
      (∀ k i, (k, i) ∈ m ↔ k ≠ object ∧ ∃ j, (k, j) ∈ w.m_objectIdMap ∧
        i = if j = w.m_graph.vertexData.length - 1 then t else j) := by
  obtain ⟨t, ht⟩ := (ObjectIdMap.contains_iff _ _).1 h
  have hfind := ObjectIdMap.find_of_mem hinv.nodup ht
  have hval := ObjectIdMap.value_of_find hfind
  have htlt := hinv.id_lt ht
  have hsize : w.m_objectIdMap.size = w.m_graph.vertexData.length := hinv.size_eq
  have hdec : w.m_graph.GetNumberOfVertices > (w.m_graph.RemoveVertex t).GetNumberOfVertices := by
    simp only [Graph.GetNumberOfVertices, Graph.length_RemoveVertex htlt]
    omega
  have hlastlt : w.m_graph.vertexData.length - 1 < w.m_graph.vertexData.length := by omega
  obtain ⟨kl, hkl⟩ := hinv.exists_key hlastlt
  have hkey := ObjectIdMap.key_spec ⟨kl, hkl⟩
  by_cases hcase : t = w.m_graph.vertexData.length - 1
  · refine ⟨t, w.m_objectIdMap.remove object, ht, htlt, ?_,
      ObjectIdMap.keys_remove_nodup _ hinv.nodup, ObjectIdMap.length_remove hinv.nodup h, ?_⟩
    · simp only [removeObjectInternal, h, hval, hsize, hdec, Bool.not_true, Bool.false_eq_true,
        if_false, if_true]
      rw [if_neg (not_not.2 hcase)]
    · intro k i
      rw [ObjectIdMap.mem_remove_iff]
      constructor
      · rintro ⟨hne, hm⟩
        refine ⟨hne, i, hm, ?_⟩
        have : i ≠ w.m_graph.vertexData.length - 1 := by
          intro hi
          rw [hi, ← hcase] at hm
          exact hne (hinv.key_unique hm ht)
        simp [this]
      · rintro ⟨hne, j, hm, rfl⟩
        have : j ≠ w.m_graph.vertexData.length - 1 := by
          intro hj
          rw [hj, ← hcase] at hm
          exact hne (hinv.key_unique hm ht)
        simpa [this, hne] using hm
  · have hc2 : w.m_objectIdMap.contains (w.m_objectIdMap.key (w.m_graph.vertexData.length - 1))
        = true := (ObjectIdMap.contains_iff _ _).2 ⟨_, hkey⟩
    have hnd1 : (ObjectIdMap.keys (w.m_objectIdMap.insert
        (w.m_objectIdMap.key (w.m_graph.vertexData.length - 1)) t)).Nodup := by
      rw [ObjectIdMap.keys_insert_of_contains t hc2]; exact hinv.nodup
    have hcont1 : (w.m_objectIdMap.insert
        (w.m_objectIdMap.key (w.m_graph.vertexData.length - 1)) t).contains object = true := by
      rw [ObjectIdMap.contains_iff]
      by_cases hobj : object = w.m_objectIdMap.key (w.m_graph.vertexData.length - 1)
      · exact ⟨t, (ObjectIdMap.mem_insert_iff hinv.nodup _ _).2 (Or.inl ⟨hobj, rfl⟩)⟩
      · exact ⟨t, (ObjectIdMap.mem_insert_iff hinv.nodup _ _).2 (Or.inr ⟨hobj, ht⟩)⟩
    refine ⟨t, (w.m_objectIdMap.insert
        (w.m_objectIdMap.key (w.m_graph.vertexData.length - 1)) t).remove object,
      ht, htlt, ?_, ObjectIdMap.keys_remove_nodup _ hnd1, ?_, ?_⟩
    · simp only [removeObjectInternal, h, hval, hsize, hdec, Bool.not_true, Bool.false_eq_true,
        if_false, if_true]
      rw [if_pos hcase]
    · rw [ObjectIdMap.length_remove hnd1 hcont1, ObjectIdMap.length_insert_of_contains t hc2]
    · intro k i
      rw [ObjectIdMap.mem_remove_iff, ObjectIdMap.mem_insert_iff hinv.nodup]
      constructor
      · rintro ⟨hne, ⟨hk, hi⟩ | ⟨hk, hm⟩⟩
        · refine ⟨hne, w.m_graph.vertexData.length - 1, ?_, by simp [hi]⟩
          rw [hk]; exact hkey
        · refine ⟨hne, i, hm, ?_⟩
          have : i ≠ w.m_graph.vertexData.length - 1 := by
            intro hi
            rw [hi] at hm
            exact hk (hinv.key_unique hm hkey)
          simp [this]
      · rintro ⟨hne, j, hm, rfl⟩
        refine ⟨hne, ?_⟩
        by_cases hj : j = w.m_graph.vertexData.length - 1
        · left
          rw [hj] at hm
          exact ⟨hinv.key_unique hm hkey, by simp [hj]⟩
        · right
          refine ⟨?_, by simpa [hj] using hm⟩
          intro hk
          rw [hk] at hm
          exact hj (hinv.id_unique hm hkey)

/-- Removal keeps the identity map and the graph store in agreement. -/
theorem removeObjectInternal_inv {w : VtkWidget} (hinv : Inv w) (object : Option QObject) :
    Inv (removeObjectInternal w object).2 := by
  cases h : w.m_objectIdMap.contains object with
  | false => rw [removeObjectInternal_of_not_contains h]; exact hinv
  | true =>
    obtain ⟨t, m, ht, htlt, heq, hnd, hlen, hmem⟩ := removeObjectInternal_of_contains hinv h
    rw [heq]
    have hn := Graph.length_RemoveVertex htlt
    refine ⟨hnd, ?_, ?_, ?_⟩
    · simp only [renderView, hn]
      have := hinv.size_eq
      omega
    · intro k i hki
      simp only [renderView] at hki ⊢
      obtain ⟨hne, j, hm, rfl⟩ := (hmem k i).1 hki
      have hjlt := hinv.id_lt hm
      obtain ⟨vp, hvp, hk⟩ := hinv.agree k j hm
      by_cases hj : j = w.m_graph.vertexData.length - 1
      · have htne : t ≠ w.m_graph.vertexData.length - 1 := by
          intro hh
          rw [hj, ← hh] at hm
          exact hne (hinv.key_unique hm ht)
        refine ⟨vp, ?_, hk⟩
        rw [if_pos hj, Graph.getElem?_RemoveVertex htlt (by omega), if_pos rfl, ← hj]
        exact hvp
      · have hjt : j ≠ t := by
          intro hh
          rw [hh] at hm
          exact hne (hinv.key_unique hm ht)
        refine ⟨vp, ?_, hk⟩
        rw [if_neg hj, Graph.getElem?_RemoveVertex htlt (by omega), if_neg hjt]
        exact hvp
    · intro e he
      simp only [renderView] at he ⊢
      rw [hn]
      exact Graph.edges_RemoveVertex_valid htlt hinv.edges_valid e he

end VtkWidget

/-! ## Adding -/

namespace VtkWidget

theorem createVertex_snd (w : VtkWidget) (o : QObject) :
    (createVertex w o).2 = w.m_graph.vertexData.length := by
  unfold createVertex
  cases w.m_typeColorMap.constFind o.className <;> rfl

theorem createVertex_map (w : VtkWidget) (o : QObject) :
    (createVertex w o).1.m_objectIdMap =
      w.m_objectIdMap.insert (some o) w.m_graph.vertexData.length := by
  unfold createVertex
  cases w.m_typeColorMap.constFind o.className <;> rfl

theorem createVertex_vertexData (w : VtkWidget) (o : QObject) :
    ∃ c, (createVertex w o).1.m_graph.vertexData = w.m_graph.vertexData ++ [⟨o, 1, c⟩] ∧
      (createVertex w o).1.m_graph.addLog = w.m_graph.addLog ++ [⟨o, 1, c⟩] ∧
      (createVertex w o).1.m_typeColorMap.constFind o.className = some c ∧
      (w.m_typeColorMap.constFind o.className = some c ∨
        (w.m_typeColorMap.constFind o.className = none ∧ c = w.m_colorIndex)) := by
  simp only [createVertex, Graph.AddVertex]
  cases h : w.m_typeColorMap.constFind o.className with
  | some c => exact ⟨c, rfl, rfl, h, Or.inl rfl⟩
  | none =>
    refine ⟨w.m_colorIndex, rfl, rfl, ?_, Or.inr ⟨rfl, rfl⟩⟩
    simp only
    clear h
    generalize w.m_typeColorMap = m
    induction m with
    | nil => simp [TypeColorMap.insert, TypeColorMap.constFind]
    | cons e m ih =>
      by_cases hk : e.1 = o.className
      · simp [TypeColorMap.insert, TypeColorMap.constFind, hk]
      · simp only [TypeColorMap.insert, hk, if_false, TypeColorMap.constFind, List.find?_cons,
          decide_False]
        exact ih

theorem createVertex_edges (w : VtkWidget) (o : QObject) :
    (createVertex w o).1.m_graph.edges = w.m_graph.edges := by
  unfold createVertex
  cases w.m_typeColorMap.constFind o.className <;> rfl

theorem createVertex_mousePressed (w : VtkWidget) (o : QObject) :
    (createVertex w o).1.m_mousePressed = w.m_mousePressed := by
  unfold createVertex
  cases w.m_typeColorMap.constFind o.className <;> rfl

theorem createVertex_objectFilter (w : VtkWidget) (o : QObject) :
    (createVertex w o).1.m_objectFilter = w.m_objectFilter := by
  unfold createVertex
  cases w.m_typeColorMap.constFind o.className <;> rfl

theorem createVertex_availableObjects (w : VtkWidget) (o : QObject) :
    (createVertex w o).1.m_availableObjects = w.m_availableObjects := by
  unfold createVertex
  cases w.m_typeColorMap.constFind o.className <;> rfl

theorem addObject_root (w : VtkWidget) (i : Nat) (c : String) :
    addObject w (.root i c) =
      if addRejected (poolAdd w (.root i c)) (.root i c) then (false, poolAdd w (.root i c))
      else (true, renderView (createVertex (poolAdd w (.root i c)) (.root i c)).1) := by
  simp only [addObject, addObjectInternal]

theorem addObject_child (w : VtkWidget) (i : Nat) (c : String) (p : QObject) :
    addObject w (.child i c p) =
      if addRejected (poolAdd w (.child i c p)) (.child i c p) then
        (false, poolAdd w (.child i c p))
      else
        (true, renderView (addParentEdge
          (if !(createVertex (poolAdd w (.child i c p)) (.child i c p)).1.m_objectIdMap.contains
              (some p) then
            (addObject (createVertex (poolAdd w (.child i c p)) (.child i c p)).1 p).2
          else (createVertex (poolAdd w (.child i c p)) (.child i c p)).1)
          p (createVertex (poolAdd w (.child i c p)) (.child i c p)).2)) := by
  simp only [addObject, addObjectInternal]

/-- Induction over the recursive add: a property kept by each elementary
mutation is kept by `addObject`. -/
theorem addObject_ind (P : VtkWidget → Prop)
    (hrej : ∀ w o, P w → addRejected (poolAdd w o) o = true → P (poolAdd w o))
    (hnew : ∀ w o, P w → addRejected (poolAdd w o) o = false →
      P (createVertex (poolAdd w o) o).1)
    (hedge : ∀ w p t, P w → P (addParentEdge w p t))
    (hrender : ∀ w, P w → P (renderView w)) :
    ∀ (o : QObject) (w : VtkWidget), P w → P (addObject w o).2 := by
  intro o
  induction o with
  | root i c =>
    intro w hw
    rw [addObject_root]
    cases hr : addRejected (poolAdd w (.root i c)) (.root i c) with
    | true => simpa using hrej w _ hw hr
    | false => simpa using hrender _ (hnew w _ hw hr)
  | child i c p ih =>
    intro w hw
    rw [addObject_child]
    cases hr : addRejected (poolAdd w (.child i c p)) (.child i c p) with
    | true => simpa using hrej w _ hw hr
    | false =>
      simp only [Bool.false_eq_true, if_false]
      apply hrender
      apply hedge
      have h1 := hnew w _ hw hr
      split
      · exact ih _ h1
      · exact h1

end VtkWidget

namespace VtkWidget

theorem addRejected_eq_false_iff (w : VtkWidget) (o : QObject) :
    addRejected w o = false ↔
      w.m_mousePressed = false ∧ o.className ≠ "QVTKInteractorInternal" ∧
      w.m_objectIdMap.contains (some o) = false ∧ filterAcceptsObject w o = true := by
  unfold addRejected
  cases w.m_mousePressed <;> by_cases hc : o.className = "QVTKInteractorInternal" <;>
    cases w.m_objectIdMap.contains (some o) <;> cases filterAcceptsObject w o <;> simp [hc]

theorem addRejected_poolAdd (w : VtkWidget) (x o : QObject) :
    addRejected (poolAdd w x) o = addRejected w o := rfl

theorem filterAcceptsObject_congr {w1 w2 : VtkWidget}
    (h : w1.m_objectFilter = w2.m_objectFilter) (o : QObject) :
    filterAcceptsObject w1 o = filterAcceptsObject w2 o := by
  simp [filterAcceptsObject, h]

theorem addParentEdge_map (w : VtkWidget) (p : QObject) (t : Nat) :
    (addParentEdge w p t).m_objectIdMap = w.m_objectIdMap := by
  unfold addParentEdge; split <;> rfl

theorem addParentEdge_vertexData (w : VtkWidget) (p : QObject) (t : Nat) :
    (addParentEdge w p t).m_graph.vertexData = w.m_graph.vertexData := by
  unfold addParentEdge; split <;> rfl

theorem addParentEdge_addLog (w : VtkWidget) (p : QObject) (t : Nat) :
    (addParentEdge w p t).m_graph.addLog = w.m_graph.addLog := by
  unfold addParentEdge; split <;> rfl

theorem addParentEdge_mousePressed (w : VtkWidget) (p : QObject) (t : Nat) :
    (addParentEdge w p t).m_mousePressed = w.m_mousePressed := by
  unfold addParentEdge; split <;> rfl

theorem addParentEdge_objectFilter (w : VtkWidget) (p : QObject) (t : Nat) :
    (addParentEdge w p t).m_objectFilter = w.m_objectFilter := by
  unfold addParentEdge; split <;> rfl

theorem addParentEdge_availableObjects (w : VtkWidget) (p : QObject) (t : Nat) :
    (addParentEdge w p t).m_availableObjects = w.m_availableObjects := by
  unfold addParentEdge; split <;> rfl

theorem addParentEdge_typeColorMap (w : VtkWidget) (p : QObject) (t : Nat) :
    (addParentEdge w p t).m_typeColorMap = w.m_typeColorMap := by
  unfold addParentEdge; split <;> rfl

/-- `addObject` never touches the pressed flag. -/
theorem addObject_mousePressed (w : VtkWidget) (o : QObject) :
    (addObject w o).2.m_mousePressed = w.m_mousePressed := by
  refine addObject_ind (fun x => x.m_mousePressed = w.m_mousePressed) ?_ ?_ ?_ ?_ o w rfl
  · intro x y hx _; exact hx
  · intro x y hx _; rw [createVertex_mousePressed]; exact hx
  · intro x p t hx; rw [addParentEdge_mousePressed]; exact hx
  · intro x hx; exact hx

/-- `addObject` never touches the filter. -/
theorem addObject_objectFilter (w : VtkWidget) (o : QObject) :
    (addObject w o).2.m_objectFilter = w.m_objectFilter := by
  refine addObject_ind (fun x => x.m_objectFilter = w.m_objectFilter) ?_ ?_ ?_ ?_ o w rfl
  · intro x y hx _; exact hx
  · intro x y hx _; rw [createVertex_objectFilter]; exact hx
  · intro x p t hx; rw [addParentEdge_objectFilter]; exact hx
  · intro x hx; exact hx

/-- `addObject` keeps every entry of the identity map as it is. -/
theorem addObject_find_mono (w : VtkWidget) (o : QObject) {k : Option QObject} {i : Nat}
    (h : w.m_objectIdMap.find k = some i) : (addObject w o).2.m_objectIdMap.find k = some i := by
  refine addObject_ind (fun x => x.m_objectIdMap.find k = some i) ?_ ?_ ?_ ?_ o w h
  · intro x y hx _; exact hx
  · intro x y hx hr
    rw [addRejected_poolAdd, addRejected_eq_false_iff] at hr
    rw [createVertex_map]
    have hne : k ≠ some y := by
      rintro rfl
      have := (ObjectIdMap.find_isSome_iff _ _).1 ⟨i, hx⟩
      rw [hr.2.2.1] at this
      cases this
    rw [ObjectIdMap.find_insert_of_ne _ _ hne]
    exact hx
  · intro x p t hx; rw [addParentEdge_map]; exact hx
  · intro x hx; exact hx

/-- `addObject` keeps every member of the available pool. -/
theorem addObject_pool_mono (w : VtkWidget) (o : QObject) {x : QObject}
    (h : x ∈ w.m_availableObjects) : x ∈ (addObject w o).2.m_availableObjects := by
  have hp : ∀ (v : VtkWidget) (y : QObject), x ∈ v.m_availableObjects →
      x ∈ (poolAdd v y).m_availableObjects := by
    intro v y hv
    simp only [poolAdd, poolInsert]
    split
    · exact hv
    · exact List.mem_append_left _ hv
  refine addObject_ind (fun v => x ∈ v.m_availableObjects) ?_ ?_ ?_ ?_ o w h
  · intro v y hv _; exact hp v y hv
  · intro v y hv _; rw [createVertex_availableObjects]; exact hp v y hv
  · intro v p t hv; rw [addParentEdge_availableObjects]; exact hv
  · intro v hv; exact hv

/-- Induction over the recursive add, with the facts known where the edge is
created: the child holds id `t` and `p` is its parent. -/
theorem addObject_induction (P : VtkWidget → Prop)
    (hrej : ∀ w o, P w → addRejected (poolAdd w o) o = true → P (poolAdd w o))
    (hnew : ∀ w o, P w → addRejected (poolAdd w o) o = false →
      P (createVertex (poolAdd w o) o).1)
    (hedge : ∀ w o p t, P w → o.parent = some p → w.m_objectIdMap.find (some o) = some t →
      P (addParentEdge w p t))
    (hrender : ∀ w, P w → P (renderView w)) :
    ∀ (o : QObject) (w : VtkWidget), P w → P (addObject w o).2 := by
  intro o
  induction o with
  | root i c =>
    intro w hw
    rw [addObject_root]
    cases hr : addRejected (poolAdd w (.root i c)) (.root i c) with
    | true => simpa using hrej w _ hw hr
    | false => simpa using hrender _ (hnew w _ hw hr)
  | child i c p ih =>
    intro w hw
    rw [addObject_child]
    cases hr : addRejected (poolAdd w (.child i c p)) (.child i c p) with
    | true => simpa using hrej w _ hw hr
    | false =>
      simp only [Bool.false_eq_true, if_false]
      apply hrender
      have h1 := hnew w _ hw hr
      have hf : (createVertex (poolAdd w (.child i c p)) (.child i c p)).1.m_objectIdMap.find
          (some (.child i c p)) =
          some (createVertex (poolAdd w (.child i c p)) (.child i c p)).2 := by
        rw [createVertex_map, createVertex_snd, ObjectIdMap.find_insert_self]
      apply hedge _ (.child i c p) p _ _ rfl
      · split
        · exact addObject_find_mono _ _ hf
        · exact hf
      · split
        · exact ih _ h1
        · exact h1

end VtkWidget

namespace VtkWidget

theorem createVertex_inv {w : VtkWidget} (hinv : Inv w) {o : QObject}
    (hc : w.m_objectIdMap.contains (some o) = false) : Inv (createVertex w o).1 := by
  obtain ⟨c, hvd, _, _, _⟩ := createVertex_vertexData w o
  have hmap := createVertex_map w o
  rw [ObjectIdMap.insert_of_not_contains _ hc] at hmap
  refine ⟨?_, ?_, ?_, ?_⟩
  · rw [hmap]
    simp only [ObjectIdMap.keys, List.map_append, List.map_cons, List.map_nil]
    refine List.Nodup.append hinv.nodup (List.nodup_singleton _) ?_
    intro k hk1 hk2
    simp only [List.mem_singleton] at hk2
    subst hk2
    simp only [List.mem_map] at hk1
    obtain ⟨⟨k1, i1⟩, hm, rfl⟩ := hk1
    exact (ObjectIdMap.contains_eq_false_iff _ _).1 hc i1 hm
  · rw [hmap, hvd]
    simp [hinv.size_eq]
  · intro k i hki
    rw [hmap] at hki
    rw [hvd]
    rcases List.mem_append.1 hki with h | h
    · obtain ⟨vp, hvp, hk⟩ := hinv.agree k i h
      refine ⟨vp, ?_, hk⟩
      rw [List.getElem?_append_left (hinv.id_lt h)]
      exact hvp
    · simp only [List.mem_singleton, Prod.mk.injEq] at h
      obtain ⟨rfl, rfl⟩ := h
      exact ⟨⟨o, 1, c⟩, by simp, rfl⟩
  · intro e he
    rw [createVertex_edges] at he
    have := hinv.edges_valid e he
    rw [hvd]
    simp only [List.length_append, List.length_singleton]
    omega

theorem addParentEdge_inv {w : VtkWidget} (hinv : Inv w) (p : QObject) {t : Nat}
    (ht : t < w.m_graph.vertexData.length) : Inv (addParentEdge w p t) := by
  unfold addParentEdge
  split
  · rename_i hc
    obtain ⟨j, hj⟩ := (ObjectIdMap.find_isSome_iff _ _).2 hc
    have hv := ObjectIdMap.value_of_find hj
    have hjlt := hinv.id_lt (ObjectIdMap.mem_of_find hj)
    refine ⟨hinv.nodup, hinv.size_eq, hinv.agree, ?_⟩
    intro e he
    simp only [Graph.AddEdge, List.mem_append, List.mem_singleton] at he ⊢
    rcases he with he | rfl
    · exact hinv.edges_valid e he
    · simp only [hv]
      exact ⟨hjlt, ht⟩
  · exact hinv

/-- Adding keeps the identity map and the graph store in agreement. -/
theorem addObject_inv {w : VtkWidget} (hinv : Inv w) (o : QObject) :
    Inv (addObject w o).2 := by
  refine addObject_induction Inv ?_ ?_ ?_ ?_ o w hinv
  · intro x y hx _
    exact ⟨hx.nodup, hx.size_eq, hx.agree, hx.edges_valid⟩
  · intro x y hx hr
    rw [addRejected_poolAdd, addRejected_eq_false_iff] at hr
    have hx1 : Inv (poolAdd x y) := ⟨hx.nodup, hx.size_eq, hx.agree, hx.edges_valid⟩
    exact createVertex_inv hx1 hr.2.2.1
  · intro x y p t hx _ hf
    exact addParentEdge_inv hx p (hx.id_lt (ObjectIdMap.mem_of_find hf))
  · intro x hx
    exact ⟨hx.nodup, hx.size_eq, hx.agree, hx.edges_valid⟩

/-- `removeObjectInternal` changes only the graph's vertices and edges, the
identity map and the timer. -/
theorem removeObjectInternal_frame (w : VtkWidget) (k : Option QObject) :
    ∃ (g : Graph) (m : ObjectIdMap) (b : Bool),
      (removeObjectInternal w k).2 =
        { w with m_graph := g, m_objectIdMap := m, m_updateTimerActive := b } ∧
      g.addLog = w.m_graph.addLog := by
  unfold removeObjectInternal
  split
  · exact ⟨w.m_graph, w.m_objectIdMap, w.m_updateTimerActive, rfl, rfl⟩
  · exact ⟨_, _, true, rfl, Graph.addLog_RemoveVertex _ _⟩

theorem removeAll_frame (l : List (Option QObject)) (w : VtkWidget) :
    ∃ (g : Graph) (m : ObjectIdMap) (b : Bool),
      removeAll w l = { w with m_graph := g, m_objectIdMap := m, m_updateTimerActive := b } ∧
      g.addLog = w.m_graph.addLog := by
  induction l generalizing w with
  | nil => exact ⟨w.m_graph, w.m_objectIdMap, w.m_updateTimerActive, rfl, rfl⟩
  | cons k l ih =>
    obtain ⟨g1, m1, b1, h1, hl1⟩ := removeObjectInternal_frame w k
    obtain ⟨g2, m2, b2, h2, hl2⟩ := ih (removeObjectInternal w k).2
    refine ⟨g2, m2, b2, ?_, ?_⟩
    · simp only [removeAll, List.foldl_cons] at h2 ⊢
      rw [h2, h1]
    · rw [hl2, h1]
      exact hl1

theorem removeAll_inv (l : List (Option QObject)) {w : VtkWidget} (hinv : Inv w) :
    Inv (removeAll w l) := by
  induction l generalizing w with
  | nil => exact hinv
  | cons k l ih => exact ih (removeObjectInternal_inv hinv k)

/-- Removing the keys of a snapshot one after the other: each key is still
tracked when its turn comes, and the map ends up empty. -/
theorem removeAll_keys (l : List (Option QObject)) {w : VtkWidget} (hinv : Inv w)
    (hnd : l.Nodup) (hkeys : ∀ k, w.m_objectIdMap.contains k = true ↔ k ∈ l) :
    (removeAll w l).m_objectIdMap = [] ∧
    ∀ done x rest, l = done ++ x :: rest →
      (removeAll w done).m_objectIdMap.contains x = true := by
  induction l generalizing w with
  | nil =>
    constructor
    · cases hm : w.m_objectIdMap with
      | nil => simpa [removeAll] using hm
      | cons e m =>
        have := (hkeys e.1).1 (by rw [hm]; simp [ObjectIdMap.contains])
        simp at this
    · intro done x rest h
      simp at h
  | cons k l ih =>
    have hk : w.m_objectIdMap.contains k = true := (hkeys k).2 (List.mem_cons_self _ _)
    obtain ⟨t, m, ht, htlt, heq, hmnd, hlen, hmem⟩ := removeObjectInternal_of_contains hinv hk
    have hinv1 := removeObjectInternal_inv hinv k
    have hkeys1 : ∀ k1, (removeObjectInternal w k).2.m_objectIdMap.contains k1 = true ↔
        k1 ∈ l := by
      intro k1
      rw [heq]
      simp only [renderView]
      rw [ObjectIdMap.contains_iff]
      constructor
      · rintro ⟨i, hi⟩
        obtain ⟨hne, j, hj, _⟩ := (hmem k1 i).1 hi
        have := (hkeys k1).1 ((ObjectIdMap.contains_iff _ _).2 ⟨j, hj⟩)
        rcases List.mem_cons.1 this with h | h
        · exact absurd h hne
        · exact h
      · intro hk1
        have hne : k1 ≠ k := by
          rintro rfl
          exact (List.nodup_cons.1 hnd).1 hk1
        obtain ⟨j, hj⟩ := (ObjectIdMap.contains_iff _ _).1
          ((hkeys k1).2 (List.mem_cons_of_mem _ hk1))
        exact ⟨_, (hmem k1 _).2 ⟨hne, j, hj, rfl⟩⟩
    obtain ⟨ih1, ih2⟩ := ih hinv1 (List.nodup_cons.1 hnd).2 hkeys1
    constructor
    · simpa [removeAll] using ih1
    · intro done x rest h
      cases done with
      | nil =>
        simp only [List.nil_append, List.cons.injEq] at h
        rw [← h.1]
        simpa [removeAll] using hk
      | cons d done =>
        simp only [List.cons_append, List.cons.injEq] at h
        rw [← h.1]
        have := ih2 done x rest h.2
        simpa [removeAll] using this

theorem clear_eq (w : VtkWidget) :
    clear w = renderView { removeAll w w.m_objectIdMap.keys with m_objectIdMap := [] } := rfl

/-- In a consistent state `clear` empties the map and the graph and leaves
everything else but the timer as it was. -/
theorem clear_spec {w : VtkWidget} (hinv : Inv w) :
    clear w = { w with
      m_graph := { vertexData := [], edges := [], addLog := w.m_graph.addLog }
      m_objectIdMap := []
      m_updateTimerActive := true } := by
  have hkeys : ∀ k, w.m_objectIdMap.contains k = true ↔ k ∈ w.m_objectIdMap.keys := by
    intro k
    rw [ObjectIdMap.contains_iff]
    simp [ObjectIdMap.keys]
  obtain ⟨hempty, _⟩ := removeAll_keys w.m_objectIdMap.keys hinv hinv.nodup hkeys
  have hinv1 := removeAll_inv w.m_objectIdMap.keys hinv
  obtain ⟨g, m, b, heq, hlog⟩ := removeAll_frame w.m_objectIdMap.keys w
  have hvd : g.vertexData = [] := by
    have := hinv1.size_eq
    rw [hempty, heq] at this
    exact List.length_eq_zero.1 this.symm
  have hed : g.edges = [] := by
    have hv := hinv1.edges_valid
    rw [heq] at hv
    simp only [hvd, List.length_nil, Nat.not_lt_zero, and_self] at hv
    exact List.eq_nil_iff_forall_not_mem.2 (fun e he => hv e he)
  rw [clear_eq, heq]
  simp only [renderView]
  congr
  cases g
  simp only at hvd hed hlog
  rw [hvd, hed, hlog]

theorem clear_inv {w : VtkWidget} (hinv : Inv w) : Inv (clear w) := by
  rw [clear_spec hinv]
  exact ⟨by simp [ObjectIdMap.keys], rfl, by simp, by simp⟩

end VtkWidget

namespace VtkWidget

theorem addAll_inv (l : List QObject) {w : VtkWidget} (hinv : Inv w) : Inv (addAll w l) := by
  induction l generalizing w with
  | nil => exact hinv
  | cons o l ih => exact ih (addObject_inv hinv o)

theorem inv_congr {w v : VtkWidget} (hinv : Inv w) (hm : v.m_objectIdMap = w.m_objectIdMap)
    (hg : v.m_graph = w.m_graph) : Inv v := by
  refine ⟨?_, ?_, ?_, ?_⟩
  · rw [hm]; exact hinv.nodup
  · rw [hm, hg]; exact hinv.size_eq
  · rw [hm, hg]; exact hinv.agree
  · rw [hg]; exact hinv.edges_valid

theorem repopulate_inv {w : VtkWidget} (hinv : Inv w) : Inv (repopulate w) :=
  addAll_inv _ (clear_inv hinv)

theorem setObjectFilter_inv {w : VtkWidget} (hinv : Inv w) (f : Option QObject) :
    Inv (setObjectFilter w f) := by
  unfold setObjectFilter
  split
  · exact hinv
  · have h1 : Inv { w with m_objectFilter := f } := inv_congr hinv rfl rfl
    exact inv_congr (repopulate_inv h1) rfl rfl

theorem removeObject_inv {w : VtkWidget} (hinv : Inv w) (o : Option QObject) :
    Inv (removeObject w o).2 := by
  have h1 : Inv (poolDel w o) := inv_congr hinv rfl rfl
  exact removeObjectInternal_inv h1 o

theorem timerEvent_inv {w : VtkWidget} (hinv : Inv w) : Inv (timerEvent w) := by
  unfold timerEvent
  split
  · exact inv_congr hinv rfl rfl
  · exact hinv

theorem new_inv : Inv VtkWidget.new :=
  ⟨by simp [VtkWidget.new, ObjectIdMap.keys], rfl, by simp [VtkWidget.new],
    by simp [VtkWidget.new, Graph.empty]⟩

end VtkWidget

theorem step_inv {w : VtkWidget} (hinv : Inv w) (op : Op) : Inv (step w op) := by
  cases op with
  | addObject o => exact VtkWidget.addObject_inv hinv o
  | removeObject o => exact VtkWidget.removeObject_inv hinv o
  | clear => exact VtkWidget.clear_inv hinv
  | setObjectFilter o => exact VtkWidget.setObjectFilter_inv hinv o
  | mousePress => exact VtkWidget.inv_congr hinv rfl rfl
  | mouseRelease => exact VtkWidget.inv_congr hinv rfl rfl
  | timeout => exact VtkWidget.timerEvent_inv hinv

theorem run_inv (ops : List Op) {w : VtkWidget} (hinv : Inv w) : Inv (run w ops) := by
  induction ops generalizing w with
  | nil => exact hinv
  | cons op ops ih => exact ih (step_inv hinv op)

theorem Reachable.inv {w : VtkWidget} (h : Reachable w) : Inv w := by
  obtain ⟨ops, rfl⟩ := h
  exact run_inv ops VtkWidget.new_inv

theorem Reachable.step {w : VtkWidget} (h : Reachable w) (op : Op) : Reachable (step w op) := by
  obtain ⟨ops, rfl⟩ := h
  exact ⟨ops ++ [op], by simp [run, List.foldl_append]⟩

theorem reachable_new : Reachable VtkWidget.new := ⟨[], rfl⟩

namespace VtkWidget

theorem addObjectInternal_of_rejected {w : VtkWidget} {o : QObject}
    (h : addRejected w o = true) : addObjectInternal o w = (false, w) := by
  cases o <;> simp [addObjectInternal, h]

theorem addObject_fst (w : VtkWidget) (o : QObject) :
    (addObject w o).1 = !addRejected (poolAdd w o) o := by
  cases o with
  | root i c =>
    rw [addObject_root]
    cases addRejected (poolAdd w (.root i c)) (.root i c) <;> rfl
  | child i c p =>
    rw [addObject_child]
    cases addRejected (poolAdd w (.child i c p)) (.child i c p) <;> rfl

/-- An object that passes the guards is tracked afterwards, with the previous
vertex count as its id. -/
theorem addObject_of_not_rejected {w : VtkWidget} {o : QObject}
    (h : addRejected (poolAdd w o) o = false) :
    (addObject w o).1 = true ∧
    (addObject w o).2.m_objectIdMap.find (some o) = some w.m_graph.vertexData.length := by
  refine ⟨by rw [addObject_fst, h]; rfl, ?_⟩
  have hf : (createVertex (poolAdd w o) o).1.m_objectIdMap.find (some o) =
      some w.m_graph.vertexData.length := by
    rw [createVertex_map, ObjectIdMap.find_insert_self]
    rfl
  cases o with
  | root i c =>
    rw [addObject_root, h]
    exact hf
  | child i c p =>
    rw [addObject_child, h]
    simp only [Bool.false_eq_true, if_false, renderView, addParentEdge_map]
    split
    · exact addObject_find_mono _ _ hf
    · exact hf

theorem poolAdd_of_mem {w : VtkWidget} {o : QObject} (h : o ∈ w.m_availableObjects) :
    poolAdd w o = w := by
  simp [poolAdd, poolInsert, h]

theorem mem_poolAdd (w : VtkWidget) (o : QObject) : o ∈ (poolAdd w o).m_availableObjects := by
  simp only [poolAdd, poolInsert]
  split
  · assumption
  · simp

theorem addObject_poolAdd (w : VtkWidget) (o : QObject) :
    addObject (poolAdd w o) o = addObject w o := by
  unfold addObject
  rw [poolAdd_of_mem (mem_poolAdd w o)]

theorem mem_pool_addObject (w : VtkWidget) (o : QObject) :
    o ∈ (addObject w o).2.m_availableObjects := by
  rw [← addObject_poolAdd]
  exact addObject_pool_mono _ _ (mem_poolAdd w o)

/-- `addObject` keeps tracked objects tracked. -/
theorem addObject_tracked_mono (w : VtkWidget) (o : QObject) {x : QObject}
    (h : Tracked w x) : Tracked (addObject w o).2 x := by
  obtain ⟨i, hi⟩ := (ObjectIdMap.find_isSome_iff _ _).2 h
  exact (ObjectIdMap.find_isSome_iff _ _).1 ⟨i, addObject_find_mono w o hi⟩

end VtkWidget

/-! ## Filtering -/

theorem descendantOf_iff (a o : QObject) :
    VtkWidget.descendantOf a o = true ↔ StrictDescendant a o := by
  constructor
  · induction o with
    | root i c => simp [VtkWidget.descendantOf]
    | child i c p ih =>
      intro h
      by_cases hp : p = a
      · exact StrictDescendant.direct (by rw [hp]; rfl)
      · simp only [VtkWidget.descendantOf, hp, if_false] at h
        exact StrictDescendant.step rfl (ih h)
  · intro h
    induction h with
    | @direct o hpar =>
      cases o with
      | root i c => simp [QObject.parent] at hpar
      | child i c p =>
        simp only [QObject.parent, Option.some.injEq] at hpar
        simp [VtkWidget.descendantOf, hpar]
    | @step o p hpar _ ih =>
      cases o with
      | root i c => simp [QObject.parent] at hpar
      | child i c q =>
        simp only [QObject.parent, Option.some.injEq] at hpar
        subst hpar
        simp only [VtkWidget.descendantOf, ih]
        simp

theorem filterAcceptsObject_some {v : VtkWidget} {f : QObject}
    (hf : v.m_objectFilter = some f) (o : QObject) :
    v.filterAcceptsObject o = true ↔ (o = f ∨ StrictDescendant f o) := by
  rw [← descendantOf_iff]
  simp only [VtkWidget.filterAcceptsObject, hf]
  by_cases h1 : o = f
  · simp [h1]
  · cases VtkWidget.descendantOf f o <;> simp [h1]

namespace VtkWidget

theorem mem_poolAdd_iff (w : VtkWidget) (o x : QObject) :
    x ∈ (poolAdd w o).m_availableObjects ↔ x ∈ w.m_availableObjects ∨ x = o := by
  simp only [poolAdd, poolInsert]
  split
  · rename_i h
    constructor
    · exact Or.inl
    · rintro (h1 | rfl)
      · exact h1
      · exact h
  · simp

theorem filterInv_congr {pool0 : List QObject} {v u : VtkWidget} (h : FilterInv pool0 v)
    (h1 : u.m_mousePressed = v.m_mousePressed) (h2 : u.m_objectIdMap = v.m_objectIdMap)
    (h3 : u.m_availableObjects = v.m_availableObjects)
    (h4 : u.m_objectFilter = v.m_objectFilter) : FilterInv pool0 u := by
  have hf : ∀ o, u.filterAcceptsObject o = v.filterAcceptsObject o :=
    fun o => filterAcceptsObject_congr h4 o
  refine ⟨by rw [h1]; exact h.pressed, ?_, ?_⟩
  · intro o ho
    have : Tracked v o := by unfold Tracked at ho ⊢; rw [← h2]; exact ho
    rw [h3, hf]
    exact h.sound o this
  · intro o ho hn ha hc
    rw [h3] at ho
    rw [hf] at ha
    have := h.complete o ho hn ha hc
    unfold Tracked at this ⊢
    rw [h2]; exact this

theorem addObject_filterInv {pool0 : List QObject} {v : VtkWidget} (h : FilterInv pool0 v)
    (o : QObject) : FilterInv pool0 (addObject v o).2 := by
  refine addObject_ind (FilterInv pool0) ?_ ?_ ?_ ?_ o v h
  · intro w x hw hr
    refine ⟨hw.pressed, ?_, ?_⟩
    · intro y hy
      obtain ⟨a, b, c⟩ := hw.sound y hy
      exact ⟨(mem_poolAdd_iff w x y).2 (Or.inl a), b, c⟩
    · intro y hy hn ha hc
      rcases (mem_poolAdd_iff w x y).1 hy with hy1 | rfl
      · exact hw.complete y hy1 hn ha hc
      · have hacc : w.filterAcceptsObject y = true := ha
        rw [addRejected_poolAdd] at hr
        unfold addRejected at hr
        simp only [hw.pressed, Bool.false_eq_true, if_false, hc, hacc, Bool.not_true] at hr
        unfold Tracked
        by_contra hcon
        have hcon1 : w.m_objectIdMap.contains (some y) = false := by simpa using hcon
        simp [hcon1] at hr
  · intro w x hw hr
    rw [addRejected_poolAdd, addRejected_eq_false_iff] at hr
    have hfilt : ∀ y, (createVertex (poolAdd w x) x).1.filterAcceptsObject y =
        w.filterAcceptsObject y :=
      fun y => filterAcceptsObject_congr (createVertex_objectFilter _ _) y
    have htr : ∀ y, Tracked (createVertex (poolAdd w x) x).1 y ↔ (y = x ∨ Tracked w y) := by
      intro y
      unfold Tracked
      rw [createVertex_map, ObjectIdMap.contains_insert]
      simp [poolAdd]
    refine ⟨by rw [createVertex_mousePressed]; exact hw.pressed, ?_, ?_⟩
    · intro y hy
      rw [createVertex_availableObjects, hfilt]
      rcases (htr y).1 hy with rfl | hy1
      · exact ⟨mem_poolAdd w y, hr.2.2.2, hr.2.1⟩
      · obtain ⟨a, b, c⟩ := hw.sound y hy1
        exact ⟨(mem_poolAdd_iff w x y).2 (Or.inl a), b, c⟩
    · intro y hy hn ha hc
      rw [createVertex_availableObjects] at hy
      rw [hfilt] at ha
      rcases (mem_poolAdd_iff w x y).1 hy with hy1 | rfl
      · exact (htr y).2 (Or.inr (hw.complete y hy1 hn ha hc))
      · exact (htr y).2 (Or.inl rfl)
  · intro w p t hw
    exact filterInv_congr hw (addParentEdge_mousePressed _ _ _) (addParentEdge_map _ _ _)
      (addParentEdge_availableObjects _ _ _) (addParentEdge_objectFilter _ _ _)
  · intro w hw
    exact filterInv_congr hw rfl rfl rfl rfl

/-- With the pointer released, an object that passes the filter and class
guards is tracked after `addObject`. -/
theorem addObject_accepted_tracked {v : VtkWidget} {o : QObject}
    (hp : v.m_mousePressed = false) (ha : v.filterAcceptsObject o = true)
    (hc : o.className ≠ "QVTKInteractorInternal") : Tracked (addObject v o).2 o := by
  cases hr : addRejected (poolAdd v o) o with
  | false =>
    exact (ObjectIdMap.find_isSome_iff _ _).1 ⟨_, (addObject_of_not_rejected hr).2⟩
  | true =>
    apply addObject_tracked_mono
    rw [addRejected_poolAdd] at hr
    unfold addRejected at hr
    simp only [hp, Bool.false_eq_true, if_false, hc, ha, Bool.not_true] at hr
    unfold Tracked
    by_contra hcon
    simp [hcon] at hr

theorem addAll_objectFilter (l : List QObject) (v : VtkWidget) :
    (addAll v l).m_objectFilter = v.m_objectFilter := by
  induction l generalizing v with
  | nil => rfl
  | cons o l ih =>
    show (addAll (addObject v o).2 l).m_objectFilter = _
    rw [ih, addObject_objectFilter]

theorem addAll_tracked_mono (l : List QObject) (v : VtkWidget) {x : QObject}
    (h : Tracked v x) : Tracked (addAll v l) x := by
  induction l generalizing v with
  | nil => exact h
  | cons o l ih => exact ih _ (addObject_tracked_mono v o h)

theorem addAll_pool_mono (l : List QObject) (v : VtkWidget) {x : QObject}
    (h : x ∈ v.m_availableObjects) : x ∈ (addAll v l).m_availableObjects := by
  induction l generalizing v with
  | nil => exact h
  | cons o l ih => exact ih _ (addObject_pool_mono v o h)

theorem addAll_filterInv (l : List QObject) {pool0 : List QObject} {v : VtkWidget}
    (h : FilterInv pool0 v) :
    FilterInv pool0 (addAll v l) ∧
    ∀ o ∈ l, v.filterAcceptsObject o = true → o.className ≠ "QVTKInteractorInternal" →
      Tracked (addAll v l) o := by
  induction l generalizing v with
  | nil => exact ⟨h, by simp⟩
  | cons x l ih =>
    obtain ⟨ih1, ih2⟩ := ih (addObject_filterInv h x)
    refine ⟨ih1, ?_⟩
    intro o ho ha hc
    rcases List.mem_cons.1 ho with rfl | ho1
    · exact addAll_tracked_mono l _ (addObject_accepted_tracked h.pressed ha hc)
    · apply ih2 o ho1 _ hc
      rw [filterAcceptsObject_congr (addObject_objectFilter v x)]
      exact ha

end VtkWidget

/-! ## Colours -/

theorem TypeColorMap.constFind_insert_of_ne (m : TypeColorMap) {k k1 : String} (v : Nat)
    (h : k1 ≠ k) : TypeColorMap.constFind (TypeColorMap.insert m k v) k1 =
      TypeColorMap.constFind m k1 := by
  induction m with
  | nil =>
    have : ¬ k = k1 := fun hh => h hh.symm
    simp [TypeColorMap.insert, TypeColorMap.constFind, this]
  | cons e m ih =>
    by_cases hk : e.1 = k
    · have h1 : ¬ e.1 = k1 := fun hh => h (hh.symm.trans hk)
      have h2 : ¬ k = k1 := fun hh => h hh.symm
      simp [TypeColorMap.insert, hk, TypeColorMap.constFind, List.find?_cons, h1, h2]
    · by_cases hk1 : e.1 = k1
      · simp only [TypeColorMap.insert, hk, if_false, TypeColorMap.constFind, List.find?_cons]
        simp [hk1]
      · unfold TypeColorMap.constFind at ih ⊢
        simpa [TypeColorMap.insert, hk, List.find?_cons, hk1] using ih

theorem Graph.mem_RemoveVertex {g : Graph} {v : Nat} {vp : VertexProps}
    (h : vp ∈ (g.RemoveVertex v).vertexData) : vp ∈ g.vertexData := by
  by_cases hv : v < g.vertexData.length
  · obtain ⟨lp, hlp, heq⟩ := Graph.RemoveVertex_eq hv
    rw [heq] at h
    simp only at h
    have h1 := List.mem_of_mem_dropLast h
    rcases List.mem_or_eq_of_mem_set h1 with h2 | h2
    · exact h2
    · rw [h2]
      exact List.getElem?_mem hlp
  · rw [Graph.RemoveVertex_of_not_lt hv] at h
    exact h

namespace VtkWidget

theorem createVertex_constFind_mono (w : VtkWidget) (o : QObject) {k : String} {v : Nat}
    (h : w.m_typeColorMap.constFind k = some v) :
    (createVertex w o).1.m_typeColorMap.constFind k = some v := by
  simp only [createVertex, Graph.AddVertex]
  cases hc : w.m_typeColorMap.constFind o.className with
  | some c => exact h
  | none =>
    simp only
    have hne : k ≠ o.className := by
      rintro rfl
      rw [hc] at h
      cases h
    rw [TypeColorMap.constFind_insert_of_ne _ _ hne]
    exact h

theorem colorInv_congr {v u : VtkWidget} (h : ColorInv v)
    (h1 : u.m_graph.addLog = v.m_graph.addLog)
    (h2 : u.m_graph.vertexData = v.m_graph.vertexData)
    (h3 : u.m_typeColorMap = v.m_typeColorMap) : ColorInv u := by
  refine ⟨?_, ?_⟩
  · rw [h1, h3]; exact h.logged
  · rw [h1, h2]; exact h.live

theorem createVertex_colorInv {w : VtkWidget} (h : ColorInv w) (o : QObject) :
    ColorInv (createVertex w o).1 := by
  obtain ⟨c, hvd, hlog, hfind, _⟩ := createVertex_vertexData w o
  refine ⟨?_, ?_⟩
  · intro vp hvp
    rw [hlog] at hvp
    rcases List.mem_append.1 hvp with h1 | h1
    · exact createVertex_constFind_mono w o (h.logged vp h1)
    · simp only [List.mem_singleton] at h1
      subst h1
      exact hfind
  · intro vp hvp
    rw [hvd] at hvp
    rw [hlog]
    rcases List.mem_append.1 hvp with h1 | h1
    · exact List.mem_append_left _ (h.live vp h1)
    · exact List.mem_append_right _ h1

theorem addObject_colorInv {w : VtkWidget} (h : ColorInv w) (o : QObject) :
    ColorInv (addObject w o).2 := by
  refine addObject_ind ColorInv ?_ ?_ ?_ ?_ o w h
  · intro x y hx _
    exact colorInv_congr hx rfl rfl rfl
  · intro x y hx _
    have hx1 : ColorInv (poolAdd x y) := colorInv_congr hx rfl rfl rfl
    exact createVertex_colorInv hx1 y
  · intro x p t hx
    exact colorInv_congr hx (addParentEdge_addLog _ _ _) (addParentEdge_vertexData _ _ _)
      (addParentEdge_typeColorMap _ _ _)
  · intro x hx
    exact colorInv_congr hx rfl rfl rfl

theorem addAll_colorInv (l : List QObject) {w : VtkWidget} (h : ColorInv w) :
    ColorInv (addAll w l) := by
  induction l generalizing w with
  | nil => exact h
  | cons o l ih => exact ih (addObject_colorInv h o)

theorem removeObjectInternal_colorInv {w : VtkWidget} (h : ColorInv w) (k : Option QObject) :
    ColorInv (removeObjectInternal w k).2 := by
  unfold removeObjectInternal
  split
  · exact h
  · refine ⟨?_, ?_⟩
    · intro vp hvp
      simp only [renderView, Graph.addLog_RemoveVertex] at hvp ⊢
      exact h.logged vp hvp
    · intro vp hvp
      simp only [renderView, Graph.addLog_RemoveVertex] at hvp ⊢
      exact h.live vp (Graph.mem_RemoveVertex hvp)

theorem removeAll_colorInv (l : List (Option QObject)) {w : VtkWidget} (h : ColorInv w) :
    ColorInv (removeAll w l) := by
  induction l generalizing w with
  | nil => exact h
  | cons k l ih => exact ih (removeObjectInternal_colorInv h k)

theorem clear_colorInv {w : VtkWidget} (h : ColorInv w) : ColorInv (clear w) :=
  colorInv_congr (removeAll_colorInv w.m_objectIdMap.keys h) rfl rfl rfl

theorem setObjectFilter_colorInv {w : VtkWidget} (h : ColorInv w) (f : Option QObject) :
    ColorInv (setObjectFilter w f) := by
  unfold setObjectFilter
  split
  · exact h
  · have h1 : ColorInv { w with m_objectFilter := f } := colorInv_congr h rfl rfl rfl
    exact colorInv_congr (addAll_colorInv _ (clear_colorInv h1)) rfl rfl rfl

/-- `addObject` never changes the colour recorded for a class name and never
drops a logged property tuple. -/
theorem addObject_color_mono (w : VtkWidget) (o : QObject) :
    (∀ k c, w.m_typeColorMap.constFind k = some c →
      (addObject w o).2.m_typeColorMap.constFind k = some c) ∧
    (∀ vp ∈ w.m_graph.addLog, vp ∈ (addObject w o).2.m_graph.addLog) := by
  refine addObject_ind (fun x => (∀ k c, w.m_typeColorMap.constFind k = some c →
      x.m_typeColorMap.constFind k = some c) ∧
    (∀ vp ∈ w.m_graph.addLog, vp ∈ x.m_graph.addLog)) ?_ ?_ ?_ ?_ o w
    ⟨fun _ _ h => h, fun _ h => h⟩
  · intro x y hx _; exact hx
  · intro x y hx _
    obtain ⟨c, _, hlog, _, _⟩ := createVertex_vertexData (poolAdd x y) y
    refine ⟨fun k c hk => createVertex_constFind_mono _ _ (hx.1 k c hk), ?_⟩
    intro vp hvp
    rw [hlog]
    exact List.mem_append_left _ (hx.2 vp hvp)
  · intro x p t hx
    rw [addParentEdge_typeColorMap, addParentEdge_addLog]
    exact hx
  · intro x hx; exact hx

theorem addAll_color_mono (l : List QObject) (w : VtkWidget) :
    (∀ k c, w.m_typeColorMap.constFind k = some c →
      (addAll w l).m_typeColorMap.constFind k = some c) ∧
    (∀ vp ∈ w.m_graph.addLog, vp ∈ (addAll w l).m_graph.addLog) := by
  induction l generalizing w with
  | nil => exact ⟨fun _ _ h => h, fun _ h => h⟩
  | cons o l ih =>
    obtain ⟨a1, a2⟩ := addObject_color_mono w o
    obtain ⟨b1, b2⟩ := ih (addObject w o).2
    exact ⟨fun k c h => b1 k c (a1 k c h), fun vp h => b2 vp (a2 vp h)⟩

theorem removeAll_color_eq (l : List (Option QObject)) (w : VtkWidget) :
    (removeAll w l).m_typeColorMap = w.m_typeColorMap ∧
    (removeAll w l).m_graph.addLog = w.m_graph.addLog := by
  obtain ⟨g, m, b, heq, hlog⟩ := removeAll_frame l w
  rw [heq]
  exact ⟨rfl, hlog⟩

end VtkWidget

theorem step_colorInv {w : VtkWidget} (h : ColorInv w) (op : Op) : ColorInv (step w op) := by
  cases op with
  | addObject o => exact VtkWidget.addObject_colorInv h o
  | removeObject o =>
    have h1 : ColorInv (w.poolDel o) := VtkWidget.colorInv_congr h rfl rfl rfl
    exact VtkWidget.removeObjectInternal_colorInv h1 o
  | clear => exact VtkWidget.clear_colorInv h
  | setObjectFilter o => exact VtkWidget.setObjectFilter_colorInv h o
  | mousePress => exact VtkWidget.colorInv_congr h rfl rfl rfl
  | mouseRelease => exact VtkWidget.colorInv_congr h rfl rfl rfl
  | timeout =>
    show ColorInv (VtkWidget.timerEvent w)
    unfold VtkWidget.timerEvent
    split
    · exact VtkWidget.colorInv_congr h rfl rfl rfl
    · exact h

theorem Reachable.colorInv {w : VtkWidget} (h : Reachable w) : ColorInv w := by
  obtain ⟨ops, rfl⟩ := h
  have : ∀ (l : List Op) (v : VtkWidget), ColorInv v → ColorInv (run v l) := by
    intro l
    induction l with
    | nil => intro v hv; exact hv
    | cons op l ih => intro v hv; exact ih _ (step_colorInv hv op)
  exact this ops _ ⟨by simp [VtkWidget.new, Graph.empty], by simp [VtkWidget.new, Graph.empty]⟩

/-- No call or event changes the colour recorded for a class name or drops a
logged property tuple. -/
theorem step_color_mono (w : VtkWidget) (op : Op) :
    (∀ k c, w.m_typeColorMap.constFind k = some c →
      (step w op).m_typeColorMap.constFind k = some c) ∧
    (∀ vp ∈ w.m_graph.addLog, vp ∈ (step w op).m_graph.addLog) := by
  cases op with
  | addObject o => exact VtkWidget.addObject_color_mono w o
  | removeObject o =>
    obtain ⟨g, m, b, heq, hlog⟩ := VtkWidget.removeObjectInternal_frame (w.poolDel o) o
    show (∀ k c, _ → (VtkWidget.removeObjectInternal (w.poolDel o) o).2.m_typeColorMap.constFind k
      = some c) ∧ (∀ vp ∈ _, vp ∈ (VtkWidget.removeObjectInternal (w.poolDel o) o).2.m_graph.addLog)
    rw [heq]
    simp only [hlog]
    exact ⟨fun _ _ h => h, fun _ h => h⟩
  | clear =>
    obtain ⟨h1, h2⟩ := VtkWidget.removeAll_color_eq w.m_objectIdMap.keys w
    show (∀ k c, _ → (VtkWidget.clear w).m_typeColorMap.constFind k = some c) ∧
      (∀ vp ∈ _, vp ∈ (VtkWidget.clear w).m_graph.addLog)
    rw [VtkWidget.clear_eq]
    simp only [VtkWidget.renderView, h1, h2]
    exact ⟨fun _ _ h => h, fun _ h => h⟩
  | setObjectFilter o =>
    show (∀ k c, _ → (VtkWidget.setObjectFilter w o).m_typeColorMap.constFind k = some c) ∧
      (∀ vp ∈ _, vp ∈ (VtkWidget.setObjectFilter w o).m_graph.addLog)
    unfold VtkWidget.setObjectFilter
    split
    · exact ⟨fun _ _ h => h, fun _ h => h⟩
    · obtain ⟨h1, h2⟩ := VtkWidget.removeAll_color_eq w.m_objectIdMap.keys
        { w with m_objectFilter := o }
      obtain ⟨a1, a2⟩ := VtkWidget.addAll_color_mono
        (VtkWidget.clear { w with m_objectFilter := o }).m_availableObjects
        (VtkWidget.clear { w with m_objectFilter := o })
      have e1 : (VtkWidget.clear { w with m_objectFilter := o }).m_typeColorMap =
          w.m_typeColorMap := by
        rw [VtkWidget.clear_eq]; exact h1
      have e2 : (VtkWidget.clear { w with m_objectFilter := o }).m_graph.addLog =
          w.m_graph.addLog := by
        rw [VtkWidget.clear_eq]; exact h2
      rw [e1] at a1
      rw [e2] at a2
      exact ⟨a1, a2⟩
  | mousePress => exact ⟨fun _ _ h => h, fun _ h => h⟩
  | mouseRelease => exact ⟨fun _ _ h => h, fun _ h => h⟩
  | timeout =>
    show (∀ k c, _ → (VtkWidget.timerEvent w).m_typeColorMap.constFind k = some c) ∧
      (∀ vp ∈ _, vp ∈ (VtkWidget.timerEvent w).m_graph.addLog)
    unfold VtkWidget.timerEvent
    split <;> exact ⟨fun _ _ h => h, fun _ h => h⟩

theorem freshClass_injective {k n : Nat} (h : freshClass k = freshClass n) : k = n := by
  unfold freshClass at h
  have h1 := congrArg String.data h
  have h2 := congrArg List.length h1
  simpa using h2

theorem freshClass_ne_interactor (k : Nat) : freshClass k ≠ "QVTKInteractorInternal" := by
  intro h
  have h1 := congrArg String.data h
  simp only [freshClass, List.replicate_succ] at h1
  injection h1 with h3 _
  exact absurd h3 (by decide)

theorem VtkWidget.createVertex_of_none {w : VtkWidget} {o : QObject}
    (h : w.m_typeColorMap.constFind o.className = none) :
    (VtkWidget.createVertex w o).1.m_colorIndex = w.m_colorIndex + 1 ∧
    (VtkWidget.createVertex w o).1.m_typeColorMap =
      w.m_typeColorMap.insert o.className w.m_colorIndex ∧
    (VtkWidget.createVertex w o).1.m_graph.vertexData =
      w.m_graph.vertexData ++ [⟨o, 1, w.m_colorIndex⟩] := by
  refine ⟨?_, ?_, ?_⟩ <;> simp [VtkWidget.createVertex, Graph.AddVertex, h]

/-- After the first `n` classes were added, the next colour to hand out is `n`
and the classes and objects from `n` on are still unknown. -/
theorem manyTypes_state (n : Nat) :
    (run VtkWidget.new (manyTypes n)).m_mousePressed = false ∧
    (run VtkWidget.new (manyTypes n)).m_objectFilter = none ∧
    (run VtkWidget.new (manyTypes n)).m_colorIndex = n ∧
    (∀ k, n ≤ k →
      (run VtkWidget.new (manyTypes n)).m_typeColorMap.constFind (freshClass k) = none) ∧
    (∀ k, n ≤ k →
      (run VtkWidget.new (manyTypes n)).m_objectIdMap.contains (some (typeObj k)) = false) ∧
    (∀ m, n = m + 1 → ∃ vp ∈ (run VtkWidget.new (manyTypes n)).m_graph.vertexData,
      vp.color = m) := by
  induction n with
  | zero =>
    refine ⟨rfl, rfl, rfl, ?_, ?_, ?_⟩
    · intro k _; rfl
    · intro k _; rfl
    · intro m hm; omega
  | succ n ih =>
    obtain ⟨hp, hf, hci, htc, hmap, _⟩ := ih
    have hrun : run VtkWidget.new (manyTypes (n + 1)) =
        ((run VtkWidget.new (manyTypes n)).addObject (typeObj n)).2 := by
      simp [run, manyTypes, List.range_succ, List.foldl_append, step]
    generalize run VtkWidget.new (manyTypes n) = w at hp hf hci htc hmap hrun
    have hr : VtkWidget.addRejected (w.poolAdd (typeObj n)) (typeObj n) = false := by
      rw [VtkWidget.addRejected_poolAdd, VtkWidget.addRejected_eq_false_iff]
      refine ⟨hp, freshClass_ne_interactor n, hmap n (Nat.le_refl n), ?_⟩
      simp [VtkWidget.filterAcceptsObject, hf]
    have hres : (w.addObject (typeObj n)).2 =
        VtkWidget.renderView (VtkWidget.createVertex (w.poolAdd (typeObj n)) (typeObj n)).1 := by
      unfold typeObj
      rw [VtkWidget.addObject_root]
      unfold typeObj at hr
      rw [hr]
      rfl
    have hnone : (w.poolAdd (typeObj n)).m_typeColorMap.constFind (typeObj n).className = none :=
      htc n (Nat.le_refl n)
    obtain ⟨c1, c2, c3⟩ := VtkWidget.createVertex_of_none hnone
    rw [hrun, hres]
    simp only [VtkWidget.renderView]
    refine ⟨?_, ?_, ?_, ?_, ?_, ?_⟩
    · rw [VtkWidget.createVertex_mousePressed]; exact hp
    · rw [VtkWidget.createVertex_objectFilter]; exact hf
    · rw [c1]
      show w.m_colorIndex + 1 = n + 1
      rw [hci]
    · intro k hk
      rw [c2]
      have hne : freshClass k ≠ (typeObj n).className := by
        intro hh
        have := freshClass_injective hh
        omega
      rw [TypeColorMap.constFind_insert_of_ne _ _ hne]
      exact htc k (by omega)
    · intro k hk
      rw [VtkWidget.createVertex_map, ObjectIdMap.contains_insert]
      have hne : typeObj k ≠ typeObj n := by
        intro hh
        unfold typeObj at hh
        injection hh with h1 _
        omega
      simp only [Option.some.injEq, hne, decide_False, Bool.false_or]
      exact hmap k (by omega)
    · intro m hm
      refine ⟨⟨typeObj n, 1, w.m_colorIndex⟩, ?_, ?_⟩
      · rw [c3]
        exact List.mem_append_right _ (List.mem_singleton.2 rfl)
      · show w.m_colorIndex = m
        omega

/-! ## Claims -/

/-- C1: in every reachable state the identity map has as many entries as the
store has vertices, its keys are distinct non-null objects, every tracked
object has an id below the vertex count at which the store holds exactly that
object's vertex, and every id below the vertex count belongs to exactly one
tracked object. -/
theorem identityMap_bijection (w : VtkWidget) (h : Reachable w) :
    w.m_objectIdMap.size = w.m_graph.GetNumberOfVertices ∧
    (ObjectIdMap.keys w.m_objectIdMap).Nodup ∧
    (∀ k ∈ ObjectIdMap.keys w.m_objectIdMap, k ≠ none) ∧
    (∀ o, Tracked w o → ∃ i, w.m_objectIdMap.find (some o) = some i ∧
      i < w.m_graph.GetNumberOfVertices ∧
      (w.m_graph.vertexData[i]?).map VertexProps.label = some o) ∧
    (∀ i, i < w.m_graph.GetNumberOfVertices →
      ∃! o, Tracked w o ∧ w.m_objectIdMap.find (some o) = some i) := by
  have hinv := h.inv
  refine ⟨hinv.size_eq, hinv.nodup, ?_, ?_, ?_⟩
  · intro k hk
    simp only [ObjectIdMap.keys, List.mem_map] at hk
    obtain ⟨⟨k1, i⟩, hm, rfl⟩ := hk
    obtain ⟨vp, _, hvp⟩ := hinv.agree k1 i hm
    simp [hvp]
  · intro o ho
    obtain ⟨i, hi⟩ := (ObjectIdMap.find_isSome_iff _ _).2 ho
    have hm := ObjectIdMap.mem_of_find hi
    obtain ⟨vp, hvp, hk⟩ := hinv.agree _ i hm
    refine ⟨i, hi, hinv.id_lt hm, ?_⟩
    rw [hvp]
    simpa using (Option.some.inj hk).symm
  · intro i hi
    obtain ⟨k, hk⟩ := hinv.exists_key hi
    obtain ⟨vp, _, hvp⟩ := hinv.agree k i hk
    subst hvp
    refine ⟨vp.label, ⟨(ObjectIdMap.contains_iff _ _).2 ⟨i, hk⟩,
      ObjectIdMap.find_of_mem hinv.nodup hk⟩, ?_⟩
    rintro o ⟨_, ho⟩
    exact Option.some.inj (hinv.key_unique (ObjectIdMap.mem_of_find ho) hk)

theorem reachable_scenarioPCC : Reachable scenarioPCC := ⟨_, rfl⟩

theorem identityMap_bijection_witness :
    Reachable (step scenarioPCC (.removeObject (some objC1))) ∧
    (step scenarioPCC (.removeObject (some objC1))).m_objectIdMap.size =
      (step scenarioPCC (.removeObject (some objC1))).m_graph.GetNumberOfVertices :=
  ⟨reachable_scenarioPCC.step _,
    (identityMap_bijection _ (reachable_scenarioPCC.step _)).1⟩

/-- C2: removing a tracked object `x` from a reachable state drops its entry;
every other tracked object stays tracked with an id that is unchanged or equal
to the id `x` held; an id changes exactly when the object held the highest id
and `x` did not; hence at most one object moves. -/
theorem removeObject_renumber (w : VtkWidget) (h : Reachable w) (x : QObject)
    (hx : Tracked w x) :
    ¬ Tracked (w.removeObject (some x)).2 x ∧
    (∀ y i, y ≠ x → w.m_objectIdMap.find (some y) = some i →
      ∃ j, (w.removeObject (some x)).2.m_objectIdMap.find (some y) = some j ∧
        (j = i ∨ w.m_objectIdMap.find (some x) = some j) ∧
        (j ≠ i ↔ (i = w.m_graph.GetNumberOfVertices - 1 ∧
          w.m_objectIdMap.find (some x) ≠ some (w.m_graph.GetNumberOfVertices - 1)))) ∧
    (∀ y z i j, y ≠ x → z ≠ x → w.m_objectIdMap.find (some y) = some i →
      w.m_objectIdMap.find (some z) = some j →
      (w.removeObject (some x)).2.m_objectIdMap.find (some y) ≠ some i →
      (w.removeObject (some x)).2.m_objectIdMap.find (some z) ≠ some j → y = z) := by
  have hinv : Inv (w.poolDel (some x)) := VtkWidget.inv_congr h.inv rfl rfl
  obtain ⟨t, m, ht, htlt, heq, hmnd, hlen, hmem⟩ :=
    VtkWidget.removeObjectInternal_of_contains hinv hx
  have hfx : w.m_objectIdMap.find (some x) = some t := ObjectIdMap.find_of_mem h.inv.nodup ht
  have hmap : (w.removeObject (some x)).2.m_objectIdMap = m := by
    unfold VtkWidget.removeObject
    rw [heq]
    rfl
  have hmoved : ∀ y i, y ≠ x → w.m_objectIdMap.find (some y) = some i →
      (w.removeObject (some x)).2.m_objectIdMap.find (some y) =
        some (if i = w.m_graph.vertexData.length - 1 then t else i) := by
    intro y i hyx hy
    rw [hmap]
    apply ObjectIdMap.find_of_mem hmnd
    exact (hmem _ _).2 ⟨fun hh => hyx (Option.some.inj hh), i, ObjectIdMap.mem_of_find hy, rfl⟩
  refine ⟨?_, ?_, ?_⟩
  · intro hc
    unfold Tracked at hc
    rw [hmap, ObjectIdMap.contains_iff] at hc
    obtain ⟨i, hi⟩ := hc
    exact ((hmem _ _).1 hi).1 rfl
  · intro y i hyx hy
    refine ⟨_, hmoved y i hyx hy, ?_, ?_⟩
    · by_cases hi : i = w.m_graph.vertexData.length - 1
      · right; rw [if_pos hi]; exact hfx
      · left; rw [if_neg hi]
    · rw [hfx]
      simp only [Graph.GetNumberOfVertices]
      by_cases hi : i = w.m_graph.vertexData.length - 1
      · rw [if_pos hi]
        constructor
        · intro hne
          refine ⟨hi, fun hh => hne ?_⟩
          rw [hi]; exact Option.some.inj hh
        · rintro ⟨_, hne⟩ hh
          apply hne
          rw [hh, hi]
      · rw [if_neg hi]
        simp [hi]
  · intro y z i j hyx hzx hy hz hy1 hz1
    have hi : i = w.m_graph.vertexData.length - 1 := by
      by_contra hne
      exact hy1 (by rw [hmoved y i hyx hy, if_neg hne])
    have hj : j = w.m_graph.vertexData.length - 1 := by
      by_contra hne
      exact hz1 (by rw [hmoved z j hzx hz, if_neg hne])
    have hmy := ObjectIdMap.mem_of_find hy
    have hmz := ObjectIdMap.mem_of_find hz
    rw [hi] at hmy
    rw [hj] at hmz
    exact Option.some.inj (h.inv.key_unique hmy hmz)


theorem removeObject_renumber_witness :
    Reachable scenarioPCC ∧ Tracked scenarioPCC objC1 ∧
    ¬ Tracked (scenarioPCC.removeObject (some objC1)).2 objC1 :=
  ⟨reachable_scenarioPCC, by decide,
    (removeObject_renumber scenarioPCC reachable_scenarioPCC objC1 (by decide)).1⟩

/-- C3: in a reachable state `removeObject` returns true exactly when the call
lowered the store's vertex count; for a key that is not tracked it returns
false and leaves the vertex count and the identity map as they were. -/
theorem removeObject_result (w : VtkWidget) (h : Reachable w) (x : Option QObject) :
    ((w.removeObject x).1 = true ↔
      (w.removeObject x).2.m_graph.GetNumberOfVertices < w.m_graph.GetNumberOfVertices) ∧
    (w.m_objectIdMap.contains x = false →
      (w.removeObject x).1 = false ∧
      (w.removeObject x).2.m_graph.GetNumberOfVertices = w.m_graph.GetNumberOfVertices ∧
      (w.removeObject x).2.m_objectIdMap = w.m_objectIdMap) := by
  have hinv : Inv (w.poolDel x) := VtkWidget.inv_congr h.inv rfl rfl
  have hnot : w.m_objectIdMap.contains x = false → w.removeObject x = (false, w.poolDel x) := by
    intro hc
    unfold VtkWidget.removeObject
    exact VtkWidget.removeObjectInternal_of_not_contains hc
  refine ⟨?_, ?_⟩
  · cases hc : w.m_objectIdMap.contains x with
    | false =>
      rw [hnot hc]
      simp [VtkWidget.poolDel]
    | true =>
      obtain ⟨t, m, ht, htlt, heq, _, _, _⟩ := VtkWidget.removeObjectInternal_of_contains hinv hc
      unfold VtkWidget.removeObject
      rw [heq]
      simp only [VtkWidget.renderView, Graph.GetNumberOfVertices, true_iff]
      rw [Graph.length_RemoveVertex htlt]
      have : t < w.m_graph.vertexData.length := htlt
      show (w.poolDel x).m_graph.vertexData.length - 1 < w.m_graph.vertexData.length
      have h2 : (w.poolDel x).m_graph.vertexData.length = w.m_graph.vertexData.length := rfl
      omega
  · intro hc
    rw [hnot hc]
    exact ⟨rfl, rfl, rfl⟩

theorem removeObject_result_witness :
    Reachable scenarioPCC ∧
    ((scenarioPCC.removeObject (some objA)).1 = true ↔
      (scenarioPCC.removeObject (some objA)).2.m_graph.GetNumberOfVertices <
        scenarioPCC.m_graph.GetNumberOfVertices) :=
  ⟨reachable_scenarioPCC, (removeObject_result scenarioPCC reachable_scenarioPCC (some objA)).1⟩

/-- C4: in any state, calling `addObject(x)` right after `addObject(x)` returns
false and leaves the whole widget state (vertices, edges, identity map and all
other members) exactly as the first call left it. -/
theorem addObject_twice (w : VtkWidget) (x : QObject) :
    ((w.addObject x).2.addObject x).1 = false ∧
    ((w.addObject x).2.addObject x).2 = (w.addObject x).2 := by
  have hrej : VtkWidget.addRejected (w.addObject x).2 x = true := by
    cases hr : VtkWidget.addRejected (w.poolAdd x) x with
    | true =>
      have : w.addObject x = (false, w.poolAdd x) := by
        unfold VtkWidget.addObject
        exact VtkWidget.addObjectInternal_of_rejected hr
      rw [this]
      exact hr
    | false =>
      obtain ⟨_, hf⟩ := VtkWidget.addObject_of_not_rejected hr
      have hc := (ObjectIdMap.find_isSome_iff _ _).1 ⟨_, hf⟩
      unfold VtkWidget.addRejected
      simp [hc]
  have hpool : (w.addObject x).2.poolAdd x = (w.addObject x).2 :=
    VtkWidget.poolAdd_of_mem (VtkWidget.mem_pool_addObject w x)
  have : (w.addObject x).2.addObject x = (false, (w.addObject x).2) := by
    show VtkWidget.addObjectInternal x ((w.addObject x).2.poolAdd x) = _
    rw [hpool]
    exact VtkWidget.addObjectInternal_of_rejected hrej
  rw [this]
  exact ⟨rfl, rfl⟩

/-- C5: in any state with the pointer not pressed, adding an untracked object
`c` that passes the filter and class guards and whose parent `p` is tracked
returns true, creates exactly one vertex, gives `c` the previous vertex count
as id and appends exactly one edge, from the id of `p` to the id of `c`.
Scenario: `P`, `C1`, `C2` added to a fresh widget give 3 vertices and the two
edges `(0,1)`, `(0,2)`, where `0` is the id of `P`. -/
theorem addObject_tracked_parent :
    (∀ (w : VtkWidget) (c p : QObject), w.m_mousePressed = false → c.parent = some p →
      ¬ Tracked w c → w.filterAcceptsObject c = true →
      c.className ≠ "QVTKInteractorInternal" → Tracked w p →
      (w.addObject c).1 = true ∧
      (w.addObject c).2.m_graph.GetNumberOfVertices = w.m_graph.GetNumberOfVertices + 1 ∧
      (w.addObject c).2.m_objectIdMap.find (some c) = some w.m_graph.GetNumberOfVertices ∧
      ∃ ip, w.m_objectIdMap.find (some p) = some ip ∧
        (w.addObject c).2.m_objectIdMap.find (some p) = some ip ∧
        (w.addObject c).2.m_graph.edges =
          w.m_graph.edges ++ [(ip, w.m_graph.GetNumberOfVertices)]) ∧
    (scenarioPCC.m_graph.GetNumberOfVertices = 3 ∧
      scenarioPCC.m_graph.edges = [(0, 1), (0, 2)] ∧
      scenarioPCC.m_objectIdMap.find (some objP) = some 0) := by
  refine ⟨?_, by decide⟩
  intro w c p hpress hpar hun hacc hcls hp
  have hunf : w.m_objectIdMap.contains (some c) = false := by
    simpa [Tracked] using hun
  have hr : VtkWidget.addRejected (w.poolAdd c) c = false := by
    rw [VtkWidget.addRejected_poolAdd, VtkWidget.addRejected_eq_false_iff]
    exact ⟨hpress, hcls, hunf, hacc⟩
  obtain ⟨h1, h2⟩ := VtkWidget.addObject_of_not_rejected hr
  obtain ⟨ip, hip⟩ := (ObjectIdMap.find_isSome_iff _ _).2 hp
  have hne : (some p : Option QObject) ≠ some c := by
    intro hh
    rw [Option.some.inj hh] at hp
    exact hun hp
  obtain ⟨col, hvd, _, _, _⟩ := VtkWidget.createVertex_vertexData (w.poolAdd c) c
  have hfp : (VtkWidget.createVertex (w.poolAdd c) c).1.m_objectIdMap.find (some p) = some ip := by
    rw [VtkWidget.createVertex_map, ObjectIdMap.find_insert_of_ne _ _ hne]
    exact hip
  have hcp : (VtkWidget.createVertex (w.poolAdd c) c).1.m_objectIdMap.contains (some p) = true :=
    (ObjectIdMap.find_isSome_iff _ _).1 ⟨ip, hfp⟩
  cases c with
  | root i cn => simp [QObject.parent] at hpar
  | child i cn q =>
    simp only [QObject.parent, Option.some.injEq] at hpar
    subst hpar
    have hres : (w.addObject (.child i cn q)).2 =
        VtkWidget.renderView (VtkWidget.addParentEdge
          (VtkWidget.createVertex (w.poolAdd (.child i cn q)) (.child i cn q)).1 q
          (VtkWidget.createVertex (w.poolAdd (.child i cn q)) (.child i cn q)).2) := by
      rw [VtkWidget.addObject_child, hr]
      simp [hcp]
    refine ⟨h1, ?_, h2, ip, hip, ?_, ?_⟩
    · rw [hres]
      simp only [VtkWidget.renderView, Graph.GetNumberOfVertices,
        VtkWidget.addParentEdge_vertexData, hvd]
      simp
      rfl
    · rw [hres]
      simp only [VtkWidget.renderView, VtkWidget.addParentEdge_map]
      exact hfp
    · rw [hres]
      simp only [VtkWidget.renderView, VtkWidget.addParentEdge, hcp, if_true, Graph.AddEdge,
        VtkWidget.createVertex_edges, ObjectIdMap.value_of_find hfp, VtkWidget.createVertex_snd]
      rfl

theorem addObject_tracked_parent_witness :
    VtkWidget.new.m_mousePressed = false ∧
    ((step VtkWidget.new (.addObject objP)).addObject objC1).2.m_graph.edges = [(0, 1)] := by
  refine ⟨rfl, ?_⟩
  obtain ⟨_, _, _, ip, hip, _, hed⟩ := addObject_tracked_parent.1
    (step VtkWidget.new (.addObject objP)) objC1 objP (by decide) (by decide) (by decide)
    (by decide) (by decide) (by decide)
  have : ip = 0 := by
    have h0 : (step VtkWidget.new (.addObject objP)).m_objectIdMap.find (some objP) = some 0 := by
      decide
    rw [h0] at hip
    exact (Option.some.inj hip).symm
  rw [hed, this]
  decide

/-- C6: from a reachable state with the pointer not pressed, setting a filter
`f` different from the current one leaves tracked exactly those members of the
available pool that are `f` or a strict descendant of `f` and are not of the
interactor class; the pool itself only grows. Scenario: with the chain
`A -> B -> C` added, `setObjectFilter(B)` leaves exactly `B` and `C` tracked. -/
theorem setObjectFilter_visible :
    (∀ (w : VtkWidget) (f : QObject), Reachable w → w.m_mousePressed = false →
      w.m_objectFilter ≠ some f →
      (∀ o, Tracked (w.setObjectFilter (some f)) o ↔
        (o ∈ (w.setObjectFilter (some f)).m_availableObjects ∧
          (o = f ∨ StrictDescendant f o) ∧ o.className ≠ "QVTKInteractorInternal")) ∧
      (∀ o ∈ w.m_availableObjects, o ∈ (w.setObjectFilter (some f)).m_availableObjects)) ∧
    ((scenarioABC.setObjectFilter (some objB)).m_objectIdMap.keys = [some objB, some objC] ∧
      ¬ Tracked (scenarioABC.setObjectFilter (some objB)) objA) := by
  refine ⟨?_, rfl, by decide⟩
  intro w f hreach hpress hne
  have hinv0 : Inv { w with m_objectFilter := some f } := VtkWidget.inv_congr hreach.inv rfl rfl
  have hclear := VtkWidget.clear_spec hinv0
  have hset : w.setObjectFilter (some f) =
      VtkWidget.resetCamera (VtkWidget.addAll (VtkWidget.clear { w with m_objectFilter := some f })
        (VtkWidget.clear { w with m_objectFilter := some f }).m_availableObjects) := by
    unfold VtkWidget.setObjectFilter
    rw [if_neg hne]
    rfl
  have hpool1 : (VtkWidget.clear { w with m_objectFilter := some f }).m_availableObjects =
      w.m_availableObjects := by rw [hclear]
  have hfilter1 : (VtkWidget.clear { w with m_objectFilter := some f }).m_objectFilter =
      some f := by rw [hclear]
  have hfi : FilterInv w.m_availableObjects
      (VtkWidget.clear { w with m_objectFilter := some f }) := by
    rw [hclear]
    refine ⟨hpress, ?_, ?_⟩
    · intro o ho
      simp [Tracked, ObjectIdMap.contains] at ho
    · intro o ho hn
      exact absurd ho hn
  rw [hset]
  clear hset hclear hinv0
  generalize VtkWidget.clear { w with m_objectFilter := some f } = w1 at hpool1 hfilter1 hfi ⊢
  obtain ⟨hfin, hproc⟩ := VtkWidget.addAll_filterInv w1.m_availableObjects hfi
  have hfilter : (VtkWidget.addAll w1 w1.m_availableObjects).m_objectFilter = some f := by
    rw [VtkWidget.addAll_objectFilter, hfilter1]
  refine ⟨?_, ?_⟩
  · intro o
    show Tracked (VtkWidget.addAll w1 w1.m_availableObjects) o ↔
      (o ∈ (VtkWidget.addAll w1 w1.m_availableObjects).m_availableObjects ∧ _)
    rw [← filterAcceptsObject_some hfilter o]
    constructor
    · intro ho
      exact hfin.sound o ho
    · rintro ⟨ho, ha, hc⟩
      by_cases hmem : o ∈ w.m_availableObjects
      · apply hproc o (by rw [hpool1]; exact hmem) _ hc
        rw [filterAcceptsObject_some hfilter1 o]
        exact (filterAcceptsObject_some hfilter o).1 ha
      · exact hfin.complete o ho hmem ha hc
  · intro o ho
    show o ∈ (VtkWidget.addAll w1 w1.m_availableObjects).m_availableObjects
    apply VtkWidget.addAll_pool_mono
    rw [hpool1]; exact ho

theorem setObjectFilter_visible_witness :
    Reachable scenarioABC ∧ scenarioABC.m_mousePressed = false ∧
    scenarioABC.m_objectFilter ≠ some objB ∧
    (Tracked (scenarioABC.setObjectFilter (some objB)) objC ↔
      (objC ∈ (scenarioABC.setObjectFilter (some objB)).m_availableObjects ∧
        (objC = objB ∨ StrictDescendant objB objC) ∧
        objC.className ≠ "QVTKInteractorInternal")) :=
  ⟨⟨_, rfl⟩, by decide, by decide,
    (setObjectFilter_visible.1 scenarioABC objB ⟨_, rfl⟩ (by decide) (by decide)).1 objC⟩

theorem QObject.child_ne_self (p : QObject) (i : Nat) (c : String) :
    QObject.child i c p ≠ p := by
  induction p generalizing i c with
  | root j d => intro h; cases h
  | child j d q ih =>
    intro h
    injection h with _ _ h3
    exact ih j d h3

/-- C7 fails as stated: adding `C1` (parent `P`, both untracked and accepted) to
the fresh widget creates the vertex of `C1` first, so `C1` gets id 0 and `P`
gets id 1; the id of `P` is not smaller than the id of `C1`. -/
theorem addObject_parent_first_counterexample :
    VtkWidget.new.m_mousePressed = false ∧ objC1.parent = some objP ∧
    ¬ Tracked VtkWidget.new objC1 ∧ ¬ Tracked VtkWidget.new objP ∧
    VtkWidget.new.filterAcceptsObject objC1 = true ∧
    VtkWidget.new.filterAcceptsObject objP = true ∧
    objC1.className ≠ "QVTKInteractorInternal" ∧ objP.className ≠ "QVTKInteractorInternal" ∧
    (VtkWidget.new.addObject objC1).2.m_objectIdMap.find (some objP) = some 1 ∧
    (VtkWidget.new.addObject objC1).2.m_objectIdMap.find (some objC1) = some 0 ∧
    ¬ ∃ ip ic, (VtkWidget.new.addObject objC1).2.m_objectIdMap.find (some objP) = some ip ∧
      (VtkWidget.new.addObject objC1).2.m_objectIdMap.find (some objC1) = some ic ∧ ip < ic := by
  have hp : (VtkWidget.new.addObject objC1).2.m_objectIdMap.find (some objP) = some 1 := by decide
  have hc : (VtkWidget.new.addObject objC1).2.m_objectIdMap.find (some objC1) = some 0 := by
    decide
  refine ⟨rfl, rfl, by decide, by decide, by decide, by decide, by decide, by decide, hp, hc, ?_⟩
  rintro ⟨ip, ic, h1, h2, hlt⟩
  rw [hp] at h1
  rw [hc] at h2
  cases h1
  cases h2
  omega

/-- C7 amended: with the pointer not pressed, adding an untracked accepted
object `c` whose parent `p` is untracked and accepted creates the vertex of `c`
first: `c` gets the previous vertex count as id, `p` gets the previous vertex
count plus one (so the id of `c` is the smaller one), and the edge from the id
of `p` to the id of `c` is created. -/
theorem addObject_untracked_parent (w : VtkWidget) (c p : QObject)
    (hpress : w.m_mousePressed = false) (hpar : c.parent = some p)
    (hunc : ¬ Tracked w c) (hunp : ¬ Tracked w p)
    (haccc : w.filterAcceptsObject c = true) (haccp : w.filterAcceptsObject p = true)
    (hclsc : c.className ≠ "QVTKInteractorInternal")
    (hclsp : p.className ≠ "QVTKInteractorInternal") :
    (w.addObject c).1 = true ∧
    (w.addObject c).2.m_objectIdMap.find (some c) = some w.m_graph.GetNumberOfVertices ∧
    (w.addObject c).2.m_objectIdMap.find (some p) = some (w.m_graph.GetNumberOfVertices + 1) ∧
    (w.m_graph.GetNumberOfVertices + 1, w.m_graph.GetNumberOfVertices) ∈
      (w.addObject c).2.m_graph.edges := by
  have huncf : w.m_objectIdMap.contains (some c) = false := by simpa [Tracked] using hunc
  have hunpf : w.m_objectIdMap.contains (some p) = false := by simpa [Tracked] using hunp
  have hr : VtkWidget.addRejected (w.poolAdd c) c = false := by
    rw [VtkWidget.addRejected_poolAdd, VtkWidget.addRejected_eq_false_iff]
    exact ⟨hpress, hclsc, huncf, haccc⟩
  obtain ⟨h1, h2⟩ := VtkWidget.addObject_of_not_rejected hr
  obtain ⟨col, hvd, _, _, _⟩ := VtkWidget.createVertex_vertexData (w.poolAdd c) c
  cases c with
  | root i cn => simp [QObject.parent] at hpar
  | child i cn q =>
    simp only [QObject.parent, Option.some.injEq] at hpar
    subst hpar
    have hne : q ≠ QObject.child i cn q := fun hh => QObject.child_ne_self q i cn hh.symm
    have hcp : (VtkWidget.createVertex (w.poolAdd (.child i cn q)) (.child i cn q)).1.m_objectIdMap.contains
        (some q) = false := by
      rw [VtkWidget.createVertex_map, ObjectIdMap.contains_insert]
      simp only [Option.some.injEq, hne, decide_False, Bool.false_or]
      exact hunpf
    have hrp : VtkWidget.addRejected
        (VtkWidget.poolAdd
          (VtkWidget.createVertex (w.poolAdd (.child i cn q)) (.child i cn q)).1 q) q = false := by
      rw [VtkWidget.addRejected_poolAdd, VtkWidget.addRejected_eq_false_iff]
      refine ⟨?_, hclsp, hcp, ?_⟩
      · rw [VtkWidget.createVertex_mousePressed]; exact hpress
      · rw [VtkWidget.filterAcceptsObject_congr (VtkWidget.createVertex_objectFilter _ _)]
        exact haccp
    obtain ⟨_, hfp⟩ := VtkWidget.addObject_of_not_rejected hrp
    have hlen : (VtkWidget.createVertex (w.poolAdd (.child i cn q))
        (.child i cn q)).1.m_graph.vertexData.length = w.m_graph.vertexData.length + 1 := by
      rw [hvd]
      simp [VtkWidget.poolAdd]
    rw [hlen] at hfp
    have hres : (w.addObject (.child i cn q)).2 =
        VtkWidget.renderView (VtkWidget.addParentEdge
          (VtkWidget.addObject
            (VtkWidget.createVertex (w.poolAdd (.child i cn q)) (.child i cn q)).1 q).2 q
          (VtkWidget.createVertex (w.poolAdd (.child i cn q)) (.child i cn q)).2) := by
      rw [VtkWidget.addObject_child, hr]
      simp [hcp]
    have hcq := (ObjectIdMap.find_isSome_iff _ _).1 ⟨_, hfp⟩
    refine ⟨h1, h2, ?_, ?_⟩
    · rw [hres]
      simp only [VtkWidget.renderView, VtkWidget.addParentEdge_map]
      exact hfp
    · rw [hres]
      simp only [VtkWidget.renderView, VtkWidget.addParentEdge, hcq, if_true, Graph.AddEdge,
        ObjectIdMap.value_of_find hfp, VtkWidget.createVertex_snd, List.mem_append,
        List.mem_singleton]
      right
      rfl

theorem addObject_untracked_parent_witness :
    VtkWidget.new.m_mousePressed = false ∧ ¬ Tracked VtkWidget.new objC ∧
    (VtkWidget.new.addObject objC).2.m_objectIdMap.find (some objC) = some 0 ∧
    (VtkWidget.new.addObject objC).2.m_objectIdMap.find (some objB) = some 1 :=
  have h := addObject_untracked_parent VtkWidget.new objC objB (by decide) (by decide)
    (by decide) (by decide) (by decide) (by decide) (by decide) (by decide)
  ⟨by decide, by decide, h.2.1, h.2.2.1⟩

/-- C8 (the code at the failing input): after adding objects of eleven distinct
classes the stored colour indices are 0, 1, ..., 10. The eleventh class gets
colour 10 and not 10 mod 10 = 0: the wrap `% 10` is applied to the function's
static `colorIndex`, which stays 0, while the member `m_colorIndex` that is
stored on the vertex only ever grows. In general every number `N` is stored as
a colour index in some reachable state, so no palette size bounds them. -/
theorem colorIndex_not_wrapped :
    (run VtkWidget.new elevenTypes).m_graph.vertexData.map VertexProps.color =
      [0, 1, 2, 3, 4, 5, 6, 7, 8, 9, 10] ∧
    (run VtkWidget.new elevenTypes).colorIndex = 0 ∧
    (run VtkWidget.new elevenTypes).m_colorIndex = 11 ∧
    (¬ ∀ vp ∈ (run VtkWidget.new elevenTypes).m_graph.vertexData, vp.color < 10) ∧
    (∀ N : Nat, ∃ w, Reachable w ∧ ∃ vp ∈ w.m_graph.vertexData, vp.color = N) := by
  have h : (run VtkWidget.new elevenTypes).m_graph.vertexData.map VertexProps.color =
      [0, 1, 2, 3, 4, 5, 6, 7, 8, 9, 10] := by decide
  refine ⟨h, by decide, by decide, ?_, ?_⟩
  · intro hall
    have hmem : (10 : Nat) ∈ (run VtkWidget.new elevenTypes).m_graph.vertexData.map
        VertexProps.color := by rw [h]; simp
    obtain ⟨vp, hvp, hc⟩ := List.mem_map.1 hmem
    have := hall vp hvp
    omega
  · intro N
    exact ⟨run VtkWidget.new (manyTypes (N + 1)), ⟨_, rfl⟩, (manyTypes_state (N + 1)).2.2.2.2.2 N rfl⟩

/-- C9: in every reachable state, any two property tuples ever passed to
`AddVertex` (the ghost log, which also contains every live vertex) whose
objects have the same class name carry the same colour index, namely the one
recorded for that class name in `m_typeColorMap`; and no call or event changes
a recorded colour or drops a logged tuple, whichever of `addObject`,
`removeObject`, `clear`, `setObjectFilter` it is. -/
theorem color_per_type (w : VtkWidget) (h : Reachable w) :
    (∀ a ∈ w.m_graph.addLog, ∀ b ∈ w.m_graph.addLog,
      a.label.className = b.label.className → a.color = b.color) ∧
    (∀ vp ∈ w.m_graph.vertexData, vp ∈ w.m_graph.addLog) ∧
    (∀ vp ∈ w.m_graph.addLog, w.m_typeColorMap.constFind vp.label.className = some vp.color) ∧
    (∀ op : Op,
      (∀ k c, w.m_typeColorMap.constFind k = some c →
        (step w op).m_typeColorMap.constFind k = some c) ∧
      (∀ vp ∈ w.m_graph.addLog, vp ∈ (step w op).m_graph.addLog)) := by
  have hc := h.colorInv
  refine ⟨?_, hc.live, hc.logged, fun op => step_color_mono w op⟩
  intro a ha b hb hab
  have h1 := hc.logged a ha
  have h2 := hc.logged b hb
  rw [hab, h2] at h1
  exact (Option.some.inj h1).symm

theorem color_per_type_witness :
    Reachable (step scenarioPCC (.removeObject (some objC1))) ∧
    (step scenarioPCC (.removeObject (some objC1))).m_typeColorMap.constFind "QLabel" = some 1 :=
  ⟨reachable_scenarioPCC.step _,
    (color_per_type _ (reachable_scenarioPCC.step _)).2.2.1 ⟨objC1, 1, 1⟩ (by decide)⟩

/-- C10: in every reachable state `clear()` leaves the identity map empty and
the store without vertices and edges. Every key of the snapshot is still
tracked when the loop reaches it, its `removeObjectInternal` call returns true
and removes it, and the map is already empty when the loop ends. -/
theorem clear_empties (w : VtkWidget) (h : Reachable w) :
    w.clear.m_objectIdMap = [] ∧
    w.clear.m_graph.GetNumberOfVertices = 0 ∧
    w.clear.m_graph.GetNumberOfEdges = 0 ∧
    (w.removeAll w.m_objectIdMap.keys).m_objectIdMap = [] ∧
    (∀ done x rest, w.m_objectIdMap.keys = done ++ x :: rest →
      (w.removeAll done).m_objectIdMap.contains x = true ∧
      ((w.removeAll done).removeObjectInternal x).1 = true ∧
      ((w.removeAll done).removeObjectInternal x).2.m_objectIdMap.contains x = false) := by
  have hinv := h.inv
  have hkeys : ∀ k, w.m_objectIdMap.contains k = true ↔ k ∈ w.m_objectIdMap.keys := by
    intro k
    rw [ObjectIdMap.contains_iff]
    simp [ObjectIdMap.keys]
  obtain ⟨hempty, hturn⟩ := VtkWidget.removeAll_keys w.m_objectIdMap.keys hinv hinv.nodup hkeys
  have hspec := VtkWidget.clear_spec hinv
  refine ⟨by rw [hspec], by rw [hspec]; rfl, by rw [hspec]; rfl, hempty, ?_⟩
  intro done x rest hsplit
  have hc := hturn done x rest hsplit
  have hinv1 := VtkWidget.removeAll_inv done hinv
  obtain ⟨t, m, _, _, heq, _, _, hmem⟩ := VtkWidget.removeObjectInternal_of_contains hinv1 hc
  refine ⟨hc, by rw [heq], ?_⟩
  rw [heq]
  simp only [VtkWidget.renderView]
  rw [ObjectIdMap.contains_eq_false_iff]
  intro i hi
  exact ((hmem x i).1 hi).1 rfl

theorem clear_empties_witness :
    Reachable scenarioPCC ∧ scenarioPCC.clear.m_objectIdMap = [] ∧
    scenarioPCC.clear.m_graph.GetNumberOfVertices = 0 ∧
    scenarioPCC.clear.m_graph.GetNumberOfEdges = 0 :=
  have h := clear_empties scenarioPCC reachable_scenarioPCC
  ⟨reachable_scenarioPCC, h.1, h.2.1, h.2.2.1⟩

/-! ## The interaction guard -/

namespace VtkWidget

theorem removeObjectInternal_mousePressed (w : VtkWidget) (k : Option QObject) :
    (removeObjectInternal w k).2.m_mousePressed = w.m_mousePressed ∧
    (removeObjectInternal w k).2.m_objectFilter = w.m_objectFilter ∧
    (removeObjectInternal w k).2.m_availableObjects = w.m_availableObjects := by
  obtain ⟨g, m, b, heq, _⟩ := removeObjectInternal_frame w k
  rw [heq]
  exact ⟨rfl, rfl, rfl⟩

theorem clear_mousePressed (w : VtkWidget) :
    (clear w).m_mousePressed = w.m_mousePressed ∧
    (clear w).m_objectFilter = w.m_objectFilter ∧
    (clear w).m_availableObjects = w.m_availableObjects := by
  obtain ⟨g, m, b, heq, _⟩ := removeAll_frame w.m_objectIdMap.keys w
  rw [clear_eq, heq]
  exact ⟨rfl, rfl, rfl⟩

theorem addAll_mousePressed (l : List QObject) (v : VtkWidget) :
    (addAll v l).m_mousePressed = v.m_mousePressed := by
  induction l generalizing v with
  | nil => rfl
  | cons o l ih =>
    show (addAll (addObject v o).2 l).m_mousePressed = _
    rw [ih, addObject_mousePressed]

theorem setObjectFilter_mousePressed (w : VtkWidget) (f : Option QObject) :
    (setObjectFilter w f).m_mousePressed = w.m_mousePressed := by
  unfold setObjectFilter
  split
  · rfl
  · show (addAll (clear { w with m_objectFilter := f })
      (clear { w with m_objectFilter := f }).m_availableObjects).m_mousePressed = _
    rw [addAll_mousePressed, (clear_mousePressed _).1]

theorem timerEvent_mousePressed (w : VtkWidget) :
    (timerEvent w).m_mousePressed = w.m_mousePressed := by
  unfold timerEvent
  split <;> rfl

end VtkWidget

/-- The pressed flag after one call or event: a press sets it, a release
clears it, everything else leaves it alone. -/
theorem step_mousePressed (w : VtkWidget) (op : Op) :
    (step w op).m_mousePressed =
      if op = Op.mousePress then true
      else if op = Op.mouseRelease then false
      else w.m_mousePressed := by
  cases op with
  | addObject o => exact VtkWidget.addObject_mousePressed w o
  | removeObject o => exact (VtkWidget.removeObjectInternal_mousePressed (w.poolDel o) o).1
  | clear => exact (VtkWidget.clear_mousePressed w).1
  | setObjectFilter o => exact VtkWidget.setObjectFilter_mousePressed w o
  | mousePress => rfl
  | mouseRelease => rfl
  | timeout => exact VtkWidget.timerEvent_mousePressed w

theorem run_append_singleton (w : VtkWidget) (ops : List Op) (op : Op) :
    run w (ops ++ [op]) = step (run w ops) op := by
  simp [run, List.foldl_append]

/-- The last element of a list that ends in `a` and is split around `b`. -/
theorem split_of_append_singleton {ops before after : List Op} {a b : Op}
    (h : ops ++ [a] = before ++ b :: after) :
    (after = [] ∧ a = b ∧ ops = before) ∨
    (∃ rest, after = rest ++ [a] ∧ ops = before ++ b :: rest) := by
  rcases List.eq_nil_or_concat after with h1 | ⟨rest, x, h1⟩
  · left
    subst h1
    have h2 : ops ++ [a] = (before ++ [b]) := by simpa using h
    have h3 := List.append_inj' h2 rfl
    exact ⟨rfl, by simpa using h3.2, h3.1⟩
  · right
    rw [List.concat_eq_append] at h1
    subst h1
    have h2 : ops ++ [a] = (before ++ b :: rest) ++ [x] := by simpa using h
    have h3 := List.append_inj' h2 rfl
    have hx : a = x := by simpa using h3.2
    subst hx
    exact ⟨rest, rfl, h3.1⟩

/-- C11: the pressed flag of a reachable state is true exactly when the
sequence of calls and events contains a pointer press with no pointer release
after it; and in every state where the flag is true, `addObject(x)` returns
false and leaves the graph store (vertices and edges) and the identity map
unchanged. -/
theorem interaction_guard :
    (∀ ops : List Op, (run VtkWidget.new ops).m_mousePressed = true ↔
      ∃ before after, ops = before ++ Op.mousePress :: after ∧ Op.mouseRelease ∉ after) ∧
    (∀ (w : VtkWidget) (x : QObject), w.m_mousePressed = true →
      (w.addObject x).1 = false ∧ (w.addObject x).2.m_graph = w.m_graph ∧
      (w.addObject x).2.m_objectIdMap = w.m_objectIdMap) := by
  refine ⟨?_, ?_⟩
  · intro ops
    induction ops using List.reverseRecOn with
    | nil =>
      constructor
      · intro h; cases h
      · rintro ⟨before, after, h, _⟩
        cases before <;> simp at h
    | append_singleton ops op ih =>
      rw [run_append_singleton, step_mousePressed]
      by_cases hp : op = Op.mousePress
      · subst hp
        simp only [if_true, true_iff]
        exact ⟨ops, [], rfl, by simp⟩
      · by_cases hr : op = Op.mouseRelease
        · subst hr
          simp only [hp, if_false, if_true, Bool.false_eq_true, false_iff]
          rintro ⟨before, after, h, hnot⟩
          rcases split_of_append_singleton h with ⟨_, h2, _⟩ | ⟨rest, h2, _⟩
          · cases h2
          · apply hnot
            rw [h2]
            simp
        · simp only [hp, hr, if_false]
          rw [ih]
          constructor
          · rintro ⟨before, after, h, hnot⟩
            refine ⟨before, after ++ [op], by rw [h]; simp, ?_⟩
            intro hmem
            rcases List.mem_append.1 hmem with h1 | h1
            · exact hnot h1
            · simp only [List.mem_singleton] at h1
              exact hr h1.symm
          · rintro ⟨before, after, h, hnot⟩
            rcases split_of_append_singleton h with ⟨_, h2, _⟩ | ⟨rest, h2, h3⟩
            · exact absurd h2 hp
            · refine ⟨before, rest, h3, ?_⟩
              intro hmem
              apply hnot
              rw [h2]
              exact List.mem_append_left _ hmem
  · intro w x hpress
    have hr : VtkWidget.addRejected (w.poolAdd x) x = true := by
      simp [VtkWidget.addRejected, VtkWidget.poolAdd, hpress]
    have : w.addObject x = (false, w.poolAdd x) := by
      unfold VtkWidget.addObject
      exact VtkWidget.addObjectInternal_of_rejected hr
    rw [this]
    exact ⟨rfl, rfl, rfl⟩

theorem interaction_guard_witness :
    VtkWidget.new.mousePressEvent.m_mousePressed = true ∧
    (VtkWidget.new.mousePressEvent.addObject objP).1 = false ∧
    (VtkWidget.new.mousePressEvent.addObject objP).2.m_graph = VtkWidget.new.mousePressEvent.m_graph ∧
    (VtkWidget.new.mousePressEvent.addObject objP).2.m_objectIdMap =
      VtkWidget.new.mousePressEvent.m_objectIdMap :=
  ⟨rfl, interaction_guard.2 VtkWidget.new.mousePressEvent objP rfl⟩

/-! ## What an add can track -/

namespace VtkWidget

theorem tracked_createVertex_iff (w : VtkWidget) (o x : QObject) :
    Tracked (createVertex w o).1 x ↔ (x = o ∨ Tracked w x) := by
  unfold Tracked
  rw [createVertex_map, ObjectIdMap.contains_insert]
  simp

theorem tracked_addParentEdge_iff (w : VtkWidget) (p : QObject) (t : Nat) (x : QObject) :
    Tracked (addParentEdge w p t) x ↔ Tracked w x := by
  unfold Tracked
  rw [addParentEdge_map]

/-- `addObject(o)` tracks nothing but `o` and strict ancestors of `o`. -/
theorem addObject_tracked_only (o : QObject) :
    ∀ (w : VtkWidget) (x : QObject), Tracked (addObject w o).2 x →
      Tracked w x ∨ x = o ∨ StrictDescendant x o := by
  induction o with
  | root i c =>
    intro w x hx
    rw [addObject_root] at hx
    cases hr : addRejected (poolAdd w (.root i c)) (.root i c) with
    | true =>
      rw [hr] at hx
      exact Or.inl hx
    | false =>
      rw [hr] at hx
      rcases (tracked_createVertex_iff _ _ x).1 hx with h | h
      · exact Or.inr (Or.inl h)
      · exact Or.inl h
  | child i c p ih =>
    intro w x hx
    rw [addObject_child] at hx
    cases hr : addRejected (poolAdd w (.child i c p)) (.child i c p) with
    | true =>
      rw [hr] at hx
      exact Or.inl hx
    | false =>
      rw [hr] at hx
      simp only [Bool.false_eq_true, if_false] at hx
      have hx1 := (tracked_addParentEdge_iff _ _ _ x).1 hx
      have hbase : Tracked (createVertex (poolAdd w (.child i c p)) (.child i c p)).1 x →
          Tracked w x ∨ x = .child i c p ∨ StrictDescendant x (.child i c p) := by
        intro h
        rcases (tracked_createVertex_iff _ _ x).1 h with h | h
        · exact Or.inr (Or.inl h)
        · exact Or.inl h
      split at hx1
      · rcases ih _ x hx1 with h | h | h
        · exact hbase h
        · exact Or.inr (Or.inr (StrictDescendant.direct (by rw [h]; rfl)))
        · exact Or.inr (Or.inr (StrictDescendant.step rfl h))
      · exact hbase hx1

/-- In a consistent state a removal tracks nothing new. -/
theorem removeObjectInternal_tracked_sub {w : VtkWidget} (hinv : Inv w) (k : Option QObject)
    {x : QObject} (hx : Tracked (removeObjectInternal w k).2 x) : Tracked w x ∧ some x ≠ k := by
  cases hc : w.m_objectIdMap.contains k with
  | false =>
    rw [removeObjectInternal_of_not_contains hc] at hx
    refine ⟨hx, ?_⟩
    rintro rfl
    unfold Tracked at hx
    rw [hc] at hx
    cases hx
  | true =>
    obtain ⟨t, m, _, _, heq, _, _, hmem⟩ := removeObjectInternal_of_contains hinv hc
    rw [heq] at hx
    unfold Tracked at hx
    simp only [renderView] at hx
    obtain ⟨i, hi⟩ := (ObjectIdMap.contains_iff _ _).1 hx
    obtain ⟨hne, j, hj, _⟩ := (hmem _ _).1 hi
    exact ⟨(ObjectIdMap.contains_iff _ _).2 ⟨j, hj⟩, hne⟩

/-- In a consistent state a removal keeps every other tracked object. -/
theorem removeObjectInternal_tracked_keep {w : VtkWidget} (hinv : Inv w) (k : Option QObject)
    {x : QObject} (hx : Tracked w x) (hne : some x ≠ k) :
    Tracked (removeObjectInternal w k).2 x := by
  cases hc : w.m_objectIdMap.contains k with
  | false =>
    rw [removeObjectInternal_of_not_contains hc]
    exact hx
  | true =>
    obtain ⟨t, m, _, _, heq, _, _, hmem⟩ := removeObjectInternal_of_contains hinv hc
    rw [heq]
    unfold Tracked
    simp only [renderView]
    obtain ⟨j, hj⟩ := (ObjectIdMap.contains_iff _ _).1 hx
    exact (ObjectIdMap.contains_iff _ _).2 ⟨_, (hmem _ _).2 ⟨hne, j, hj, rfl⟩⟩

theorem clear_map (w : VtkWidget) : (clear w).m_objectIdMap = [] := rfl

theorem not_tracked_of_map_nil {w : VtkWidget} (h : w.m_objectIdMap = []) (x : QObject) :
    ¬ Tracked w x := by
  unfold Tracked
  rw [h]
  simp [ObjectIdMap.contains]

end VtkWidget

/-- The filter after one call or event: only `setObjectFilter` changes it. -/
theorem step_objectFilter (w : VtkWidget) (op : Op) :
    (step w op).m_objectFilter =
      match op with
      | Op.setObjectFilter f => f
      | _ => w.m_objectFilter := by
  cases op with
  | addObject o => exact VtkWidget.addObject_objectFilter w o
  | removeObject o => exact (VtkWidget.removeObjectInternal_mousePressed (w.poolDel o) o).2.1
  | clear => exact (VtkWidget.clear_mousePressed w).2.1
  | setObjectFilter o =>
    show (VtkWidget.setObjectFilter w o).m_objectFilter = o
    unfold VtkWidget.setObjectFilter
    split
    · assumption
    · show (VtkWidget.addAll (VtkWidget.clear { w with m_objectFilter := o })
        (VtkWidget.clear { w with m_objectFilter := o }).m_availableObjects).m_objectFilter = o
      rw [VtkWidget.addAll_objectFilter, (VtkWidget.clear_mousePressed _).2.1]
  | mousePress => rfl
  | mouseRelease => rfl
  | timeout =>
    show (VtkWidget.timerEvent w).m_objectFilter = _
    unfold VtkWidget.timerEvent
    split <;> rfl

/-! ## Repopulating -/

namespace VtkWidget

theorem setObjectFilter_of_ne {w : VtkWidget} {f : Option QObject}
    (hne : w.m_objectFilter ≠ f) :
    setObjectFilter w f =
      resetCamera (addAll (clear { w with m_objectFilter := f })
        (clear { w with m_objectFilter := f }).m_availableObjects) := by
  unfold setObjectFilter
  rw [if_neg hne]
  rfl

/-- After a filter change with the pointer released, the tracked objects are
exactly the pool members that pass the filter and class guards. -/
theorem setObjectFilter_tracked_iff {w : VtkWidget} (hinv : Inv w) {f : Option QObject}
    (hpress : w.m_mousePressed = false) (hne : w.m_objectFilter ≠ f) :
    (∀ o, Tracked (setObjectFilter w f) o ↔
      (o ∈ (setObjectFilter w f).m_availableObjects ∧
        (setObjectFilter w f).filterAcceptsObject o = true ∧
        o.className ≠ "QVTKInteractorInternal")) ∧
    (∀ o ∈ w.m_availableObjects, o ∈ (setObjectFilter w f).m_availableObjects) ∧
    (setObjectFilter w f).m_objectFilter = f := by
  have hinv0 : Inv { w with m_objectFilter := f } := inv_congr hinv rfl rfl
  have hclear := clear_spec hinv0
  have hpool1 : (clear { w with m_objectFilter := f }).m_availableObjects =
      w.m_availableObjects := by rw [hclear]
  have hfilter1 : (clear { w with m_objectFilter := f }).m_objectFilter = f := by rw [hclear]
  have hfi : FilterInv w.m_availableObjects (clear { w with m_objectFilter := f }) := by
    rw [hclear]
    refine ⟨hpress, ?_, ?_⟩
    · intro o ho
      simp [Tracked, ObjectIdMap.contains] at ho
    · intro o ho hn
      exact absurd ho hn
  rw [setObjectFilter_of_ne hne]
  clear hclear hinv0
  generalize clear { w with m_objectFilter := f } = w1 at hpool1 hfilter1 hfi ⊢
  obtain ⟨hfin, hproc⟩ := addAll_filterInv w1.m_availableObjects hfi
  have hfilter : (addAll w1 w1.m_availableObjects).m_objectFilter = w1.m_objectFilter :=
    addAll_objectFilter _ _
  refine ⟨?_, ?_, ?_⟩
  · intro o
    show Tracked (addAll w1 w1.m_availableObjects) o ↔
      (o ∈ (addAll w1 w1.m_availableObjects).m_availableObjects ∧
        (addAll w1 w1.m_availableObjects).filterAcceptsObject o = true ∧ _)
    constructor
    · intro ho
      exact hfin.sound o ho
    · rintro ⟨ho, ha, hc⟩
      by_cases hmem : o ∈ w.m_availableObjects
      · apply hproc o (by rw [hpool1]; exact hmem) _ hc
        rw [← filterAcceptsObject_congr hfilter o]
        exact ha
      · exact hfin.complete o ho hmem ha hc
  · intro o ho
    show o ∈ (addAll w1 w1.m_availableObjects).m_availableObjects
    apply addAll_pool_mono
    rw [hpool1]; exact ho
  · show (addAll w1 w1.m_availableObjects).m_objectFilter = f
    rw [hfilter, hfilter1]

/-- While the pointer is pressed the re-add loop over pool members changes nothing. -/
theorem addAll_pressed (l : List QObject) {v : VtkWidget} (hp : v.m_mousePressed = true)
    (hl : ∀ o ∈ l, o ∈ v.m_availableObjects) : addAll v l = v := by
  induction l with
  | nil => rfl
  | cons o l ih =>
    have hr : addRejected (poolAdd v o) o = true := by
      simp [addRejected, poolAdd, hp]
    have h1 : addObject v o = (false, v) := by
      unfold addObject
      rw [addObjectInternal_of_rejected hr, poolAdd_of_mem (hl o (List.mem_cons_self _ _))]
    show addAll (addObject v o).2 l = v
    rw [h1]
    exact ih (fun x hx => hl x (List.mem_cons_of_mem _ hx))

/-- A filter change while the pointer is pressed only clears. -/
theorem setObjectFilter_pressed {w : VtkWidget} {f : Option QObject}
    (hpress : w.m_mousePressed = true) (hne : w.m_objectFilter ≠ f) :
    setObjectFilter w f = resetCamera (clear { w with m_objectFilter := f }) := by
  rw [setObjectFilter_of_ne hne]
  have h1 := clear_mousePressed { w with m_objectFilter := f }
  rw [addAll_pressed _ (by rw [h1.1]; exact hpress) (fun o ho => ho)]

end VtkWidget

theorem run_not_tracked (ops : List Op) :
    ∀ (w : VtkWidget) (x : QObject) (f0 : Option QObject), Inv w → w.m_objectFilter = f0 →
      ¬ Tracked w x →
      (∀ op ∈ ops, (∀ o, op = Op.addObject o → o ≠ x ∧ ¬ StrictDescendant x o) ∧
        (∀ f, op = Op.setObjectFilter f → f = f0)) →
      ¬ Tracked (run w ops) x := by
  induction ops with
  | nil => intro w x f0 _ _ hx _; exact hx
  | cons op ops ih =>
    intro w x f0 hinv hf hx hops
    have hop := hops op (List.mem_cons_self _ _)
    have hrest : ∀ op1 ∈ ops, (∀ o, op1 = Op.addObject o → o ≠ x ∧ ¬ StrictDescendant x o) ∧
        (∀ f, op1 = Op.setObjectFilter f → f = f0) :=
      fun op1 h1 => hops op1 (List.mem_cons_of_mem _ h1)
    show ¬ Tracked (run (step w op) ops) x
    apply ih (step w op) x f0 (step_inv hinv op) _ _ hrest
    · rw [step_objectFilter]
      cases op with
      | setObjectFilter f => exact hop.2 f rfl
      | addObject o => exact hf
      | removeObject o => exact hf
      | clear => exact hf
      | mousePress => exact hf
      | mouseRelease => exact hf
      | timeout => exact hf
    · cases op with
      | addObject o =>
        intro h
        obtain ⟨h1, h2⟩ := hop.1 o rfl
        rcases VtkWidget.addObject_tracked_only o w x h with h3 | h3 | h3
        · exact hx h3
        · exact h1 h3.symm
        · exact h2 h3
      | removeObject o =>
        intro h
        have hinv1 : Inv (w.poolDel o) := VtkWidget.inv_congr hinv rfl rfl
        exact hx (VtkWidget.removeObjectInternal_tracked_sub hinv1 o h).1
      | clear => exact VtkWidget.not_tracked_of_map_nil (VtkWidget.clear_map w) x
      | setObjectFilter f =>
        have : f = w.m_objectFilter := by rw [hf]; exact hop.2 f rfl
        show ¬ Tracked (VtkWidget.setObjectFilter w f) x
        unfold VtkWidget.setObjectFilter
        rw [if_pos this.symm]
        exact hx
      | mousePress => exact hx
      | mouseRelease => exact hx
      | timeout =>
        show ¬ Tracked (VtkWidget.timerEvent w) x
        unfold VtkWidget.timerEvent
        split
        · exact hx
        · exact hx

/-- C12 fails as stated: `addObject(P)` while the pointer is pressed returns
false and tracks nothing, yet after the release a mere `setObjectFilter(P)`,
with no further `addObject` call, makes `P` tracked, because the rejected call
had already put `P` into the available pool. -/
theorem dropped_object_counterexample :
    VtkWidget.new.mousePressEvent.m_mousePressed = true ∧
    (VtkWidget.new.mousePressEvent.addObject objP).1 = false ∧
    ¬ Tracked droppedState objP ∧
    Tracked (run droppedState [Op.mouseRelease, Op.setObjectFilter (some objP)]) objP := by
  refine ⟨rfl, by decide, by decide, by decide⟩

/-- C12 amended: `addObject(x)` while the pointer is pressed returns false and
changes neither the graph store nor the identity map, but it records `x` in the
available pool. From a reachable state where `x` is untracked, `x` stays
untracked under every sequence of calls and events that neither calls
`addObject` on `x` or a strict descendant of `x` nor calls `setObjectFilter`
with a filter other than the current one. A `setObjectFilter` call that changes
the filter, made with the pointer released while `x` is in the pool, accepted
by the new filter and not of the interactor class, makes `x` tracked. -/
theorem dropped_object_pooled :
    (∀ (w : VtkWidget) (x : QObject), w.m_mousePressed = true →
      (w.addObject x).1 = false ∧ (w.addObject x).2.m_graph = w.m_graph ∧
      (w.addObject x).2.m_objectIdMap = w.m_objectIdMap ∧
      x ∈ (w.addObject x).2.m_availableObjects) ∧
    (∀ (w : VtkWidget) (x : QObject) (ops : List Op), Reachable w → ¬ Tracked w x →
      (∀ op ∈ ops, (∀ o, op = Op.addObject o → o ≠ x ∧ ¬ StrictDescendant x o) ∧
        (∀ f, op = Op.setObjectFilter f → f = w.m_objectFilter)) →
      ¬ Tracked (run w ops) x) ∧
    (∀ (w : VtkWidget) (x : QObject) (f : Option QObject), Reachable w →
      w.m_mousePressed = false → x ∈ w.m_availableObjects → w.m_objectFilter ≠ f →
      (f = none ∨ f = some x ∨ ∃ g, f = some g ∧ StrictDescendant g x) →
      x.className ≠ "QVTKInteractorInternal" →
      Tracked (w.setObjectFilter f) x) := by
  refine ⟨?_, ?_, ?_⟩
  · intro w x hpress
    have hr : VtkWidget.addRejected (w.poolAdd x) x = true := by
      simp [VtkWidget.addRejected, VtkWidget.poolAdd, hpress]
    have : w.addObject x = (false, w.poolAdd x) := by
      unfold VtkWidget.addObject
      exact VtkWidget.addObjectInternal_of_rejected hr
    rw [this]
    exact ⟨rfl, rfl, rfl, VtkWidget.mem_poolAdd w x⟩
  · intro w x ops hreach hx hops
    exact run_not_tracked ops w x w.m_objectFilter hreach.inv rfl hx hops
  · intro w x f hreach hpress hpool hne hacc hcls
    obtain ⟨hiff, hmono, hfilter⟩ := VtkWidget.setObjectFilter_tracked_iff hreach.inv hpress hne
    refine (hiff x).2 ⟨hmono x hpool, ?_, hcls⟩
    rcases hacc with h | h | ⟨g, h, hg⟩
    · subst h
      simp [VtkWidget.filterAcceptsObject, hfilter]
    · subst h
      exact (filterAcceptsObject_some hfilter x).2 (Or.inl rfl)
    · subst h
      exact (filterAcceptsObject_some hfilter x).2 (Or.inr hg)

theorem dropped_object_pooled_witness :
    VtkWidget.new.mousePressEvent.m_mousePressed = true ∧
    (VtkWidget.new.mousePressEvent.addObject objP).1 = false ∧
    objP ∈ (VtkWidget.new.mousePressEvent.addObject objP).2.m_availableObjects :=
  have h := dropped_object_pooled.1 VtkWidget.new.mousePressEvent objP rfl
  ⟨rfl, h.1, h.2.2.2⟩

/-! ## The repaint timer -/

namespace VtkWidget

theorem renderView_iterate (n : Nat) (w : VtkWidget) :
    renderView^[n + 1] w = { w with m_updateTimerActive := true } := by
  induction n generalizing w with
  | zero => rfl
  | succ n ih =>
    rw [Function.iterate_succ_apply, ih]
    rfl

theorem removeObjectInternal_renderCount (w : VtkWidget) (k : Option QObject) :
    (removeObjectInternal w k).2.renderCount = w.renderCount ∧
    (w.m_updateTimerActive = true → (removeObjectInternal w k).2.m_updateTimerActive = true) := by
  unfold removeObjectInternal
  split
  · exact ⟨rfl, fun h => h⟩
  · exact ⟨rfl, fun _ => rfl⟩

theorem addObject_renderCount (w : VtkWidget) (o : QObject) :
    (addObject w o).2.renderCount = w.renderCount ∧
    (w.m_updateTimerActive = true → (addObject w o).2.m_updateTimerActive = true) := by
  refine addObject_ind (fun x => x.renderCount = w.renderCount ∧
    (w.m_updateTimerActive = true → x.m_updateTimerActive = true)) ?_ ?_ ?_ ?_ o w
    ⟨rfl, fun h => h⟩
  · intro x y hx _; exact hx
  · intro x y hx _
    have h1 : (createVertex (poolAdd x y) y).1.renderCount = x.renderCount := by
      unfold createVertex
      cases (poolAdd x y).m_typeColorMap.constFind y.className <;> rfl
    have h2 : (createVertex (poolAdd x y) y).1.m_updateTimerActive = x.m_updateTimerActive := by
      unfold createVertex
      cases (poolAdd x y).m_typeColorMap.constFind y.className <;> rfl
    rw [h1, h2]
    exact hx
  · intro x p t hx
    have h1 : (addParentEdge x p t).renderCount = x.renderCount := by
      unfold addParentEdge; split <;> rfl
    have h2 : (addParentEdge x p t).m_updateTimerActive = x.m_updateTimerActive := by
      unfold addParentEdge; split <;> rfl
    rw [h1, h2]
    exact hx
  · intro x hx
    exact ⟨hx.1, fun _ => rfl⟩

theorem addAll_renderCount (l : List QObject) (w : VtkWidget) :
    (addAll w l).renderCount = w.renderCount ∧
    (w.m_updateTimerActive = true → (addAll w l).m_updateTimerActive = true) := by
  induction l generalizing w with
  | nil => exact ⟨rfl, fun h => h⟩
  | cons o l ih =>
    obtain ⟨a1, a2⟩ := addObject_renderCount w o
    obtain ⟨b1, b2⟩ := ih (addObject w o).2
    exact ⟨by show (addAll (addObject w o).2 l).renderCount = _; rw [b1, a1],
      fun h => b2 (a2 h)⟩

theorem clear_renderCount (w : VtkWidget) :
    (clear w).renderCount = w.renderCount ∧ (clear w).m_updateTimerActive = true := by
  obtain ⟨g, m, b, heq, _⟩ := removeAll_frame w.m_objectIdMap.keys w
  rw [clear_eq, heq]
  exact ⟨rfl, rfl⟩

theorem setObjectFilter_renderCount (w : VtkWidget) (f : Option QObject) :
    (setObjectFilter w f).renderCount = w.renderCount ∧
    (w.m_updateTimerActive = true → (setObjectFilter w f).m_updateTimerActive = true) ∧
    (w.m_objectFilter ≠ f → (setObjectFilter w f).m_updateTimerActive = true) := by
  by_cases hne : w.m_objectFilter = f
  · have : setObjectFilter w f = w := by
      unfold setObjectFilter
      rw [if_pos hne]
    rw [this]
    exact ⟨rfl, fun h => h, fun h => absurd hne h⟩
  · rw [setObjectFilter_of_ne hne]
    obtain ⟨c1, c2⟩ := clear_renderCount { w with m_objectFilter := f }
    obtain ⟨a1, a2⟩ := addAll_renderCount
      (clear { w with m_objectFilter := f }).m_availableObjects
      (clear { w with m_objectFilter := f })
    refine ⟨?_, fun _ => a2 c2, fun _ => a2 c2⟩
    show (addAll _ _).renderCount = _
    rw [a1, c1]

end VtkWidget

/-- No call or event other than the timer's timeout renders, and none of them
cancels a pending repaint. -/
theorem step_renderCount (w : VtkWidget) (op : Op) (hop : op ≠ Op.timeout) :
    (step w op).renderCount = w.renderCount ∧
    (w.m_updateTimerActive = true → (step w op).m_updateTimerActive = true) := by
  cases op with
  | addObject o => exact VtkWidget.addObject_renderCount w o
  | removeObject o => exact VtkWidget.removeObjectInternal_renderCount (w.poolDel o) o
  | clear => exact ⟨(VtkWidget.clear_renderCount w).1, fun _ => (VtkWidget.clear_renderCount w).2⟩
  | setObjectFilter o =>
    exact ⟨(VtkWidget.setObjectFilter_renderCount w o).1,
      (VtkWidget.setObjectFilter_renderCount w o).2.1⟩
  | mousePress => exact ⟨rfl, fun h => h⟩
  | mouseRelease => exact ⟨rfl, fun h => h⟩
  | timeout => exact absurd rfl hop

theorem run_renderCount (ops : List Op) (w : VtkWidget) (hops : ∀ op ∈ ops, op ≠ Op.timeout) :
    (run w ops).renderCount = w.renderCount ∧
    (w.m_updateTimerActive = true → (run w ops).m_updateTimerActive = true) := by
  induction ops generalizing w with
  | nil => exact ⟨rfl, fun h => h⟩
  | cons op ops ih =>
    obtain ⟨a1, a2⟩ := step_renderCount w op (hops op (List.mem_cons_self _ _))
    obtain ⟨b1, b2⟩ := ih (step w op) (fun x hx => hops x (List.mem_cons_of_mem _ hx))
    exact ⟨by show (run (step w op) ops).renderCount = _; rw [b1, a1], fun h => b2 (a2 h)⟩

/-- C14: with the single-shot timer modelled as the pending flag
`m_updateTimerActive`, any number `N >= 1` of `renderView` requests followed by
the timer event gives exactly one render-and-reset-camera pass and leaves
nothing pending (a second timer event does nothing); with nothing pending the
timer event does nothing. For a burst of calls and events without a timer
event, no pass runs during the burst, the timer event afterwards runs one pass
if a repaint is pending and none otherwise, and a burst containing `clear`
always ends with exactly one pass. -/
theorem repaint_coalescing :
    (∀ (w : VtkWidget) (N : Nat), 1 ≤ N →
      (VtkWidget.renderView^[N] w).timerEvent.renderCount = w.renderCount + 1 ∧
      (VtkWidget.renderView^[N] w).timerEvent.resetCameraCount = w.resetCameraCount + 1 ∧
      (VtkWidget.renderView^[N] w).timerEvent.m_updateTimerActive = false ∧
      (VtkWidget.renderView^[N] w).timerEvent.timerEvent =
        (VtkWidget.renderView^[N] w).timerEvent) ∧
    (∀ w : VtkWidget, w.m_updateTimerActive = false → w.timerEvent = w) ∧
    (∀ (w : VtkWidget) (ops : List Op), (∀ op ∈ ops, op ≠ Op.timeout) →
      (run w ops).renderCount = w.renderCount ∧
      (run w ops).timerEvent.renderCount =
        w.renderCount + (if (run w ops).m_updateTimerActive then 1 else 0) ∧
      (run w ops).timerEvent.m_updateTimerActive = false) ∧
    (∀ (w : VtkWidget) (ops : List Op), (∀ op ∈ ops, op ≠ Op.timeout) → Op.clear ∈ ops →
      (run w ops).timerEvent.renderCount = w.renderCount + 1) := by
  have hfire : ∀ v : VtkWidget,
      v.timerEvent.renderCount = v.renderCount + (if v.m_updateTimerActive then 1 else 0) ∧
      v.timerEvent.m_updateTimerActive = false := by
    intro v
    unfold VtkWidget.timerEvent
    cases h : v.m_updateTimerActive with
    | true => exact ⟨rfl, rfl⟩
    | false => simp [h]
  refine ⟨?_, ?_, ?_, ?_⟩
  · intro w N hN
    obtain ⟨n, rfl⟩ : ∃ n, N = n + 1 := ⟨N - 1, by omega⟩
    rw [VtkWidget.renderView_iterate]
    exact ⟨rfl, rfl, rfl, rfl⟩
  · intro w h
    simp [VtkWidget.timerEvent, h]
  · intro w ops hops
    obtain ⟨h1, _⟩ := run_renderCount ops w hops
    obtain ⟨h2, h3⟩ := hfire (run w ops)
    exact ⟨h1, by rw [h2, h1], h3⟩
  · intro w ops hops hclear
    obtain ⟨before, after, rfl⟩ := List.append_of_mem hclear
    have hrun : run w (before ++ Op.clear :: after) =
        run (step (run w before) Op.clear) after := by
      simp [run, List.foldl_append]
    obtain ⟨h1, _⟩ := run_renderCount _ w hops
    have hpend : (step (run w before) Op.clear).m_updateTimerActive = true :=
      (VtkWidget.clear_renderCount _).2
    obtain ⟨_, h4⟩ := run_renderCount after (step (run w before) Op.clear)
      (fun op hop => hops op (by simp [hop]))
    obtain ⟨h2, _⟩ := hfire (run w (before ++ Op.clear :: after))
    rw [h2, h1, hrun, h4 hpend]
    rfl

theorem repaint_coalescing_witness :
    1 ≤ 3 ∧
    (VtkWidget.renderView^[3] VtkWidget.new).timerEvent.renderCount =
      VtkWidget.new.renderCount + 1 :=
  ⟨by decide, (repaint_coalescing.1 VtkWidget.new 3 (by decide)).1⟩

/-! ## The filter predicate -/

theorem StrictDescendant.sizeOf_lt {a o : QObject} (h : StrictDescendant a o) :
    sizeOf a < sizeOf o := by
  induction h with
  | @direct o hpar =>
    cases o with
    | root i c => simp [QObject.parent] at hpar
    | child i c p =>
      simp only [QObject.parent, Option.some.injEq] at hpar
      subst hpar
      simp
  | @step o p hpar _ ih =>
    cases o with
    | root i c => simp [QObject.parent] at hpar
    | child i c q =>
      simp only [QObject.parent, Option.some.injEq] at hpar
      subst hpar
      simp
      omega

/-- C15: `filterAcceptsObject` is a total function on objects (whose parent
chains are finite), and it returns true exactly when no filter is set, or the
object is the filter object, or the filter object is a strict ancestor of the
object; a strict ancestor of the filter object is rejected. -/
theorem filterAcceptsObject_spec :
    (∀ (w : VtkWidget) (o : QObject), w.filterAcceptsObject o = true ↔
      (w.m_objectFilter = none ∨ w.m_objectFilter = some o ∨
        ∃ f, w.m_objectFilter = some f ∧ StrictDescendant f o)) ∧
    (∀ (w : VtkWidget) (o f : QObject), w.m_objectFilter = some f → StrictDescendant o f →
      w.filterAcceptsObject o = false) := by
  have hiff : ∀ (w : VtkWidget) (o : QObject), w.filterAcceptsObject o = true ↔
      (w.m_objectFilter = none ∨ w.m_objectFilter = some o ∨
        ∃ f, w.m_objectFilter = some f ∧ StrictDescendant f o) := by
    intro w o
    cases hf : w.m_objectFilter with
    | none => simp [VtkWidget.filterAcceptsObject, hf]
    | some f =>
      rw [filterAcceptsObject_some hf]
      constructor
      · rintro (h | h)
        · exact Or.inr (Or.inl (by rw [h]))
        · exact Or.inr (Or.inr ⟨f, rfl, h⟩)
      · rintro (h | h | ⟨g, h, hg⟩)
        · cases h
        · exact Or.inl (Option.some.inj h).symm
        · cases h
          exact Or.inr hg
  refine ⟨hiff, ?_⟩
  intro w o f hf hanc
  have hlt := hanc.sizeOf_lt
  cases hacc : w.filterAcceptsObject o with
  | false => rfl
  | true =>
    exfalso
    rcases (hiff w o).1 hacc with h | h | ⟨g, h, hg⟩
    · rw [hf] at h; cases h
    · rw [hf] at h
      cases h
      omega
    · rw [hf] at h
      cases h
      have := hg.sizeOf_lt
      omega

theorem filterAcceptsObject_spec_witness :
    scenarioABC.m_objectFilter = none ∧ scenarioABC.filterAcceptsObject objA = true ∧
    (scenarioABC.setObjectFilter (some objB)).m_objectFilter = some objB ∧
    (scenarioABC.setObjectFilter (some objB)).filterAcceptsObject objA = false :=
  ⟨rfl, (filterAcceptsObject_spec.1 scenarioABC objA).2 (Or.inl rfl), by decide,
    filterAcceptsObject_spec.2 (scenarioABC.setObjectFilter (some objB)) objA objB (by decide)
      (StrictDescendant.direct rfl)⟩

/-! ## Tracked objects are accepted pool members -/

namespace VtkWidget

theorem trackedSound_congr {v u : VtkWidget} (h : TrackedSound v)
    (h2 : u.m_objectIdMap = v.m_objectIdMap)
    (h3 : u.m_availableObjects = v.m_availableObjects)
    (h4 : u.m_objectFilter = v.m_objectFilter) : TrackedSound u := by
  intro o ho
  have : Tracked v o := by unfold Tracked at ho ⊢; rw [← h2]; exact ho
  rw [h3, filterAcceptsObject_congr h4 o]
  exact h o this

theorem addObject_trackedSound {v : VtkWidget} (h : TrackedSound v) (o : QObject) :
    TrackedSound (addObject v o).2 := by
  refine addObject_ind TrackedSound ?_ ?_ ?_ ?_ o v h
  · intro w x hw _ y hy
    obtain ⟨a, b, c⟩ := hw y hy
    exact ⟨(mem_poolAdd_iff w x y).2 (Or.inl a), b, c⟩
  · intro w x hw hr y hy
    rw [addRejected_poolAdd, addRejected_eq_false_iff] at hr
    rw [createVertex_availableObjects,
      filterAcceptsObject_congr (createVertex_objectFilter (poolAdd w x) x) y]
    rcases (tracked_createVertex_iff _ _ y).1 hy with rfl | hy1
    · exact ⟨mem_poolAdd w y, hr.2.2.2, hr.2.1⟩
    · obtain ⟨a, b, c⟩ := hw y hy1
      exact ⟨(mem_poolAdd_iff w x y).2 (Or.inl a), b, c⟩
  · intro w p t hw
    exact trackedSound_congr hw (addParentEdge_map _ _ _)
      (addParentEdge_availableObjects _ _ _) (addParentEdge_objectFilter _ _ _)
  · intro w hw
    exact trackedSound_congr hw rfl rfl rfl

theorem addAll_trackedSound (l : List QObject) {v : VtkWidget} (h : TrackedSound v) :
    TrackedSound (addAll v l) := by
  induction l generalizing v with
  | nil => exact h
  | cons o l ih => exact ih (addObject_trackedSound h o)

theorem removeObject_trackedSound {v : VtkWidget} (hinv : Inv v) (h : TrackedSound v)
    (k : Option QObject) : TrackedSound (removeObject v k).2 := by
  intro o ho
  have hinv1 : Inv (poolDel v k) := inv_congr hinv rfl rfl
  obtain ⟨h1, h2⟩ := removeObjectInternal_tracked_sub hinv1 k ho
  obtain ⟨a, b, c⟩ := h o h1
  obtain ⟨f1, f2, f3⟩ := removeObjectInternal_mousePressed (poolDel v k) k
  refine ⟨?_, ?_, c⟩
  · show o ∈ (removeObjectInternal (poolDel v k) k).2.m_availableObjects
    rw [f3]
    simp only [poolDel, poolRemove, List.mem_filter, decide_eq_true_eq]
    exact ⟨a, h2⟩
  · show (removeObjectInternal (poolDel v k) k).2.filterAcceptsObject o = true
    rw [filterAcceptsObject_congr f2 o]
    exact b

theorem trackedSound_of_map_nil {v : VtkWidget} (h : v.m_objectIdMap = []) : TrackedSound v :=
  fun o ho => absurd ho (not_tracked_of_map_nil h o)

theorem setObjectFilter_trackedSound {v : VtkWidget} (h : TrackedSound v)
    (f : Option QObject) : TrackedSound (setObjectFilter v f) := by
  by_cases hne : v.m_objectFilter = f
  · have : setObjectFilter v f = v := by
      unfold setObjectFilter
      rw [if_pos hne]
    rw [this]
    exact h
  · rw [setObjectFilter_of_ne hne]
    exact trackedSound_congr
      (addAll_trackedSound _ (trackedSound_of_map_nil (clear_map _))) rfl rfl rfl

end VtkWidget

theorem step_trackedSound {w : VtkWidget} (hinv : Inv w) (h : TrackedSound w) (op : Op) :
    TrackedSound (step w op) := by
  cases op with
  | addObject o => exact VtkWidget.addObject_trackedSound h o
  | removeObject o => exact VtkWidget.removeObject_trackedSound hinv h o
  | clear => exact VtkWidget.trackedSound_of_map_nil (VtkWidget.clear_map w)
  | setObjectFilter o => exact VtkWidget.setObjectFilter_trackedSound h o
  | mousePress => exact VtkWidget.trackedSound_congr h rfl rfl rfl
  | mouseRelease => exact VtkWidget.trackedSound_congr h rfl rfl rfl
  | timeout =>
    show TrackedSound (VtkWidget.timerEvent w)
    unfold VtkWidget.timerEvent
    split
    · exact VtkWidget.trackedSound_congr h rfl rfl rfl
    · exact h

theorem Reachable.trackedSound {w : VtkWidget} (h : Reachable w) : TrackedSound w := by
  obtain ⟨ops, rfl⟩ := h
  have : ∀ (l : List Op) (v : VtkWidget), Inv v → TrackedSound v → TrackedSound (run v l) := by
    intro l
    induction l with
    | nil => intro v _ hv; exact hv
    | cons op l ih =>
      intro v hinv hv
      exact ih _ (step_inv hinv op) (step_trackedSound hinv hv op)
  exact this ops _ VtkWidget.new_inv (VtkWidget.trackedSound_of_map_nil rfl)

/-! ## Edges -/

theorem Graph.edges_RemoveVertex {g : Graph} {v : Nat} (h : v < g.vertexData.length) :
    (g.RemoveVertex v).edges =
      (g.edges.filter (fun e => decide (e.1 ≠ v ∧ e.2 ≠ v))).map
        (fun e => (Graph.renumber (g.vertexData.length - 1) v e.1,
          Graph.renumber (g.vertexData.length - 1) v e.2)) := by
  obtain ⟨lp, _, heq⟩ := Graph.RemoveVertex_eq h
  rw [heq]

namespace VtkWidget

theorem edgeInv_congr {v u : VtkWidget} (h : EdgeInv v)
    (h1 : u.m_objectIdMap = v.m_objectIdMap) (h2 : u.m_graph.edges = v.m_graph.edges) :
    EdgeInv u := by
  refine ⟨?_, ?_⟩
  · rw [h1, h2]; exact h.sound
  · rw [h2]; exact h.targets

theorem createVertex_edgeInv {w : VtkWidget} (h : EdgeInv w) {o : QObject}
    (hc : w.m_objectIdMap.contains (some o) = false) : EdgeInv (createVertex w o).1 := by
  have hmap := createVertex_map w o
  rw [ObjectIdMap.insert_of_not_contains _ hc] at hmap
  refine ⟨?_, ?_⟩
  · intro e he
    rw [createVertex_edges] at he
    obtain ⟨p, c, h1, h2, h3⟩ := h.sound e he
    rw [hmap]
    exact ⟨p, c, List.mem_append_left _ h1, List.mem_append_left _ h2, h3⟩
  · rw [createVertex_edges]; exact h.targets

/-- Adding keeps the edge invariant, and every edge it creates ends at a
vertex that did not exist before. -/
theorem addObject_edgeInv (o : QObject) :
    ∀ (w : VtkWidget), Inv w → EdgeInv w →
      EdgeInv (addObject w o).2 ∧
      ∀ e ∈ (addObject w o).2.m_graph.edges,
        e ∈ w.m_graph.edges ∨ w.m_graph.vertexData.length ≤ e.2 := by
  induction o with
  | root i c =>
    intro w hinv hedge
    rw [addObject_root]
    cases hr : addRejected (poolAdd w (.root i c)) (.root i c) with
    | true => exact ⟨edgeInv_congr hedge rfl rfl, fun e he => Or.inl he⟩
    | false =>
      simp only [Bool.false_eq_true, if_false]
      rw [addRejected_poolAdd, addRejected_eq_false_iff] at hr
      have h0 : EdgeInv (poolAdd w (.root i c)) := edgeInv_congr hedge rfl rfl
      refine ⟨edgeInv_congr (createVertex_edgeInv h0 hr.2.2.1) rfl rfl, ?_⟩
      intro e he
      left
      have : e ∈ (createVertex (poolAdd w (.root i c)) (.root i c)).1.m_graph.edges := he
      rw [createVertex_edges] at this
      exact this
  | child i c p ih =>
    intro w hinv hedge
    rw [addObject_child]
    cases hr : addRejected (poolAdd w (.child i c p)) (.child i c p) with
    | true => exact ⟨edgeInv_congr hedge rfl rfl, fun e he => Or.inl he⟩
    | false =>
      simp only [Bool.false_eq_true, if_false]
      have hr1 := hr
      rw [addRejected_poolAdd, addRejected_eq_false_iff] at hr1
      have hinv0 : Inv (poolAdd w (.child i c p)) := inv_congr hinv rfl rfl
      have h0 : EdgeInv (poolAdd w (.child i c p)) := edgeInv_congr hedge rfl rfl
      have hinv1 := createVertex_inv hinv0 hr1.2.2.1
      have hedge1 := createVertex_edgeInv h0 hr1.2.2.1
      obtain ⟨col, hvd, _, _, _⟩ := createVertex_vertexData (poolAdd w (.child i c p))
        (.child i c p)
      have hlen1 : (createVertex (poolAdd w (.child i c p)) (.child i c p)).1.m_graph.vertexData.length
          = w.m_graph.vertexData.length + 1 := by
        rw [hvd]; simp [poolAdd]
      have hsnd : (createVertex (poolAdd w (.child i c p)) (.child i c p)).2 =
          w.m_graph.vertexData.length := createVertex_snd _ _
      have hf1 : (createVertex (poolAdd w (.child i c p)) (.child i c p)).1.m_objectIdMap.find
          (some (.child i c p)) = some w.m_graph.vertexData.length := by
        rw [createVertex_map, ObjectIdMap.find_insert_self]; rfl
      have hedges1 : (createVertex (poolAdd w (.child i c p)) (.child i c p)).1.m_graph.edges =
          w.m_graph.edges := createVertex_edges _ _
      rw [hsnd]
      generalize (createVertex (poolAdd w (.child i c p)) (.child i c p)).1 = w1
        at hinv1 hedge1 hlen1 hf1 hedges1 ⊢
      -- the state after the optional recursive add of the parent
      have hw2 : ∃ w2, (if (!w1.m_objectIdMap.contains (some p)) = true then (addObject w1 p).2
            else w1) = w2 ∧ Inv w2 ∧ EdgeInv w2 ∧
          (∀ e ∈ w2.m_graph.edges,
            e ∈ w.m_graph.edges ∨ w.m_graph.vertexData.length + 1 ≤ e.2) ∧
          w2.m_objectIdMap.find (some (.child i c p)) = some w.m_graph.vertexData.length := by
        split
        · obtain ⟨a1, a2⟩ := ih w1 hinv1 hedge1
          refine ⟨_, rfl, addObject_inv hinv1 p, a1, ?_, addObject_find_mono _ _ hf1⟩
          intro e he
          rcases a2 e he with h | h
          · left; rw [← hedges1]; exact h
          · right; rw [← hlen1]; exact h
        · exact ⟨_, rfl, hinv1, hedge1, fun e he => Or.inl (by rw [← hedges1]; exact he), hf1⟩
      obtain ⟨w2, hw2eq, hinv2, hedge2, hnew2, hf2⟩ := hw2
      rw [hw2eq]
      clear hw2eq
      have hmemo := ObjectIdMap.mem_of_find hf2
      refine ⟨?_, ?_⟩
      · unfold addParentEdge
        split
        · rename_i hcp
          obtain ⟨j, hj⟩ := (ObjectIdMap.find_isSome_iff _ _).2 hcp
          have hv := ObjectIdMap.value_of_find hj
          refine ⟨?_, ?_⟩
          · intro e he
            simp only [renderView, Graph.AddEdge, List.mem_append, List.mem_singleton] at he ⊢
            rcases he with he | rfl
            · exact hedge2.sound e he
            · exact ⟨p, .child i c p, by rw [hv]; exact ObjectIdMap.mem_of_find hj, hmemo, rfl⟩
          · simp only [renderView, Graph.AddEdge, List.map_append, List.map_cons, List.map_nil]
            refine List.Nodup.append hedge2.targets (List.nodup_singleton _) ?_
            intro x hx1 hx2
            simp only [List.mem_singleton] at hx2
            subst hx2
            obtain ⟨e, he, heq⟩ := List.mem_map.1 hx1
            rcases hnew2 e he with h | h
            · have := (hinv.edges_valid e h).2
              omega
            · omega
        · exact edgeInv_congr hedge2 rfl rfl
      · intro e he
        have he1 : e ∈ w2.m_graph.edges ∨
            e = (w2.m_objectIdMap.value (some p), w.m_graph.vertexData.length) := by
          unfold addParentEdge at he
          split at he
          · simp only [renderView, Graph.AddEdge, List.mem_append, List.mem_singleton] at he
            exact he
          · exact Or.inl he
        rcases he1 with h | h
        · rcases hnew2 e h with h1 | h1
          · exact Or.inl h1
          · right; omega
        · right
          rw [h]

end VtkWidget

namespace VtkWidget

theorem removeObjectInternal_edgeInv {w : VtkWidget} (hinv : Inv w) (hedge : EdgeInv w)
    (k : Option QObject) : EdgeInv (removeObjectInternal w k).2 := by
  cases hc : w.m_objectIdMap.contains k with
  | false => rw [removeObjectInternal_of_not_contains hc]; exact hedge
  | true =>
    obtain ⟨t, m, ht, htlt, heq, _, _, hmem⟩ := removeObjectInternal_of_contains hinv hc
    rw [heq]
    have hedges := Graph.edges_RemoveVertex htlt
    refine ⟨?_, ?_⟩
    · intro e he
      simp only [renderView] at he ⊢
      rw [hedges] at he
      simp only [List.mem_map, List.mem_filter, decide_eq_true_eq] at he
      obtain ⟨e0, ⟨he0, hne1, hne2⟩, rfl⟩ := he
      obtain ⟨p, c, hp, hcm, hpar⟩ := hedge.sound e0 he0
      refine ⟨p, c, ?_, ?_, hpar⟩
      · refine (hmem _ _).2 ⟨?_, e0.1, hp, rfl⟩
        intro hk
        rw [hk] at hp
        exact hne1 (hinv.id_unique hp ht)
      · refine (hmem _ _).2 ⟨?_, e0.2, hcm, rfl⟩
        intro hk
        rw [hk] at hcm
        exact hne2 (hinv.id_unique hcm ht)
    · simp only [renderView]
      rw [hedges, List.map_map]
      have hcomp : (Prod.snd ∘ fun e : Nat × Nat =>
          (Graph.renumber (w.m_graph.vertexData.length - 1) t e.1,
            Graph.renumber (w.m_graph.vertexData.length - 1) t e.2)) =
          (Graph.renumber (w.m_graph.vertexData.length - 1) t) ∘ Prod.snd := rfl
      rw [hcomp, ← List.map_map]
      have hsub : ((w.m_graph.edges.filter (fun e => decide (e.1 ≠ t ∧ e.2 ≠ t))).map
          Prod.snd).Nodup :=
        hedge.targets.sublist ((List.filter_sublist _).map Prod.snd)
      refine List.Nodup.map_on ?_ hsub
      intro x hx y hy hxy
      simp only [List.mem_map, List.mem_filter, decide_eq_true_eq] at hx hy
      obtain ⟨ex, ⟨_, _, hx2⟩, rfl⟩ := hx
      obtain ⟨ey, ⟨_, _, hy2⟩, rfl⟩ := hy
      unfold Graph.renumber at hxy
      split at hxy <;> split at hxy
      · omega
      · exact absurd hxy.symm hy2
      · exact absurd hxy hx2
      · exact hxy

theorem edgeInv_of_edges_nil {w : VtkWidget} (h : w.m_graph.edges = []) : EdgeInv w := by
  refine ⟨?_, ?_⟩
  · intro e he; rw [h] at he; cases he
  · rw [h]; exact List.nodup_nil

theorem clear_edgeInv {w : VtkWidget} (hinv : Inv w) : EdgeInv (clear w) := by
  apply edgeInv_of_edges_nil
  rw [clear_spec hinv]

theorem addAll_edgeInv (l : List QObject) {w : VtkWidget} (hinv : Inv w) (h : EdgeInv w) :
    EdgeInv (addAll w l) := by
  induction l generalizing w with
  | nil => exact h
  | cons o l ih => exact ih (addObject_inv hinv o) (addObject_edgeInv o w hinv h).1

theorem setObjectFilter_edgeInv {w : VtkWidget} (hinv : Inv w) (h : EdgeInv w)
    (f : Option QObject) : EdgeInv (setObjectFilter w f) := by
  by_cases hne : w.m_objectFilter = f
  · have : setObjectFilter w f = w := by
      unfold setObjectFilter
      rw [if_pos hne]
    rw [this]
    exact h
  · rw [setObjectFilter_of_ne hne]
    have hinv0 : Inv { w with m_objectFilter := f } := inv_congr hinv rfl rfl
    exact edgeInv_congr (addAll_edgeInv _ (clear_inv hinv0) (clear_edgeInv hinv0)) rfl rfl

end VtkWidget

theorem step_edgeInv {w : VtkWidget} (hinv : Inv w) (h : EdgeInv w) (op : Op) :
    EdgeInv (step w op) := by
  cases op with
  | addObject o => exact (VtkWidget.addObject_edgeInv o w hinv h).1
  | removeObject o =>
    have hinv1 : Inv (w.poolDel o) := VtkWidget.inv_congr hinv rfl rfl
    have h1 : EdgeInv (w.poolDel o) := VtkWidget.edgeInv_congr h rfl rfl
    exact VtkWidget.removeObjectInternal_edgeInv hinv1 h1 o
  | clear => exact VtkWidget.clear_edgeInv hinv
  | setObjectFilter o => exact VtkWidget.setObjectFilter_edgeInv hinv h o
  | mousePress => exact VtkWidget.edgeInv_congr h rfl rfl
  | mouseRelease => exact VtkWidget.edgeInv_congr h rfl rfl
  | timeout =>
    show EdgeInv (VtkWidget.timerEvent w)
    unfold VtkWidget.timerEvent
    split
    · exact VtkWidget.edgeInv_congr h rfl rfl
    · exact h

theorem Reachable.edgeInv {w : VtkWidget} (h : Reachable w) : EdgeInv w := by
  obtain ⟨ops, rfl⟩ := h
  have : ∀ (l : List Op) (v : VtkWidget), Inv v → EdgeInv v → EdgeInv (run v l) := by
    intro l
    induction l with
    | nil => intro v _ hv; exact hv
    | cons op l ih =>
      intro v hinv hv
      exact ih _ (step_inv hinv op) (step_edgeInv hinv hv op)
  exact this ops _ VtkWidget.new_inv (VtkWidget.edgeInv_of_edges_nil rfl)

/-! ## Mirroring the parent links -/

namespace VtkWidget

theorem mirrorInv_congr {S : QObject → Prop} {v u : VtkWidget} (h : MirrorInv S v)
    (h1 : u.m_objectIdMap = v.m_objectIdMap) (h2 : u.m_graph.edges = v.m_graph.edges)
    (h3 : u.m_objectFilter = v.m_objectFilter) : MirrorInv S u := by
  have ht : ∀ x, Tracked u x ↔ Tracked v x := by
    intro x; unfold Tracked; rw [h1]
  refine ⟨?_, ?_⟩
  · intro c p hc hs hpar
    rw [ht, filterAcceptsObject_congr h3 p]
    exact h.closed c p ((ht c).1 hc) hs hpar
  · intro c p hc hs hp hpar
    rw [h1, h2]
    exact h.mirror c p ((ht c).1 hc) hs ((ht p).1 hp) hpar

theorem mirrorInv_of_map_nil {S : QObject → Prop} {w : VtkWidget}
    (h : w.m_objectIdMap = []) : MirrorInv S w :=
  ⟨fun c _ hc => absurd hc (not_tracked_of_map_nil h c),
    fun c _ hc => absurd hc (not_tracked_of_map_nil h c)⟩

/-- Creating the vertex of an object that passed the guards keeps the mirror
invariant for every object but the new one. -/
theorem createVertex_mirror {S : QObject → Prop} {w : VtkWidget} (h : MirrorInv S w)
    {o : QObject} (hr : addRejected (poolAdd w o) o = false) :
    MirrorInv (fun x => S x ∨ x = o) (createVertex (poolAdd w o) o).1 := by
  rw [addRejected_poolAdd, addRejected_eq_false_iff] at hr
  have hfilt : ∀ y, (createVertex (poolAdd w o) o).1.filterAcceptsObject y =
      w.filterAcceptsObject y :=
    fun y => filterAcceptsObject_congr (createVertex_objectFilter _ _) y
  have hfind : ∀ x i, x ≠ o → w.m_objectIdMap.find (some x) = some i →
      (createVertex (poolAdd w o) o).1.m_objectIdMap.find (some x) = some i := by
    intro x i hx hi
    rw [createVertex_map, ObjectIdMap.find_insert_of_ne _ _ (fun hh => hx (Option.some.inj hh))]
    exact hi
  have hold : ∀ x, x ≠ o → Tracked (createVertex (poolAdd w o) o).1 x → Tracked w x := by
    intro x hx hxt
    rcases (tracked_createVertex_iff _ _ x).1 hxt with h1 | h1
    · exact absurd h1 hx
    · exact h1
  have ho : ¬ Tracked w o := by
    unfold Tracked
    rw [hr.2.2.1]
    simp
  refine ⟨?_, ?_⟩
  · intro c p hc hs hpar
    have hco : c ≠ o := fun hh => hs (Or.inr hh)
    rw [hfilt]
    rcases h.closed c p (hold c hco hc) (fun hh => hs (Or.inl hh)) hpar with h1 | h1
    · exact Or.inl ((tracked_createVertex_iff _ _ p).2 (Or.inr h1))
    · exact Or.inr h1
  · intro c p hc hs hp hpar
    have hco : c ≠ o := fun hh => hs (Or.inr hh)
    have hcw := hold c hco hc
    have hsc : ¬ S c := fun hh => hs (Or.inl hh)
    by_cases hpo : p = o
    · subst hpo
      rcases h.closed c p hcw hsc hpar with h1 | h1 | h1
      · exact absurd h1 ho
      · rw [hr.2.2.2] at h1; cases h1
      · exact absurd h1 hr.2.1
    · obtain ⟨ip, ic, a1, a2, a3⟩ := h.mirror c p hcw hsc (hold p hpo hp) hpar
      refine ⟨ip, ic, hfind p ip hpo a1, hfind c ic hco a2, ?_⟩
      rw [createVertex_edges]
      exact a3

end VtkWidget

namespace VtkWidget

theorem mirrorInv_edges_mono {S : QObject → Prop} {v u : VtkWidget} (h : MirrorInv S v)
    (h1 : u.m_objectIdMap = v.m_objectIdMap)
    (h2 : ∀ e ∈ v.m_graph.edges, e ∈ u.m_graph.edges)
    (h3 : u.m_objectFilter = v.m_objectFilter) : MirrorInv S u := by
  have ht : ∀ x, Tracked u x ↔ Tracked v x := by
    intro x; unfold Tracked; rw [h1]
  refine ⟨?_, ?_⟩
  · intro c p hc hs hpar
    rw [ht, filterAcceptsObject_congr h3 p]
    exact h.closed c p ((ht c).1 hc) hs hpar
  · intro c p hc hs hp hpar
    rw [h1]
    obtain ⟨ip, ic, a1, a2, a3⟩ := h.mirror c p ((ht c).1 hc) hs ((ht p).1 hp) hpar
    exact ⟨ip, ic, a1, a2, h2 _ a3⟩

/-- Once the pending object `o` has its parent handled, it leaves the set of
exceptions. -/
theorem mirrorInv_drop {S : QObject → Prop} {v : VtkWidget} {o : QObject}
    (h : MirrorInv (fun x => S x ∨ x = o) v)
    (hclosed : ∀ p, o.parent = some p →
      Tracked v p ∨ v.filterAcceptsObject p = false ∨ p.className = "QVTKInteractorInternal")
    (hmirror : ∀ p, Tracked v p → o.parent = some p →
      ∃ ip ic, v.m_objectIdMap.find (some p) = some ip ∧
        v.m_objectIdMap.find (some o) = some ic ∧ (ip, ic) ∈ v.m_graph.edges) :
    MirrorInv S v := by
  refine ⟨?_, ?_⟩
  · intro c p hc hs hpar
    by_cases hco : c = o
    · subst hco; exact hclosed p hpar
    · exact h.closed c p hc (fun hh => hh.elim hs hco) hpar
  · intro c p hc hs hp hpar
    by_cases hco : c = o
    · subst hco; exact hmirror p hp hpar
    · exact h.mirror c p hc (fun hh => hh.elim hs hco) hp hpar

/-- Adding keeps the mirror invariant. -/
theorem addObject_mirror (o : QObject) :
    ∀ (S : QObject → Prop) (w : VtkWidget), MirrorInv S w → MirrorInv S (addObject w o).2 := by
  induction o with
  | root i c =>
    intro S w h
    rw [addObject_root]
    cases hr : addRejected (poolAdd w (.root i c)) (.root i c) with
    | true => exact mirrorInv_congr h rfl rfl rfl
    | false =>
      simp only [Bool.false_eq_true, if_false]
      have h1 := createVertex_mirror h hr
      have h2 : MirrorInv (fun x => S x ∨ x = QObject.root i c)
          (renderView (createVertex (poolAdd w (.root i c)) (.root i c)).1) :=
        mirrorInv_congr h1 rfl rfl rfl
      exact mirrorInv_drop h2 (fun p hp => by simp [QObject.parent] at hp)
        (fun p _ hp => by simp [QObject.parent] at hp)
  | child i c p ih =>
    intro S w h
    rw [addObject_child]
    cases hr : addRejected (poolAdd w (.child i c p)) (.child i c p) with
    | true => exact mirrorInv_congr h rfl rfl rfl
    | false =>
      simp only [Bool.false_eq_true, if_false]
      have hr1 := hr
      rw [addRejected_poolAdd, addRejected_eq_false_iff] at hr1
      have h1 := createVertex_mirror h hr
      have hsnd : (createVertex (poolAdd w (.child i c p)) (.child i c p)).2 =
          w.m_graph.vertexData.length := createVertex_snd _ _
      have hf1 : (createVertex (poolAdd w (.child i c p)) (.child i c p)).1.m_objectIdMap.find
          (some (.child i c p)) = some w.m_graph.vertexData.length := by
        rw [createVertex_map, ObjectIdMap.find_insert_self]; rfl
      have hp1 : (createVertex (poolAdd w (.child i c p)) (.child i c p)).1.m_mousePressed =
          false := by
        rw [createVertex_mousePressed]; exact hr1.1
      rw [hsnd]
      generalize (createVertex (poolAdd w (.child i c p)) (.child i c p)).1 = w1
        at h1 hf1 hp1 ⊢
      have hw2 : ∃ w2, (if (!w1.m_objectIdMap.contains (some p)) = true then (addObject w1 p).2
            else w1) = w2 ∧ MirrorInv (fun x => S x ∨ x = QObject.child i c p) w2 ∧
          w2.m_objectIdMap.find (some (.child i c p)) = some w.m_graph.vertexData.length ∧
          (Tracked w2 p ∨ w2.filterAcceptsObject p = false ∨
            p.className = "QVTKInteractorInternal") := by
        cases hcp : w1.m_objectIdMap.contains (some p) with
        | true =>
          simp only [Bool.not_true, Bool.false_eq_true, if_false]
          exact ⟨w1, rfl, h1, hf1, Or.inl hcp⟩
        | false =>
          simp only [Bool.not_false, if_true]
          refine ⟨_, rfl, ih _ w1 h1, addObject_find_mono _ _ hf1, ?_⟩
          by_cases hcls : p.className = "QVTKInteractorInternal"
          · exact Or.inr (Or.inr hcls)
          · cases hacc : w1.filterAcceptsObject p with
            | true => exact Or.inl (addObject_accepted_tracked hp1 hacc hcls)
            | false =>
              right; left
              rw [filterAcceptsObject_congr (addObject_objectFilter w1 p)]
              exact hacc
      obtain ⟨w2, hw2eq, hm2, hf2, hcl2⟩ := hw2
      rw [hw2eq]
      clear hw2eq
      have hm3 : MirrorInv (fun x => S x ∨ x = QObject.child i c p)
          (renderView (addParentEdge w2 p w.m_graph.vertexData.length)) := by
        refine mirrorInv_edges_mono hm2 (addParentEdge_map _ _ _) ?_
          (addParentEdge_objectFilter _ _ _)
        intro e he
        show e ∈ (addParentEdge w2 p w.m_graph.vertexData.length).m_graph.edges
        unfold addParentEdge
        split
        · exact List.mem_append_left _ he
        · exact he
      refine mirrorInv_drop hm3 ?_ ?_
      · intro q hq
        simp only [QObject.parent, Option.some.injEq] at hq
        subst hq
        have ht : Tracked (renderView (addParentEdge w2 p w.m_graph.vertexData.length)) p ↔
            Tracked w2 p := tracked_addParentEdge_iff _ _ _ _
        rw [ht, filterAcceptsObject_congr
          (show (renderView (addParentEdge w2 p w.m_graph.vertexData.length)).m_objectFilter =
            w2.m_objectFilter from addParentEdge_objectFilter _ _ _)]
        exact hcl2
      · intro q hq hpar
        simp only [QObject.parent, Option.some.injEq] at hpar
        subst hpar
        have ht : Tracked w2 p := (tracked_addParentEdge_iff _ _ _ _).1 hq
        obtain ⟨j, hj⟩ := (ObjectIdMap.find_isSome_iff _ _).2 ht
        refine ⟨j, w.m_graph.vertexData.length, ?_, ?_, ?_⟩
        · show (addParentEdge w2 p _).m_objectIdMap.find (some p) = some j
          rw [addParentEdge_map]; exact hj
        · show (addParentEdge w2 p _).m_objectIdMap.find _ = _
          rw [addParentEdge_map]; exact hf2
        · show _ ∈ (addParentEdge w2 p w.m_graph.vertexData.length).m_graph.edges
          have hcp : w2.m_objectIdMap.contains (some p) = true := ht
          simp only [addParentEdge, hcp, if_true, Graph.AddEdge, List.mem_append,
            List.mem_singleton, ObjectIdMap.value_of_find hj]
          exact Or.inr trivial

theorem addAll_mirror (l : List QObject) {S : QObject → Prop} {w : VtkWidget}
    (h : MirrorInv S w) : MirrorInv S (addAll w l) := by
  induction l generalizing w with
  | nil => exact h
  | cons o l ih => exact ih (addObject_mirror o S w h)

end VtkWidget

namespace VtkWidget

/-- Removing a tracked object none of whose children is tracked keeps the
mirror invariant. -/
theorem removeObjectInternal_mirror {w : VtkWidget} (hinv : Inv w)
    (h : MirrorInv (fun _ => False) w) (k : Option QObject)
    (hsafe : ∀ x, k = some x → Tracked w x → ∀ c, Tracked w c → c.parent ≠ some x) :
    MirrorInv (fun _ => False) (removeObjectInternal w k).2 := by
  cases hc : w.m_objectIdMap.contains k with
  | false => rw [removeObjectInternal_of_not_contains hc]; exact h
  | true =>
    have hsub : ∀ x, Tracked (removeObjectInternal w k).2 x → Tracked w x ∧ some x ≠ k :=
      fun x hx => removeObjectInternal_tracked_sub hinv k hx
    have hkeep : ∀ x, Tracked w x → some x ≠ k → Tracked (removeObjectInternal w k).2 x :=
      fun x hx hne => removeObjectInternal_tracked_keep hinv k hx hne
    have hfilter := (removeObjectInternal_mousePressed w k).2.1
    have hpk : ∀ c p, Tracked w c → c.parent = some p → some p ≠ k := by
      intro c p hcw hpar hk
      have hpt : Tracked w p := by unfold Tracked; rw [hk]; exact hc
      exact hsafe p hk.symm hpt c hcw hpar
    refine ⟨?_, ?_⟩
    · intro c p hct _ hpar
      obtain ⟨hcw, _⟩ := hsub c hct
      rw [filterAcceptsObject_congr hfilter p]
      rcases h.closed c p hcw (fun hh => hh) hpar with h1 | h1
      · exact Or.inl (hkeep p h1 (hpk c p hcw hpar))
      · exact Or.inr h1
    · intro c p hct _ hpt hpar
      obtain ⟨hcw, hck⟩ := hsub c hct
      obtain ⟨hpw, hpk1⟩ := hsub p hpt
      obtain ⟨ip, ic, a1, a2, a3⟩ := h.mirror c p hcw (fun hh => hh) hpw hpar
      obtain ⟨t, m, ht, htlt, heq, hmnd, _, hmem⟩ := removeObjectInternal_of_contains hinv hc
      have hipt : ip ≠ t := by
        intro hh
        rw [hh] at a1
        exact hpk1 (hinv.key_unique (ObjectIdMap.mem_of_find a1) ht)
      have hict : ic ≠ t := by
        intro hh
        rw [hh] at a2
        exact hck (hinv.key_unique (ObjectIdMap.mem_of_find a2) ht)
      rw [heq]
      simp only [renderView]
      refine ⟨Graph.renumber (w.m_graph.vertexData.length - 1) t ip,
        Graph.renumber (w.m_graph.vertexData.length - 1) t ic, ?_, ?_, ?_⟩
      · exact ObjectIdMap.find_of_mem hmnd
          ((hmem _ _).2 ⟨hpk1, ip, ObjectIdMap.mem_of_find a1, rfl⟩)
      · exact ObjectIdMap.find_of_mem hmnd
          ((hmem _ _).2 ⟨hck, ic, ObjectIdMap.mem_of_find a2, rfl⟩)
      · rw [Graph.edges_RemoveVertex htlt]
        simp only [List.mem_map, List.mem_filter, decide_eq_true_eq]
        exact ⟨(ip, ic), ⟨a3, hipt, hict⟩, rfl⟩

theorem setObjectFilter_mirror {w : VtkWidget} (h : MirrorInv (fun _ => False) w)
    (f : Option QObject) : MirrorInv (fun _ => False) (setObjectFilter w f) := by
  by_cases hne : w.m_objectFilter = f
  · have : setObjectFilter w f = w := by
      unfold setObjectFilter
      rw [if_pos hne]
    rw [this]
    exact h
  · rw [setObjectFilter_of_ne hne]
    exact mirrorInv_congr (addAll_mirror _ (mirrorInv_of_map_nil (clear_map _))) rfl rfl rfl

end VtkWidget

theorem step_mirror {w : VtkWidget} (hinv : Inv w) (h : MirrorInv (fun _ => False) w)
    (op : Op) (hsafe : SafeOp w op) : MirrorInv (fun _ => False) (step w op) := by
  cases op with
  | addObject o => exact VtkWidget.addObject_mirror o _ w h
  | removeObject o =>
    have hinv1 : Inv (w.poolDel o) := VtkWidget.inv_congr hinv rfl rfl
    have h1 : MirrorInv (fun _ => False) (w.poolDel o) := VtkWidget.mirrorInv_congr h rfl rfl rfl
    exact VtkWidget.removeObjectInternal_mirror hinv1 h1 o hsafe
  | clear => exact VtkWidget.mirrorInv_of_map_nil (VtkWidget.clear_map w)
  | setObjectFilter o => exact VtkWidget.setObjectFilter_mirror h o
  | mousePress => exact VtkWidget.mirrorInv_congr h rfl rfl rfl
  | mouseRelease => exact VtkWidget.mirrorInv_congr h rfl rfl rfl
  | timeout =>
    show MirrorInv _ (VtkWidget.timerEvent w)
    unfold VtkWidget.timerEvent
    split
    · exact VtkWidget.mirrorInv_congr h rfl rfl rfl
    · exact h

theorem SafeReachable.reachable {w : VtkWidget} (h : SafeReachable w) : Reachable w := by
  induction h with
  | init => exact reachable_new
  | next op _ _ ih => exact ih.step op

theorem SafeReachable.mirror {w : VtkWidget} (h : SafeReachable w) :
    MirrorInv (fun _ => False) w := by
  induction h with
  | init => exact VtkWidget.mirrorInv_of_map_nil rfl
  | next op hw hsafe ih => exact step_mirror hw.reachable.inv ih op hsafe

theorem safeReachable_scenarioPCC : SafeReachable scenarioPCC :=
  SafeReachable.next (.addObject objC2)
    (SafeReachable.next (.addObject objC1)
      (SafeReachable.next (.addObject objP) SafeReachable.init trivial) trivial) trivial

/-- C13 fails as stated: after `addObject(C1)` (which pulls in `P`),
`removeObject(P)` and `addObject(P)`, both `C1` and its parent `P` are tracked,
with ids 0 and 1, and the store has no edge at all. -/
theorem graph_mirror_counterexample :
    Reachable orphanState ∧ Tracked orphanState objC1 ∧ Tracked orphanState objP ∧
    objC1.parent = some objP ∧
    orphanState.m_objectIdMap.find (some objP) = some 1 ∧
    orphanState.m_objectIdMap.find (some objC1) = some 0 ∧
    orphanState.m_graph.edges = [] ∧
    (1, 0) ∉ orphanState.m_graph.edges :=
  ⟨⟨_, rfl⟩, by decide, by decide, rfl, by decide, by decide, by decide, by decide⟩

/-- C13 amended: in every state reachable by calls and events none of which
removes a tracked object while one of its children is tracked, for every
tracked object `c` whose parent `p` is also tracked the store contains an edge
from the id of `p` to the id of `c`. -/
theorem graph_mirrors_parents (w : VtkWidget) (h : SafeReachable w) (c p : QObject)
    (hc : Tracked w c) (hp : Tracked w p) (hpar : c.parent = some p) :
    ∃ ip ic, w.m_objectIdMap.find (some p) = some ip ∧
      w.m_objectIdMap.find (some c) = some ic ∧ (ip, ic) ∈ w.m_graph.edges :=
  h.mirror.mirror c p hc (fun hh => hh) hp hpar

theorem graph_mirrors_parents_witness :
    SafeReachable scenarioPCC ∧ Tracked scenarioPCC objC2 ∧ Tracked scenarioPCC objP ∧
    objC2.parent = some objP ∧
    ∃ ip ic, scenarioPCC.m_objectIdMap.find (some objP) = some ip ∧
      scenarioPCC.m_objectIdMap.find (some objC2) = some ic ∧
      (ip, ic) ∈ scenarioPCC.m_graph.edges :=
  ⟨safeReachable_scenarioPCC, by decide, by decide, rfl,
    graph_mirrors_parents scenarioPCC safeReachable_scenarioPCC objC2 objP (by decide)
      (by decide) rfl⟩

/-- C16: in every reachable state every edge of the store runs from the id of
a tracked object `p` to the id of a tracked object `c` whose parent is `p`; no
vertex is the target of two edges, so no tracked object has more than one
incoming edge. Reachable states include those right after a removal and its id
remapping. -/
theorem edges_join_parent_child (w : VtkWidget) (h : Reachable w) :
    (∀ e ∈ w.m_graph.edges, ∃ p c, Tracked w p ∧ Tracked w c ∧
      w.m_objectIdMap.find (some p) = some e.1 ∧
      w.m_objectIdMap.find (some c) = some e.2 ∧ c.parent = some p) ∧
    (w.m_graph.edges.map Prod.snd).Nodup ∧
    (∀ c i, w.m_objectIdMap.find (some c) = some i →
      (w.m_graph.edges.filter (fun e => decide (e.2 = i))).length ≤ 1) := by
  have hinv := h.inv
  have hedge := h.edgeInv
  refine ⟨?_, hedge.targets, ?_⟩
  · intro e he
    obtain ⟨p, c, h1, h2, h3⟩ := hedge.sound e he
    exact ⟨p, c, (ObjectIdMap.contains_iff _ _).2 ⟨_, h1⟩,
      (ObjectIdMap.contains_iff _ _).2 ⟨_, h2⟩, ObjectIdMap.find_of_mem hinv.nodup h1,
      ObjectIdMap.find_of_mem hinv.nodup h2, h3⟩
  · intro c i _
    have hcount := List.nodup_iff_count_le_one.1 hedge.targets i
    have heq : (w.m_graph.edges.filter (fun e => decide (e.2 = i))).length =
        List.count i (w.m_graph.edges.map Prod.snd) := by
      generalize w.m_graph.edges = l
      induction l with
      | nil => rfl
      | cons e l ih =>
        by_cases hei : e.2 = i
        · simp [List.filter_cons, hei, ih]
        · simp [List.filter_cons, hei, ih, List.count_cons]
    rw [heq]
    exact hcount

theorem edges_join_parent_child_witness :
    Reachable (step scenarioPCC (.removeObject (some objC1))) ∧
    ((step scenarioPCC (.removeObject (some objC1))).m_graph.edges.map Prod.snd).Nodup :=
  ⟨reachable_scenarioPCC.step _,
    (edges_join_parent_child _ (reachable_scenarioPCC.step _)).2.1⟩

/-- C17: in every reachable state every tracked object is a member of the
available pool, passes `filterAcceptsObject` for the current filter and is not
of the interactor class. This covers parents pulled in by the recursive add,
which are tracked objects of the state the add leaves. -/
theorem tracked_accepted (w : VtkWidget) (h : Reachable w) (o : QObject) (ho : Tracked w o) :
    o ∈ w.m_availableObjects ∧ w.filterAcceptsObject o = true ∧
    o.className ≠ "QVTKInteractorInternal" :=
  h.trackedSound o ho

theorem tracked_accepted_witness :
    Reachable (step VtkWidget.new (.addObject objC1)) ∧
    Tracked (step VtkWidget.new (.addObject objC1)) objP ∧
    objP ∈ (step VtkWidget.new (.addObject objC1)).m_availableObjects :=
  ⟨⟨[.addObject objC1], rfl⟩, by decide,
    (tracked_accepted _ ⟨[.addObject objC1], rfl⟩ objP (by decide)).1⟩

/-- C18: from a reachable state in which the pointer is pressed, a
`setObjectFilter` call with a filter different from the current one leaves the
graph without vertices and edges and the identity map empty, whatever the pool
contains, and leaves the pool as it was. -/
theorem setObjectFilter_pressed_empty (w : VtkWidget) (f : Option QObject) (h : Reachable w)
    (hp : w.m_mousePressed = true) (hne : w.m_objectFilter ≠ f) :
    (w.setObjectFilter f).m_graph.GetNumberOfVertices = 0 ∧
    (w.setObjectFilter f).m_graph.GetNumberOfEdges = 0 ∧
    (w.setObjectFilter f).m_objectIdMap = [] ∧
    (w.setObjectFilter f).m_availableObjects = w.m_availableObjects ∧
    (w.setObjectFilter f).m_objectFilter = f := by
  have hinv0 : Inv { w with m_objectFilter := f } := VtkWidget.inv_congr h.inv rfl rfl
  rw [VtkWidget.setObjectFilter_pressed hp hne, VtkWidget.clear_spec hinv0]
  exact ⟨rfl, rfl, rfl, rfl, rfl⟩

theorem setObjectFilter_pressed_empty_witness :
    Reachable (step scenarioABC .mousePress) ∧
    (step scenarioABC .mousePress).m_mousePressed = true ∧
    (step scenarioABC .mousePress).m_objectFilter ≠ some objB ∧
    ((step scenarioABC .mousePress).setObjectFilter (some objB)).m_objectIdMap = [] :=
  ⟨⟨[.addObject objA, .addObject objB, .addObject objC, .mousePress], rfl⟩, rfl, by decide,
    (setObjectFilter_pressed_empty (step scenarioABC .mousePress) (some objB)
      ⟨[.addObject objA, .addObject objB, .addObject objC, .mousePress], rfl⟩ rfl
      (by decide)).2.2.1⟩

end GammaRay
